import Mathlib

/-!
# Client-code emitter of `model/templates.go`

A shallow embedding of the template-driven Go client generator: the five
protocol templates (`json`, `query`, `ec2`, `rest-xml`, `rest-json`), the shared
fragments (`header`, `footer`, `rest-uri`, `rest-querystring`,
`rest-reqheaders`, `rest-respheaders`) and the driver `Generate`.

The output of a template is kept as the sequence of writes the template engine
performs: one `Emit.text` per literal text node of the template and one
`Emit.val` per evaluated action.  `Out.bytes` concatenates them into the bytes
that reach the buffer.  Braces inside template text are spelled `\x7b`/`\x7d`.
-/

set_option autoImplicit false

namespace Model

/-! ## Output of a template -/

/-- One write of the template engine: literal template text, or the printed
value of an action. -/
inductive Emit where
  | text (s : String)
  | val (s : String)
deriving DecidableEq, Repr

/-- The writes of a template execution, in order. -/
abbrev Out := List Emit

/-- The string carried by a write. -/
def Emit.str : Emit → String
  | .text s => s
  | .val s => s

/-- The bytes accumulated in the output buffer. -/
def Out.bytes (o : Out) : String :=
  ⟨(o.map fun e => e.str.data).flatten⟩

/-! ## Service model -/

/-- Modelled from the spec: the `XMLNamespace` record of a member or shape
reference (section 3), declared outside `templates.go`; the templates read
`URI`. -/
structure XMLNamespace where
  URI : String := ""
deriving DecidableEq, Repr

/-- Modelled from the spec: the shape a member refers to (section 3, `Member.Shape`),
declared outside `templates.go`; the templates read `ShapeType`, `Name` and
`Type` (here `GoType`) of it. -/
structure MemberShape where
  ShapeType : String := ""
  Name : String := ""
  GoType : String := ""
deriving DecidableEq, Repr

/-- Modelled from the spec: a `Member` (section 3), declared outside
`templates.go`, with the fields and the per-protocol tag formatters the
templates use. -/
structure Member where
  Name : String := ""
  GoType : String := ""
  Shape : MemberShape := {}
  Location : String := ""
  LocationName : String := ""
  Streaming : Bool := false
  XMLNamespace : XMLNamespace := {}
  JSONTag : String := ""
  QueryTag : String → String := fun _ => ""
  EC2Tag : String := ""
  XMLTag : String → String := fun _ => ""

/-- Modelled from the spec: a `Shape` (section 3), declared outside
`templates.go`.  `Members` and `Enums` are kept as the list of entries in the
order the template engine iterates them. -/
structure Shape where
  Name : String := ""
  ShapeType : String := ""
  Exception : Bool := false
  Enum : Bool := false
  Enums : List (String × String) := []
  Members : List (String × Member) := []
  Payload : String := ""
  ResultWrapper : String := ""
  GoType : String := ""
  Literal : String := ""

/-- Modelled from the spec: a shape reference (section 3, `InputRef`/`OutputRef`),
declared outside `templates.go`. -/
structure ShapeRef where
  WrappedType : String := ""
  WrappedLiteral : String := ""
  LocationName : String := ""
  XMLNamespace : XMLNamespace := {}
deriving DecidableEq, Repr

/-- Modelled from the spec: the `HTTP` record of an operation (section 3),
declared outside `templates.go`. -/
structure HTTPInfo where
  Method : String := ""
  RequestURI : String := ""
deriving DecidableEq, Repr

/-- Modelled from the spec: an `Operation` (section 3), declared outside
`templates.go`; `Input`, `Output`, `InputRef` and `OutputRef` are optional. -/
structure Operation where
  Documentation : String := ""
  HTTP : HTTPInfo := {}
  Input : Option Shape := none
  Output : Option Shape := none
  InputRef : Option ShapeRef := none
  OutputRef : Option ShapeRef := none

/-- Modelled from the spec: the `Metadata` record (section 3), declared outside
`templates.go`. -/
structure Metadata where
  Protocol : String := ""
  EndpointPrefix : String := ""
  APIVersion : String := ""
  JSONVersion : String := ""
  TargetPrefix : String := ""
deriving DecidableEq, Repr

/-- Modelled from the spec: the `Service` model (section 3), the package-level
value `service` that `Generate` renders, declared outside `templates.go`.  The
three mappings are kept as the list of entries in iteration order. -/
structure Service where
  Name : String := ""
  FullName : String := ""
  PackageName : String := ""
  Metadata : Metadata := {}
  Operations : List (String × Operation) := []
  Shapes : List (String × Shape) := []
  Wrappers : List (String × Shape) := []

/-- Modelled from the spec: what the templates take from outside
`templates.go`.  `godoc` and `exportable` are the two functions of the
`FuncMap` (section 4.1, pure functions of their arguments).  `zeroIsTrue` says
whether the value `index` yields for a key absent from `Members` counts as
true for `with`/`if`: that is so when the mapping holds members by value (the
zero member is a struct) and not so when it holds them by pointer (nil). -/
structure Env where
  godoc : String → String → String
  exportable : String → String
  zeroIsTrue : Bool

/-- Errors returned by `Generate`. -/
inductive Error where
  | noTemplate (name : String)
  | exec (msg : String)
  | external (msg : String)
deriving DecidableEq, Repr

/-! ## Template engine primitives -/

/-- The `range` action over a mapping with a body that cannot fail. -/
def range {α : Type} (body : String → α → Out) : List (String × α) → Out
  | [] => []
  | (k, v) :: rest => body k v ++ range body rest

/-- The `range` action over a mapping with a body that can fail. -/
def rangeE {α : Type} (body : String → α → Except Error Out) :
    List (String × α) → Except Error Out
  | [] => .ok []
  | (k, v) :: rest =>
    match body k v with
    | .error e => .error e
    | .ok a =>
      match rangeE body rest with
      | .error e => .error e
      | .ok b => .ok (a ++ b)

/-- The `index` function on `Members`: the entry under the key, or the zero
value of the element type; `none` stands for a result that counts as false. -/
def indexMembers (E : Env) (ms : List (String × Member)) (key : String) : Option Member :=
  match ms.lookup key with
  | some m => some m
  | none => if E.zeroIsTrue then some {} else none

/-- Truth of an `index` result, as `if` and `with` see it. -/
def truth (m : Option Member) : Bool := m.isSome

/-- Field access through an optional reference: evaluating a field of a nil
reference is an execution error. -/
def deref (field : String) : Option ShapeRef → Except Error ShapeRef
  | some r => .ok r
  | none => .error (.exec ("nil pointer evaluating ShapeRef." ++ field))

/-! ## `common`: header and footer -/

/-- Template `header`. -/
def header (s : Service) : Out :=
  [.text "\n// THIS FILE IS AUTOMATICALLY GENERATED. DO NOT EDIT.\n\n// Package ",
   .val s.PackageName,
   .text " provides a client for ",
   .val s.FullName,
   .text ".\npackage ",
   .val s.PackageName,
   .text "\n\nimport (\n  \"net/http\"\n  \"time\"\n\n  \"github.com/stripe/aws-go/aws\"\n  \"github.com/stripe/aws-go/gen/endpoints\"\n)\n\n"]

/-- Template `footer`. -/
def footer : Out :=
  [.text "\n// avoid errors if the packages aren\x27t referenced\nvar _ time.Time\n"]

/-- Template `root`: the text of the first parsed source outside its `define`
blocks. -/
def root : Out :=
  [.text "\n", .text "\n\n", .text "\n\n"]

/-! ## Pieces shared by the protocol templates -/

/-- The `range` over the members of a structure inside a struct declaration;
`tag` is the tag formatter the protocol uses. -/
def memberFields (E : Env) (tag : Member → String) (ms : List (String × Member)) : Out :=
  range (fun name m =>
    [.text "\n", .val (E.exportable name), .text " ", .val m.GoType, .text " ", .val (tag m),
     .text "  "]) ms

/-- The `else if $s.Enum` branch of the shape loop: the constant block. -/
def enumBlock (svc : Service) (s : Shape) : Out :=
  [.text "\n// Possible values for ", .val svc.Name, .text ".\nconst (\n"]
  ++ range (fun name value => [.text "\n", .val name, .text " = ", .val value]) s.Enums
  ++ [.text "\n)\n"]

/-- The body of `range $name, $s := .Shapes`.  `opening` is the text after the
declared name, `tag` the tag formatter and `closing` the text that ends the
declaration; they are what differs between the five templates. -/
def shapeBody (E : Env) (svc : Service) (opening : String) (tag : Shape → Member → String)
    (closing : String → Out) (name : String) (s : Shape) : Out :=
  [.text "\n"]
  ++ (if s.ShapeType = "structure" then
        [.text "\n"]
        ++ (if !s.Exception then
              [.text "\n\n// ", .val (E.exportable name), .text " is undocumented.\ntype ",
               .val (E.exportable name), .text opening]
              ++ memberFields E (tag s) s.Members
              ++ closing (E.exportable name)
            else [])
        ++ [.text "\n"]
      else if s.Enum then enumBlock svc s
      else [])
  ++ [.text "\n"]

/-- The closing text of a struct declaration in `json`, `query`, `ec2` and
`rest-json`. -/
def plainClosing (_ : String) : Out := [.text "\n\x7d\n\n"]

/-! ## `jsonClient` -/

/-- The body of `range $name, $op := .Operations` in template `json`. -/
def jsonMethod (E : Env) (svc : Service) (name : String) (op : Operation) : Out :=
  [.text "\n\n", .val (E.godoc name op.Documentation), .text " func (c *", .val svc.Name,
   .text ") ", .val (E.exportable name), .text "("]
  ++ (match op.Input with
      | some i => [.text "req ", .val i.GoType]
      | none => [])
  ++ [.text ") ("]
  ++ (match op.Output with
      | some o => [.text "resp ", .val o.GoType, .text ","]
      | none => [])
  ++ [.text " err error) \x7b\n  "]
  ++ (match op.Output with
      | some o => [.text "resp = ", .val o.Literal]
      | none => [.text "// NRE"])
  ++ [.text "\n  err = c.client.Do(\"", .val name, .text "\", \"", .val op.HTTP.Method,
      .text "\", \"", .val op.HTTP.RequestURI, .text "\", "]
  ++ (match op.Input with
      | some _ => [.text " req "]
      | none => [.text " nil "])
  ++ [.text ", "]
  ++ (match op.Output with
      | some _ => [.text " resp "]
      | none => [.text " nil "])
  ++ [.text ")\n  return\n\x7d\n\n"]

/-- The text of template `json` between the header and the operations. -/
def jsonPreamble (svc : Service) : Out :=
  [.text "\n\n// ", .val svc.Name, .text " is a client for ", .val svc.FullName,
   .text ".\ntype ", .val svc.Name,
   .text " struct \x7b\n  client *aws.JSONClient\n\x7d\n\n// New returns a new ",
   .val svc.Name,
   .text " client.\nfunc New(creds aws.CredentialsProvider, region string, client *http.Client) *",
   .val svc.Name,
   .text " \x7b\n  if client == nil \x7b\n     client = http.DefaultClient\n  \x7d\n\n  endpoint, service, region := endpoints.Lookup(\"",
   .val svc.Metadata.EndpointPrefix,
   .text "\", region)\n\n  return &",
   .val svc.Name,
   .text "\x7b\n    client: &aws.JSONClient\x7b\n      Context: aws.Context\x7b\n        Credentials: creds,\n        Service: service,\n        Region: region,\n      \x7d,      Client: client,\n      Endpoint: endpoint,\n      JSONVersion: \"",
   .val svc.Metadata.JSONVersion,
   .text "\",\n      TargetPrefix: \"",
   .val svc.Metadata.TargetPrefix,
   .text "\",\n    \x7d,\n  \x7d\n\x7d\n\n"]

/-- Template `json`. -/
def jsonClient (E : Env) (svc : Service) : Out :=
  [.text "\n"]
  ++ header svc
  ++ jsonPreamble svc
  ++ range (jsonMethod E svc) svc.Operations
  ++ [.text "\n\n"]
  ++ range (shapeBody E svc " struct \x7b\n" (fun _ m => m.JSONTag) plainClosing) svc.Shapes
  ++ [.text "\n\n"]
  ++ footer
  ++ [.text "\n"]

/-! ## `queryClient` and `ec2Client` -/

/-- The action `if $op.Output` ... `$op.OutputRef.WrappedLiteral` ... `else` of
the `query` and `ec2` methods. -/
def wrappedInit (op : Operation) : Except Error Out :=
  match op.Output with
  | some _ =>
    match deref "WrappedLiteral" op.OutputRef with
    | .error e => .error e
    | .ok r => .ok [.text "resp = ", .val r.WrappedLiteral]
  | none => .ok [.text "// NRE"]

/-- The text of a `query` or `ec2` method around the initialisation `init` of
the response. -/
def queryMethodText (E : Env) (svc : Service) (name : String) (op : Operation) (init : Out) :
    Out :=
  [.text "\n\n", .val (E.godoc name op.Documentation), .text " func (c *", .val svc.Name,
   .text ") ", .val (E.exportable name), .text "("]
  ++ (match op.InputRef with
      | some r => [.text "req ", .val r.WrappedType]
      | none => [])
  ++ [.text ") ("]
  ++ (match op.OutputRef with
      | some r => [.text "resp ", .val r.WrappedType, .text ","]
      | none => [])
  ++ [.text " err error) \x7b\n  "]
  ++ init
  ++ [.text "\n  err = c.client.Do(\"", .val name, .text "\", \"", .val op.HTTP.Method,
      .text "\", \"", .val op.HTTP.RequestURI, .text "\", "]
  ++ (match op.Input with
      | some _ => [.text " req "]
      | none => [.text " nil "])
  ++ [.text ", "]
  ++ (match op.Output with
      | some _ => [.text " resp "]
      | none => [.text " nil "])
  ++ [.text ")\n  return\n\x7d\n\n"]

/-- The body of `range $name, $op := .Operations` in templates `query` and
`ec2` (the two texts are the same). -/
def queryMethod (E : Env) (svc : Service) (name : String) (op : Operation) : Except Error Out :=
  match wrappedInit op with
  | .error e => .error e
  | .ok init => .ok (queryMethodText E svc name op init)

/-- The body of `range $name, $op := .Operations` in template `ec2`. -/
def ec2Method (E : Env) (svc : Service) (name : String) (op : Operation) : Except Error Out :=
  queryMethod E svc name op

/-- The body of `range $wname, $s := .Wrappers`; `tag` is the tag formatter
applied to the members, given the wrapper name. -/
def wrapperBody (E : Env) (tag : String → Member → String) (wname : String) (s : Shape) : Out :=
  [.text "\n\n// ", .val (E.exportable wname), .text " is a wrapper for ", .val s.Name,
   .text ".\ntype ", .val (E.exportable wname), .text " struct \x7b\n"]
  ++ memberFields E (tag wname) s.Members
  ++ [.text "\n\x7d\n\n"]

/-- The text of templates `query` and `ec2` between the header and the
operations; `clientType` is `QueryClient` or `EC2Client`. -/
def queryPreamble (svc : Service) (clientType : String) : Out :=
  [.text "\n\n// ", .val svc.Name, .text " is a client for ", .val svc.FullName,
   .text ".\ntype ", .val svc.Name,
   .text (" struct \x7b\n  client *aws." ++ clientType ++ "\n\x7d\n\n// New returns a new "),
   .val svc.Name,
   .text " client.\nfunc New(creds aws.CredentialsProvider, region string, client *http.Client) *",
   .val svc.Name,
   .text " \x7b\n  if client == nil \x7b\n     client = http.DefaultClient\n  \x7d\n\n  endpoint, service, region := endpoints.Lookup(\"",
   .val svc.Metadata.EndpointPrefix,
   .text "\", region)\n\n  return &",
   .val svc.Name,
   .text ("\x7b\n    client: &aws." ++ clientType ++ "\x7b\n      Context: aws.Context\x7b\n        Credentials: creds,\n        Service: service,\n        Region: region,\n      \x7d,\n      Client: client,\n      Endpoint: endpoint,\n      APIVersion: \""),
   .val svc.Metadata.APIVersion,
   .text "\",\n    \x7d,\n  \x7d\n\x7d\n\n"]

/-- The text of template `query` around the rendered methods. -/
def queryClientText (E : Env) (svc : Service) (methods : Out) : Out :=
  [.text "\n"]
  ++ header svc
  ++ queryPreamble svc "QueryClient"
  ++ methods
  ++ [.text "\n\n"]
  ++ range (shapeBody E svc " struct \x7b\n" (fun s m => m.QueryTag s.ResultWrapper)
       plainClosing) svc.Shapes
  ++ [.text "\n\n"]
  ++ range (wrapperBody E (fun wname m => m.QueryTag wname)) svc.Wrappers
  ++ [.text "\n\n"]
  ++ footer
  ++ [.text "\n"]

/-- Template `query`. -/
def queryClient (E : Env) (svc : Service) : Except Error Out :=
  match rangeE (queryMethod E svc) svc.Operations with
  | .error e => .error e
  | .ok methods => .ok (queryClientText E svc methods)

/-- The text of template `ec2` around the rendered methods. -/
def ec2ClientText (E : Env) (svc : Service) (methods : Out) : Out :=
  [.text "\n"]
  ++ header svc
  ++ queryPreamble svc "EC2Client"
  ++ methods
  ++ [.text "\n\n"]
  ++ range (shapeBody E svc " struct \x7b\n" (fun _ m => m.EC2Tag) plainClosing) svc.Shapes
  ++ [.text "\n\n"]
  ++ range (wrapperBody E (fun _ m => m.EC2Tag)) svc.Wrappers
  ++ [.text "\n\n"]
  ++ footer
  ++ [.text "\n"]

/-- Template `ec2`. -/
def ec2Client (E : Env) (svc : Service) : Except Error Out :=
  match rangeE (ec2Method E svc) svc.Operations with
  | .error e => .error e
  | .ok methods => .ok (ec2ClientText E svc methods)

/-! ## `restCommon`: the shared REST fragments

The fragments are executed with an operation as their data.  `rest-uri`,
`rest-querystring` and `rest-reqheaders` read `.Input`; `rest-respheaders`
reads `.Output.Members` and is only reached under `if $op.Output`, so it is
given the output shape. -/

/-- The body of the `range` of template `rest-uri`, for one input member. -/
def restUriMember (E : Env) (name : String) (m : Member) : Out :=
  [.text "\n  "]
  ++ (if m.Location = "uri" then
        [.text "\n\n  if req.", .val (E.exportable name),
         .text " != nil \x7b\n    uri = strings.Replace(uri, \"\x7b\"+\"",
         .val m.LocationName,
         .text "\"+\"\x7d\", aws.EscapePath(*req.",
         .val (E.exportable name),
         .text "), -1)\n    uri = strings.Replace(uri, \"\x7b\"+\"",
         .val m.LocationName,
         .text "+\"+\"\x7d\", aws.EscapePath(*req.",
         .val (E.exportable name),
         .text "), -1)\n  \x7d\n\n  "]
      else [])
  ++ [.text "\n  "]

/-- Template `rest-uri`. -/
def restUri (E : Env) (op : Operation) : Out :=
  [.text "\n  "]
  ++ (match op.Input with
      | some i => [.text "\n  "] ++ range (restUriMember E) i.Members ++ [.text "\n  "]
      | none => [])
  ++ [.text "\n\n"]

/-- The body of the `range` of template `rest-querystring`, for one input
member. -/
def restQuerystringMember (E : Env) (name : String) (m : Member) : Out :=
  [.text "\n  "]
  ++ (if m.Location = "querystring" then
        [.text "\n\n\n  "]
        ++ (if m.Shape.ShapeType = "string" then
              [.text "\n\n  if req.", .val (E.exportable name),
               .text " != nil \x7b\n    q.Set(\"", .val m.LocationName,
               .text "\", *req.", .val (E.exportable name),
               .text ")\n  \x7d\n\n  "]
            else if m.Shape.ShapeType = "timestamp" then
              [.text "\n\n  if req.", .val (E.exportable name),
               .text " != (time.Time\x7b\x7d) \x7b\n    q.Set(\"", .val m.LocationName,
               .text "\", req.", .val (E.exportable name),
               .text ".Format(time.RFC822))\n  \x7d\n\n  "]
            else if m.Shape.ShapeType = "integer" then
              [.text "\n\n  if req.", .val (E.exportable name),
               .text " != nil \x7b\n    q.Set(\"", .val m.LocationName,
               .text "\", strconv.Itoa(*req.", .val (E.exportable name),
               .text "))\n  \x7d\n\n  "]
            else
              [.text "\n\n  if req.", .val (E.exportable name),
               .text " != nil \x7b\n    q.Set(\"", .val m.LocationName,
               .text "\", fmt.Sprintf(\"%v\", req.", .val (E.exportable name),
               .text "))\n  \x7d\n\n  "])
        ++ [.text "\n\n  "]
      else [])
  ++ [.text "\n  "]

/-- Template `rest-querystring`. -/
def restQuerystring (E : Env) (op : Operation) : Out :=
  [.text "\n  q := url.Values\x7b\x7d\n\n  "]
  ++ (match op.Input with
      | some i => [.text "\n  "] ++ range (restQuerystringMember E) i.Members ++ [.text "\n  "]
      | none => [])
  ++ [.text "\n\n  if len(q) > 0 \x7b\n    uri += \"?\" + q.Encode()\n  \x7d\n"]

/-- The body of the `range` of template `rest-reqheaders`, for one input
member. -/
def restReqheadersMember (E : Env) (name : String) (m : Member) : Out :=
  [.text "\n  "]
  ++ (if m.Location = "header" then
        [.text "\n\n "]
        ++ (if m.Shape.ShapeType = "string" then
              [.text "\n\n  if req.", .val (E.exportable name),
               .text " != nil \x7b\n    httpReq.Header.Set(\"", .val m.LocationName,
               .text "\", *req.", .val (E.exportable name),
               .text ")\n  \x7d\n\n  "]
            else if m.Shape.ShapeType = "timestamp" then
              [.text "\n\n  if req.", .val (E.exportable name),
               .text " != (time.Time\x7b\x7d) \x7b\n    httpReq.Header.Set(\"",
               .val m.LocationName,
               .text "\", req.", .val (E.exportable name),
               .text ".Format(time.RFC822))\n  \x7d\n\n  "]
            else if m.Shape.ShapeType = "integer" then
              [.text "\n\n  "]
              ++ (if m.LocationName = "Content-Length" then
                    [.text "\n\n  if req.", .val (E.exportable name),
                     .text " != nil \x7b\n    httpReq.ContentLength = *req.",
                     .val (E.exportable name),
                     .text "\n  \x7d\n\n  "]
                  else
                    [.text "\n\n  if req.", .val (E.exportable name),
                     .text " != nil \x7b\n    httpReq.Header.Set(\"", .val m.LocationName,
                     .text "\", strconv.Itoa(*req.", .val (E.exportable name),
                     .text "))\n  \x7d\n\n  "])
              ++ [.text "\n\n  "]
            else
              [.text "\n\n  if req.", .val (E.exportable name),
               .text " != nil \x7b\n    httpReq.Header.Set(\"", .val m.LocationName,
               .text "\", fmt.Sprintf(\"%v\", req.", .val (E.exportable name),
               .text "))\n  \x7d\n\n  "])
        ++ [.text "\n\n  "]
      else if m.Location = "headers" then
        [.text "\n\n  for name, value := range req.", .val (E.exportable name),
         .text " \x7b\n\thttpReq.Header.Set(name, value)\n  \x7d\n\n  "]
      else [])
  ++ [.text "\n  "]

/-- Template `rest-reqheaders`. -/
def restReqheaders (E : Env) (op : Operation) : Out :=
  [.text "\n  "]
  ++ (match op.Input with
      | some i => [.text "\n  "] ++ range (restReqheadersMember E) i.Members ++ [.text "\n  "]
      | none => [])
  ++ [.text "\n"]

/-- The `if eq $m.Location "header"` branch of template `rest-respheaders`. -/
def restRespheaderValue (E : Env) (name : String) (m : Member) : Out :=
  [.text "\n        if s := httpResp.Header.Get(\"", .val m.LocationName,
   .text "\"); s != \"\" \x7b\n         "]
  ++ (if m.Shape.ShapeType = "string" then
        [.text "\n          resp.", .val (E.exportable name), .text " = &s\n         "]
      else if m.Shape.ShapeType = "timestamp" then
        [.text "\n           var t time.Time\n           t, err = time.Parse(time.RFC1123, s)\n           if err != nil \x7b\n             return\n           \x7d\n           resp.",
         .val (E.exportable name), .text " = t\n         "]
      else if m.Shape.ShapeType = "integer" then
        [.text "\n           "]
        ++ (if m.Shape.Name = "ContentLength" then
              [.text "\n           var n int64\n           n, err = strconv.ParseInt(s, 10, 64)\n           "]
            else
              [.text "\n           var n int\n           n, err = strconv.Atoi(s)\n           "])
        ++ [.text "\n           if  err != nil \x7b\n             return\n           \x7d\n           resp.",
            .val (E.exportable name), .text " = &n\n         "]
      else if m.Shape.ShapeType = "boolean" then
        [.text "\n           var v bool\n           v, err = strconv.ParseBool(s)\n           if  err != nil \x7b\n             return\n            \x7d\n           resp.",
         .val (E.exportable name), .text " = &v\n         "]
      else
        [.text "\n         // TODO: add support for ", .val m.Shape.ShapeType,
         .text " headers\n         "])
  ++ [.text "\n        \x7d\n      "]

/-- The body of the `range` of template `rest-respheaders`, for one output
member. -/
def restRespheadersMember (E : Env) (name : String) (m : Member) : Out :=
  [.text "\n    "]
  ++ (if name ≠ "Body" then
        [.text "\n      "]
        ++ (if m.Location = "header" then restRespheaderValue E name m
            else if m.Location = "headers" then
              [.text "\n      resp.", .val (E.exportable name), .text " = ", .val m.Shape.GoType,
               .text "\x7b\x7d\n      for name := range httpResp.Header \x7b\n        if strings.HasPrefix(name, \"X-Amz-Meta-\") \x7b\n          resp.",
               .val (E.exportable name),
               .text "[name] = httpResp.Header.Get(name)\n        \x7d\n      \x7d\n      "]
            else if m.Location = "statusCode" then
              [.text "\n        resp.", .val (E.exportable name),
               .text " = aws.Integer(httpResp.StatusCode)\n      "]
            else if m.Location ≠ "" then
              [.text "\n      // TODO: add support for extracting output members from ",
               .val m.Location, .text " to support ", .val (E.exportable name),
               .text "\n      "]
            else [])
        ++ [.text "\n\n    "]
      else [])
  ++ [.text "\n  "]

/-- Template `rest-respheaders`, given the output shape of the operation. -/
def restRespheaders (E : Env) (o : Shape) : Out :=
  [.text "\n "]
  ++ range (restRespheadersMember E) o.Members
  ++ [.text "\n"]

/-! ## `restXMLClient` -/

/-- The text of template `rest-xml` between the header and the operations. -/
def restXMLPreamble (svc : Service) : Out :=
  [.text "\n\nimport (\n  \"bytes\"\n  \"encoding/xml\"\n  \"fmt\"\n  \"io\"\n  \"io/ioutil\"\n  \"net/url\"\n  \"strconv\"\n  \"strings\"\n)\n\n// ",
   .val svc.Name, .text " is a client for ", .val svc.FullName,
   .text ".\ntype ", .val svc.Name,
   .text " struct \x7b\n  client *aws.RestClient\n\x7d\n\n// New returns a new ",
   .val svc.Name,
   .text " client.\nfunc New(creds aws.CredentialsProvider, region string, client *http.Client) *",
   .val svc.Name,
   .text " \x7b\n  if client == nil \x7b\n     client = http.DefaultClient\n  \x7d\n\n  endpoint, service, region := endpoints.Lookup(\"",
   .val svc.Metadata.EndpointPrefix,
   .text "\", region)\n\n  return &",
   .val svc.Name,
   .text "\x7b\n    client: &aws.RestClient\x7b\n      Context: aws.Context\x7b\n        Credentials: creds,\n        Service: service,\n        Region: region,\n      \x7d,\n      Client: client,\n      Endpoint: endpoint,\n      APIVersion: \"",
   .val svc.Metadata.APIVersion,
   .text "\",\n    \x7d,\n  \x7d\n\x7d\n\n"]

/-- The `with $m := index $op.Input.Members $op.Input.Payload` block of the
`rest-xml` method: the request body taken from the payload member. -/
def restXMLPayload (E : Env) (i : Shape) : Out :=
  match indexMembers E i.Members i.Payload with
  | none => []
  | some m =>
    [.text "\n  "]
    ++ (if m.Streaming then
          [.text "\n  body = req.", .val (E.exportable m.Name), .text "\n  "]
        else
          [.text "\n  contentType = \"application/xml\"\n\t"]
          ++ (if m.LocationName ≠ "" then
                [.text "\n  if req.", .val (E.exportable m.Name),
                 .text " != nil \x7b\n\treq.", .val (E.exportable m.Name),
                 .text ".XMLName = xml.Name\x7b\n\t\tSpace: \"", .val m.XMLNamespace.URI,
                 .text "\",\n\t\tLocal: \"", .val m.LocationName,
                 .text "\",\n\t\x7d\n  \x7d\n  "]
              else [])
          ++ [.text "\n  b, err := xml.Marshal(req.", .val (E.exportable m.Name),
              .text ")\n  if err != nil \x7b\n    return\n  \x7d\n  body = bytes.NewReader(b)\n  "])
    ++ [.text "\n  "]

/-- The `if $op.Input` block of the `rest-xml` method: body preparation.  The
`else if` reads `$op.InputRef.LocationName`, which fails when there is no
`InputRef`. -/
def restXMLBody (E : Env) (op : Operation) : Except Error Out :=
  match op.Input with
  | none => .ok []
  | some i =>
    if i.Payload ≠ "" then
      .ok ([.text "\n\n  "]
        ++ ([.text "\n  "] ++ restXMLPayload E i ++ [.text "\n  "])
        ++ [.text "\n  "])
    else
      match deref "LocationName" op.InputRef with
      | .error e => .error e
      | .ok r =>
        .ok ([.text "\n\n  "]
          ++ (if r.LocationName ≠ "" then
                [.text "\n  contentType = \"application/xml\"\n  req.XMLName = xml.Name\x7b\n\t\tSpace: \"",
                 .val r.XMLNamespace.URI,
                 .text "\",\n\t\tLocal: \"",
                 .val r.LocationName,
                 .text "\",\n\t\x7d\n  b, err := xml.Marshal(req)\n  if err != nil \x7b\n    return\n  \x7d\n  body = bytes.NewReader(b)\n  "]
              else [])
          ++ [.text "\n  "])

/-- The `if $op.Output` block of the `rest-xml` method: response decoding and
the response-header fragment. -/
def restXMLResponse (E : Env) (op : Operation) : Out :=
  match op.Output with
  | some o =>
    [.text "\n    "]
    ++ ([.text "\n    "]
        ++ (match indexMembers E o.Members "Body" with
            | none => []
            | some m =>
              [.text "\n    "]
              ++ (if truth (some m) then
                    [.text "\n\n      "]
                    ++ (if m.Streaming then
                          [.text "\n  resp.Body = httpResp.Body\n      "]
                        else
                          [.text "\n  defer httpResp.Body.Close()\n  if e := xml.NewDecoder(httpResp.Body).Decode(resp); e != nil && e != io.EOF \x7b\n    err = e\n    return\n  \x7d\n      "])
                    ++ [.text "\n\n\n    "]
                  else
                    [.text "\n  defer httpResp.Body.Close()\n    "])
              ++ [.text "\n    "])
        ++ [.text "\n\n  "]
        ++ restRespheaders E o
        ++ [.text "\n  "])
    ++ [.text "\n  "]
  | none => [.text "\n  defer httpResp.Body.Close()\n  "]

/-- The text of a `rest-xml` method around the prepared request body `body`. -/
def restXMLMethodText (E : Env) (svc : Service) (name : String) (op : Operation) (body : Out) :
    Out :=
  [.text "\n\n", .val (E.godoc name op.Documentation), .text " func (c *", .val svc.Name,
   .text ") ", .val (E.exportable name), .text "("]
  ++ (match op.Input with
      | some i => [.text "req ", .val i.GoType]
      | none => [])
  ++ [.text ") ("]
  ++ (match op.Output with
      | some o => [.text "resp ", .val o.GoType, .text ","]
      | none => [])
  ++ [.text " err error) \x7b\n  "]
  ++ (match op.Output with
      | some o => [.text "resp = ", .val o.Literal]
      | none => [.text "// NRE"])
  ++ [.text "\n\n  var body io.Reader\n  var contentType string\n  "]
  ++ body
  ++ [.text "\n\n\n  uri := c.client.Endpoint + \"", .val op.HTTP.RequestURI, .text "\"\n  "]
  ++ restUri E op
  ++ [.text "\n\n\n  "]
  ++ restQuerystring E op
  ++ [.text "\n\n  httpReq, err := http.NewRequest(\"", .val op.HTTP.Method,
      .text "\", uri, body)\n  if err != nil \x7b\n    return\n  \x7d\n\n  if contentType != \"\" \x7b\n    httpReq.Header.Set(\"Content-Type\", contentType)\n  \x7d\n\n  "]
  ++ restReqheaders E op
  ++ [.text "\n\n  httpResp, err := c.client.Do(httpReq)\n  if err != nil \x7b\n    return\n  \x7d\n\n  "]
  ++ restXMLResponse E op
  ++ [.text "\n\n\n  return\n\x7d\n\n"]

/-- The body of `range $name, $op := .Operations` in template `rest-xml`. -/
def restXMLMethod (E : Env) (svc : Service) (name : String) (op : Operation) :
    Except Error Out :=
  match restXMLBody E op with
  | .error e => .error e
  | .ok body => .ok (restXMLMethodText E svc name op body)

/-- The closing text of a struct declaration in `rest-xml`: the end of the
struct and the `MarshalXML` method. -/
def xmlClosing (exported : String) : Out :=
  [.text "\n\x7d\n\nfunc (v *", .val exported,
   .text ") MarshalXML(e *xml.Encoder, start xml.StartElement) error \x7b\n\treturn aws.MarshalXML(v, e, start)\n\x7d\n\n"]

/-- The text of template `rest-xml` around the rendered methods. -/
def restXMLClientText (E : Env) (svc : Service) (methods : Out) : Out :=
  [.text "\n"]
  ++ header svc
  ++ restXMLPreamble svc
  ++ methods
  ++ [.text "\n\n"]
  ++ range (shapeBody E svc " struct \x7b\n  XMLName xml.Name\n"
       (fun s m => m.XMLTag s.ResultWrapper) xmlClosing) svc.Shapes
  ++ [.text "\n\n"]
  ++ footer
  ++ [.text "\nvar _ bytes.Reader\nvar _ url.URL\nvar _ fmt.Stringer\nvar _ strings.Reader\nvar _ strconv.NumError\nvar _ = ioutil.Discard\n"]

/-- Template `rest-xml`. -/
def restXMLClient (E : Env) (svc : Service) : Except Error Out :=
  match rangeE (restXMLMethod E svc) svc.Operations with
  | .error e => .error e
  | .ok methods => .ok (restXMLClientText E svc methods)

/-! ## `restJSONClient` -/

/-- The text of template `rest-json` between the header and the operations. -/
def restJSONPreamble (svc : Service) : Out :=
  [.text "\n\nimport (\n  \"bytes\"\n  \"encoding/json\"\n  \"fmt\"\n  \"io\"\n  \"io/ioutil\"\n  \"net/url\"\n  \"strconv\"\n  \"strings\"\n)\n\n// ",
   .val svc.Name, .text " is a client for ", .val svc.FullName,
   .text ".\ntype ", .val svc.Name,
   .text " struct \x7b\n  client *aws.RestClient\n\x7d\n\n// New returns a new ",
   .val svc.Name,
   .text " client.\nfunc New(creds aws.CredentialsProvider, region string, client *http.Client) *",
   .val svc.Name,
   .text " \x7b\n  if client == nil \x7b\n     client = http.DefaultClient\n  \x7d\n\n  endpoint, service, region := endpoints.Lookup(\"",
   .val svc.Metadata.EndpointPrefix,
   .text "\", region)\n\n  return &",
   .val svc.Name,
   .text "\x7b\n    client: &aws.RestClient\x7b\n      Context: aws.Context\x7b\n        Credentials: creds,\n        Service: service,\n        Region: region,\n      \x7d,\n      Client: client,\n      Endpoint: endpoint,\n      APIVersion: \"",
   .val svc.Metadata.APIVersion,
   .text "\",\n    \x7d,\n  \x7d\n\x7d\n\n"]

/-- The `with $m := index $op.Input.Members $op.Input.Payload` block of the
`rest-json` method: the request body taken from the payload member. -/
def restJSONPayload (E : Env) (i : Shape) : Out :=
  match indexMembers E i.Members i.Payload with
  | none => []
  | some m =>
    [.text "\n  "]
    ++ (if m.Streaming then
          [.text "\n  body = req.", .val (E.exportable m.Name), .text "\n  "]
        else
          [.text "\n  contentType = \"application/json\"\n  b, err := json.Marshal(req.",
           .val (E.exportable m.Name),
           .text ")\n  if err != nil \x7b\n    return\n  \x7d\n  body = bytes.NewReader(b)\n  "])
    ++ [.text "\n  "]

/-- The `if $op.Input` block of the `rest-json` method: body preparation. -/
def restJSONBody (E : Env) (op : Operation) : Out :=
  match op.Input with
  | none => []
  | some i =>
    [.text "\n  "]
    ++ (if i.Payload ≠ "" then
          [.text "\n  "] ++ restJSONPayload E i ++ [.text "\n  "]
        else [])
    ++ [.text "\n  "]

/-- The `if $op.Output` block of the `rest-json` method: response decoding and
the response-header fragment. -/
def restJSONResponse (E : Env) (op : Operation) : Out :=
  match op.Output with
  | some o =>
    [.text "\n    "]
    ++ ([.text "\n    "]
        ++ (match indexMembers E o.Members "Body" with
            | none => []
            | some m =>
              [.text "\n    "]
              ++ (if truth (some m) then
                    [.text "\n\n      "]
                    ++ (if m.Streaming then
                          [.text "\n  resp.Body = httpResp.Body\n      "]
                        else
                          [.text "\n  defer httpResp.Body.Close()\n\n  if e := json.NewDecoder(httpResp.Body).Decode(resp); e != nil && e != io.EOF \x7b\n    err = e\n    return\n  \x7d\n\n      "])
                    ++ [.text "\n\n\n    "]
                  else
                    [.text "\n  defer httpResp.Body.Close()\n    "])
              ++ [.text "\n    "])
        ++ [.text "\n\n   "]
        ++ restRespheaders E o
        ++ [.text "\n  "])
    ++ [.text "\n  "]
  | none => [.text "\n  defer httpResp.Body.Close()\n  "]

/-- The body of `range $name, $op := .Operations` in template `rest-json`. -/
def restJSONMethod (E : Env) (svc : Service) (name : String) (op : Operation) : Out :=
  [.text "\n\n", .val (E.godoc name op.Documentation), .text " func (c *", .val svc.Name,
   .text ") ", .val (E.exportable name), .text "("]
  ++ (match op.Input with
      | some i => [.text "req ", .val i.GoType]
      | none => [])
  ++ [.text ") ("]
  ++ (match op.Output with
      | some o => [.text "resp ", .val o.GoType, .text ","]
      | none => [])
  ++ [.text " err error) \x7b\n  "]
  ++ (match op.Output with
      | some o => [.text "resp = ", .val o.Literal]
      | none => [.text "// NRE"])
  ++ [.text "\n\n  var body io.Reader\n  var contentType string\n  "]
  ++ restJSONBody E op
  ++ [.text "\n\n\n  uri := c.client.Endpoint + \"", .val op.HTTP.RequestURI, .text "\"\n  "]
  ++ restUri E op
  ++ [.text "\n\n  "]
  ++ restQuerystring E op
  ++ [.text "\n\n  httpReq, err := http.NewRequest(\"", .val op.HTTP.Method,
      .text "\", uri, body)\n  if err != nil \x7b\n    return\n  \x7d\n\n  if contentType != \"\" \x7b\n    httpReq.Header.Set(\"Content-Type\", contentType)\n  \x7d\n\n  "]
  ++ restReqheaders E op
  ++ [.text "\n\n  httpResp, err := c.client.Do(httpReq)\n  if err != nil \x7b\n    return\n  \x7d\n\n  "]
  ++ restJSONResponse E op
  ++ [.text "\n\n\n  return\n\x7d\n\n"]

/-- Template `rest-json`. -/
def restJSONClient (E : Env) (svc : Service) : Out :=
  [.text "\n"]
  ++ header svc
  ++ restJSONPreamble svc
  ++ range (restJSONMethod E svc) svc.Operations
  ++ [.text "\n\n"]
  ++ range (shapeBody E svc " struct \x7b\n" (fun _ m => m.JSONTag) plainClosing) svc.Shapes
  ++ [.text "\n\n"]
  ++ footer
  ++ [.text "\nvar _ bytes.Reader\nvar _ url.URL\nvar _ fmt.Stringer\nvar _ strings.Reader\nvar _ strconv.NumError\nvar _ = ioutil.Discard\nvar _ json.RawMessage\n"]

/-! ## `Generate` -/

/-- The call `t.ExecuteTemplate(out, name, service)` on the template set that
`Generate` registers: the template named `name` is executed with the service as
its data.  The REST fragments read `.Input` or `.Output`, which a service does
not have; a name that was never defined has no template. -/
def ExecuteTemplate (E : Env) (name : String) (service : Service) : Except Error Out :=
  if name = "root" then .ok root
  else if name = "header" then .ok (header service)
  else if name = "footer" then .ok footer
  else if name = "json" then .ok (jsonClient E service)
  else if name = "query" then queryClient E service
  else if name = "ec2" then ec2Client E service
  else if name = "rest-uri" ∨ name = "rest-querystring" ∨ name = "rest-reqheaders" then
    .error (.exec "can\x27t evaluate field Input in type model.Service")
  else if name = "rest-respheaders" then
    .error (.exec "can\x27t evaluate field Output in type model.Service")
  else if name = "rest-xml" then restXMLClient E service
  else if name = "rest-json" then .ok (restJSONClient E service)
  else .error (.noTemplate name)

/-- An `io.Writer`: a write takes the state of the sink and the bytes and gives
the new state and the error of the write, if any. -/
structure Writer (σ : Type) where
  Write : σ → String → σ × Option Error

/-- The function `Generate`, on the sink `W` in state `w`.  `formatSource` is
`format.Source` of the Go library.  The result is the state of the sink
afterwards and the error returned. -/
def Generate {σ : Type} (E : Env) (formatSource : String → Except Error String)
    (service : Service) (W : Writer σ) (w : σ) : σ × Option Error :=
  match ExecuteTemplate E service.Metadata.Protocol service with
  | .error err => (w, some err)
  | .ok out =>
    match formatSource out.bytes with
    | .error err => ((W.Write w out.bytes).1, some err)
    | .ok b => W.Write w b

/-! ## Observations on rendered output -/

/-- Whether the characters `p` occur contiguously in the characters `s`. -/
def hasInfix (p : List Char) : List Char → Bool
  | [] => p.isEmpty
  | c :: cs => p.isPrefixOf (c :: cs) || hasInfix p cs

/-- Whether `pat` occurs in `s`. -/
def contains (pat s : String) : Bool := hasInfix pat.data s.data

/-- Whether `s` ends with `pat`. -/
def endsWith (pat s : String) : Bool := pat.data.isSuffixOf s.data

/-- Whether `s` starts with `pat`. -/
def startsWith (pat s : String) : Bool := pat.data.isPrefixOf s.data

/-- Whether some template text written to the output contains `pat`. -/
def emitsText (pat : String) (out : Out) : Bool :=
  out.any fun c =>
    match c with
    | .text t => contains pat t
    | .val _ => false

/-- The values written by actions, in order. -/
def vals : Out → List String
  | [] => []
  | .text _ :: rest => vals rest
  | .val v :: rest => v :: vals rest

/-- State of the scan for a value framed by two template texts. -/
inductive Scan where
  | idle
  | armed
  | got (v : String)
deriving DecidableEq, Repr

/-- The state of the scan after one more write. -/
def scanNext (pre : String) : Scan → Emit → Scan
  | _, .text t => if endsWith pre t then .armed else .idle
  | .armed, .val v => .got v
  | _, .val _ => .idle

/-- The value reported at a write: the value held, when the text that follows
it starts with `suf`. -/
def scanHit (suf : String) : Scan → Emit → List String
  | .got v, .text t => if startsWith suf t then [v] else []
  | _, _ => []

/-- The values reported by the scan from a state. -/
def scan (pre suf : String) : Scan → Out → List String
  | _, [] => []
  | st, c :: rest => scanHit suf st c ++ scan pre suf (scanNext pre st c) rest

/-- The state of the scan at the end of the output. -/
def scanEnd (pre : String) : Scan → Out → Scan
  | st, [] => st
  | st, c :: rest => scanEnd pre (scanNext pre st c) rest

/-- The values written directly after a template text ending in `pre` and
directly before a template text starting with `suf`, in order. -/
def valBetween (pre suf : String) (out : Out) : List String :=
  scan pre suf .idle out

/-- The names of the struct types the output declares: the values written
between `type ` and ` struct {`. -/
def structDecls (out : Out) : List String :=
  valBetween "type " " struct \x7b" out

/-! ## Sinks and sample inputs -/

/-- A sink that records the bytes of every write and never fails. -/
def recorder : Writer (List String) where
  Write := fun w b => (w ++ [b], none)

/-- A sink that records the bytes of every write and fails each time. -/
def brokenSink : Writer (List String) where
  Write := fun w b => (w ++ [b], some (.external "sink: write failed"))

/-- A pretty-printer that accepts every text unchanged. -/
def acceptAll (src : String) : Except Error String := .ok src

/-- A pretty-printer that rejects every text. -/
def rejectAll (_ : String) : Except Error String := .error (.external "format: syntax error")

/-- A sample environment: names are left as they are. -/
def sampleEnv (zeroIsTrue : Bool) : Env where
  godoc := fun name doc => "// " ++ name ++ " " ++ doc ++ "\n"
  exportable := fun name => name
  zeroIsTrue := zeroIsTrue

/-! ## Support for the proofs -/

/-- The template texts written to the output, in order. -/
def texts : Out → List String
  | [] => []
  | .text t :: rest => t :: texts rest
  | .val _ :: rest => texts rest

/-- The number of template texts written to the output that contain `pat`. -/
def countText (pat : String) (out : Out) : Nat :=
  (texts out).countP fun t => contains pat t

/-- Whether every template text written to the output is one of `lits`. -/
def textsIn (lits : List String) (out : Out) : Bool :=
  out.all fun c =>
    match c with
    | .text t => lits.contains t
    | .val _ => true

/-- Template texts looked for in rendered methods. -/
def marks : List String :=
  ["httpResp.Body.Close()", "Decode(resp)", "resp.Body = httpResp.Body", "body = req.",
   "xml.Marshal", "json.Marshal", "xml.Marshal(req.", "json.Marshal(req.", "contentType = ",
   "contentType = \"application/xml\"", "contentType = \"application/json\"",
   "body = bytes.NewReader(b)", "type "]

/-- The texts of `marks` that belong to the preparation of the request body. -/
def requestMarks : List String :=
  ["body = req.", "xml.Marshal", "json.Marshal", "xml.Marshal(req.", "json.Marshal(req.",
   "contentType = ", "contentType = \"application/xml\"", "contentType = \"application/json\"",
   "body = bytes.NewReader(b)"]

/-- The part of a REST method before the preparation of the request body: the
signature, the initialisation of the response and the two declarations. -/
def restMethodHead (E : Env) (svc : Service) (name : String) (op : Operation) : Out :=
  [.text "\n\n", .val (E.godoc name op.Documentation), .text " func (c *", .val svc.Name,
   .text ") ", .val (E.exportable name), .text "("]
  ++ (match op.Input with
      | some i => [.text "req ", .val i.GoType]
      | none => [])
  ++ [.text ") ("]
  ++ (match op.Output with
      | some o => [.text "resp ", .val o.GoType, .text ","]
      | none => [])
  ++ [.text " err error) \x7b\n  "]
  ++ (match op.Output with
      | some o => [.text "resp = ", .val o.Literal]
      | none => [.text "// NRE"])
  ++ [.text "\n\n  var body io.Reader\n  var contentType string\n  "]

/-- The part of a REST method after the preparation of the request body, up to
the response block `response`; `gap` is the text between the URI and the
query-string fragments. -/
def restMethodTail (E : Env) (op : Operation) (gap : String) (response : Out) : Out :=
  [.text "\n\n\n  uri := c.client.Endpoint + \"", .val op.HTTP.RequestURI, .text "\"\n  "]
  ++ restUri E op
  ++ [.text gap]
  ++ restQuerystring E op
  ++ [.text "\n\n  httpReq, err := http.NewRequest(\"", .val op.HTTP.Method,
      .text "\", uri, body)\n  if err != nil \x7b\n    return\n  \x7d\n\n  if contentType != \"\" \x7b\n    httpReq.Header.Set(\"Content-Type\", contentType)\n  \x7d\n\n  "]
  ++ restReqheaders E op
  ++ [.text "\n\n  httpResp, err := c.client.Do(httpReq)\n  if err != nil \x7b\n    return\n  \x7d\n\n  "]
  ++ response
  ++ [.text "\n\n\n  return\n\x7d\n\n"]

/-- The template texts of the four REST fragments. -/
def restTexts : List String :=
  ["\n  ",
   "\n\n  if req.",
   " != nil \x7b\n    uri = strings.Replace(uri, \"\x7b\"+\"",
   "\"+\"\x7d\", aws.EscapePath(*req.",
   "), -1)\n    uri = strings.Replace(uri, \"\x7b\"+\"",
   "+\"+\"\x7d\", aws.EscapePath(*req.",
   "), -1)\n  \x7d\n\n  ",
   "\n\n",
   "\n  q := url.Values\x7b\x7d\n\n  ",
   "\n\n\n  ",
   " != nil \x7b\n    q.Set(\"",
   "\", *req.",
   ")\n  \x7d\n\n  ",
   " != (time.Time\x7b\x7d) \x7b\n    q.Set(\"",
   "\", req.",
   ".Format(time.RFC822))\n  \x7d\n\n  ",
   "\", strconv.Itoa(*req.",
   "))\n  \x7d\n\n  ",
   "\", fmt.Sprintf(\"%v\", req.",
   "\n\n  ",
   "\n\n  if len(q) > 0 \x7b\n    uri += \"?\" + q.Encode()\n  \x7d\n",
   "\n\n ",
   " != nil \x7b\n    httpReq.Header.Set(\"",
   " != (time.Time\x7b\x7d) \x7b\n    httpReq.Header.Set(\"",
   " != nil \x7b\n    httpReq.ContentLength = *req.",
   "\n  \x7d\n\n  ",
   "\n\n  for name, value := range req.",
   " \x7b\n\thttpReq.Header.Set(name, value)\n  \x7d\n\n  ",
   "\n",
   "\n ",
   "\n    ",
   "\n      ",
   "\n        if s := httpResp.Header.Get(\"",
   "\"); s != \"\" \x7b\n         ",
   "\n          resp.",
   " = &s\n         ",
   "\n           var t time.Time\n           t, err = time.Parse(time.RFC1123, s)\n           if err != nil \x7b\n             return\n           \x7d\n           resp.",
   " = t\n         ",
   "\n           ",
   "\n           var n int64\n           n, err = strconv.ParseInt(s, 10, 64)\n           ",
   "\n           var n int\n           n, err = strconv.Atoi(s)\n           ",
   "\n           if  err != nil \x7b\n             return\n           \x7d\n           resp.",
   " = &n\n         ",
   "\n           var v bool\n           v, err = strconv.ParseBool(s)\n           if  err != nil \x7b\n             return\n            \x7d\n           resp.",
   " = &v\n         ",
   "\n         // TODO: add support for ",
   " headers\n         ",
   "\n        \x7d\n      ",
   "\n      resp.",
   " = ",
   "\x7b\x7d\n      for name := range httpResp.Header \x7b\n        if strings.HasPrefix(name, \"X-Amz-Meta-\") \x7b\n          resp.",
   "[name] = httpResp.Header.Get(name)\n        \x7d\n      \x7d\n      ",
   "\n        resp.",
   " = aws.Integer(httpResp.StatusCode)\n      ",
   "\n      // TODO: add support for extracting output members from ",
   " to support ",
   "\n\n    "]

/-- The template texts of a REST method outside the preparation of the request
body and outside the four fragments. -/
def frameTexts : List String :=
  ["\n\n",
   " func (c *",
   ") ",
   "(",
   "req ",
   ") (",
   "resp ",
   ",",
   " err error) \x7b\n  ",
   "resp = ",
   "// NRE",
   "\n\n  var body io.Reader\n  var contentType string\n  ",
   "\n\n\n  uri := c.client.Endpoint + \"",
   "\"\n  ",
   "\n\n  httpReq, err := http.NewRequest(\"",
   "\", uri, body)\n  if err != nil \x7b\n    return\n  \x7d\n\n  if contentType != \"\" \x7b\n    httpReq.Header.Set(\"Content-Type\", contentType)\n  \x7d\n\n  ",
   "\n\n  httpResp, err := c.client.Do(httpReq)\n  if err != nil \x7b\n    return\n  \x7d\n\n  ",
   "\n\n\n  return\n\x7d\n\n",
   "\n    ",
   "\n\n      ",
   "\n  resp.Body = httpResp.Body\n      ",
   "\n  defer httpResp.Body.Close()\n  if e := xml.NewDecoder(httpResp.Body).Decode(resp); e != nil && e != io.EOF \x7b\n    err = e\n    return\n  \x7d\n      ",
   "\n\n\n    ",
   "\n  defer httpResp.Body.Close()\n    ",
   "\n\n  ",
   "\n  ",
   "\n  defer httpResp.Body.Close()\n  ",
   "\n  defer httpResp.Body.Close()\n\n  if e := json.NewDecoder(httpResp.Body).Decode(resp); e != nil && e != io.EOF \x7b\n    err = e\n    return\n  \x7d\n\n      ",
   "\n\n   ",
   "\n\n\n  "]

/-- The texts of `marks` that a REST method writes only while preparing the
request body, and `type `, which no method writes. -/
def frameMarks : List String := requestMarks ++ ["type "]

/-! ## Sample service models -/

/-- A service whose declared protocol is the name of the `header` fragment. -/
def headerService : Service :=
  { Name := "S3", FullName := "Amazon S3", PackageName := "s3",
    Metadata := { Protocol := "header" } }

/-- A service that declares the protocol `soap`. -/
def soapService : Service :=
  { Name := "S3", FullName := "Amazon S3", PackageName := "s3",
    Metadata := { Protocol := "soap" } }

/-- A JSON service with the single operation `Ping`, without input or output. -/
def pingService : Service :=
  { Name := "Svc", FullName := "Sample Service", PackageName := "svc",
    Metadata := { Protocol := "json", EndpointPrefix := "svc", JSONVersion := "1.1",
                  TargetPrefix := "Svc_20140101" },
    Operations := [("Ping", { HTTP := { Method := "POST", RequestURI := "/" } })] }

/-! ## Observations on a REST method -/

/-- The response body is handed over to the caller: the method assigns it to
`resp.Body`, does not close it and does not decode it into `resp`. -/
def handsOverBody (out : Out) : Bool :=
  emitsText "resp.Body = httpResp.Body" out
    && !emitsText "httpResp.Body.Close()" out
    && !emitsText "Decode(resp)" out

/-- A REST operation `GetObject` whose output has a streaming `Body` member and
a header member. -/
def getObject : Operation :=
  { HTTP := { Method := "GET", RequestURI := "/\x7bBucket\x7d/\x7bKey+\x7d" },
    Input := some
      { Name := "GetObjectRequest", ShapeType := "structure", GoType := "*GetObjectRequest",
        Members :=
          [("Bucket", { Name := "Bucket", GoType := "*string", Location := "uri",
                        LocationName := "Bucket", Shape := { ShapeType := "string" } }),
           ("Key", { Name := "Key", GoType := "*string", Location := "uri",
                     LocationName := "Key", Shape := { ShapeType := "string" } })] },
    InputRef := some {},
    Output := some
      { Name := "GetObjectOutput", ShapeType := "structure", GoType := "*GetObjectOutput",
        Literal := "&GetObjectOutput\x7b\x7d",
        Members :=
          [("Body", { Name := "Body", GoType := "io.ReadCloser", Streaming := true,
                      Shape := { ShapeType := "blob" } }),
           ("ETag", { Name := "ETag", GoType := "*string", Location := "header",
                      LocationName := "ETag", Shape := { ShapeType := "string" } })] },
    OutputRef := some {} }

/-- A REST service holding `getObject`. -/
def objectService : Service :=
  { Name := "S3", FullName := "Amazon S3", PackageName := "s3",
    Metadata := { Protocol := "rest-xml", EndpointPrefix := "s3", APIVersion := "2006-03-01" },
    Operations := [("GetObject", getObject)] }

/-- The request body is the payload member itself: the method sets
`body = req.<field>` once, calls no marshaller and assigns no content type. -/
def streamsPayload (field : String) (out : Out) : Prop :=
  valBetween "body = req." "\n" out = [field]
    ∧ emitsText "xml.Marshal" out = false
    ∧ emitsText "json.Marshal" out = false
    ∧ emitsText "contentType = " out = false

/-- The request body is the marshalled payload member: the method makes the
assignment `assign` to the content type, applies the marshaller `call` to
`req.<field>` once, wraps the bytes as the body and never uses the member
itself as the body. -/
def marshalsPayload (assign call field : String) (out : Out) : Prop :=
  emitsText assign out = true
    ∧ valBetween call ")" out = [field]
    ∧ emitsText "body = bytes.NewReader(b)" out = true
    ∧ valBetween "body = req." "\n" out = []

/-- A REST operation `PutObject` whose input declares the payload member
`Body`; `streaming` says whether that member is a stream. -/
def putObject (streaming : Bool) : Operation :=
  { HTTP := { Method := "PUT", RequestURI := "/\x7bBucket\x7d/\x7bKey+\x7d" },
    Input := some
      { Name := "PutObjectRequest", ShapeType := "structure", GoType := "*PutObjectRequest",
        Payload := "Body",
        Members :=
          [("Body", { Name := "Body", GoType := "io.Reader", Streaming := streaming,
                      Shape := { ShapeType := "blob" } }),
           ("ContentLength", { Name := "ContentLength", GoType := "*int", Location := "header",
                               LocationName := "Content-Length",
                               Shape := { ShapeType := "integer", Name := "ContentLength" } }),
           ("Key", { Name := "Key", GoType := "*string", Location := "uri",
                     LocationName := "Key", Shape := { ShapeType := "string" } })] },
    InputRef := some {} }

/-- The header member that is written to the content-length field of the
request rather than set as a header: an integer named `Content-Length`. -/
def isContentLength (m : Member) : Bool :=
  m.Shape.ShapeType = "integer" && m.LocationName = "Content-Length"

/-- An input member `ContentLength`: an integer bound to the header
`Content-Length`. -/
def contentLengthMember : Member :=
  { Name := "ContentLength", GoType := "*int", Location := "header",
    LocationName := "Content-Length", Shape := { ShapeType := "integer", Name := "ContentLength" } }

/-- The input members of an operation, in iteration order; none when the
operation has no input. -/
def inputMembers (op : Operation) : List (String × Member) :=
  match op.Input with
  | some i => i.Members
  | none => []

/-! ## Struct declarations and constant blocks -/

/-- Whether the shape loop writes a struct declaration for the shape: it is a
structure and not an exception. -/
def declaresStruct (s : Shape) : Bool :=
  s.ShapeType = "structure" && !s.Exception

/-- The exported names of the shapes for which the shape loop writes a struct
declaration, in order. -/
def structNames (E : Env) (shapes : List (String × Shape)) : List String :=
  (shapes.filter fun kv => declaresStruct kv.2).map fun kv => E.exportable kv.1

/-- The exported names of the wrappers, in order. -/
def wrapperNames (E : Env) (wrappers : List (String × Shape)) : List String :=
  wrappers.map fun kv => E.exportable kv.1

/-- The scan for values between `pre` and `suf`, started idle on `out`, reports
`hits` and ends idle. -/
def Piece (pre suf : String) (out : Out) (hits : List String) : Prop :=
  scan pre suf .idle out = hits ∧ scanEnd pre .idle out = .idle

/-- A JSON service named `Gateway` with a structure shape that has the same
name. -/
def gatewayService : Service :=
  { Name := "Gateway", FullName := "Sample Gateway", PackageName := "gateway",
    Metadata := { Protocol := "json", EndpointPrefix := "gateway", JSONVersion := "1.1",
                  TargetPrefix := "Gateway_20140101" },
    Shapes := [("Gateway", { Name := "Gateway", ShapeType := "structure" })] }

/-- The writes `out` are one constant block, introduced for `owner`, whose
constants are exactly `entries`, each written as `name = value`, in order. -/
def isConstBlock (owner : String) (entries : List (String × String)) (out : Out) : Prop :=
  countText "const (" out = 1
    ∧ countText "\n)\n" out = 1
    ∧ valBetween "\n" " = " out = entries.map Prod.fst
    ∧ valBetween " = " "\n" out = entries.map Prod.snd
    ∧ vals out = owner :: (entries.map fun e => [e.1, e.2]).flatten

/-- A JSON service with one shape that is a structure and has the `Enum` flag
set, with the entries `A` and `B`. -/
def enumStructService : Service :=
  { Name := "Svc", FullName := "Sample Service", PackageName := "svc",
    Metadata := { Protocol := "json" },
    Shapes := [("Kind", { Name := "Kind", ShapeType := "structure", Enum := true,
                          Enums := [("A", "\"a\""), ("B", "\"b\"")] })] }

/-- A JSON service with one string shape that has the `Enum` flag set, with the
entries `A` and `B`. -/
def enumService : Service :=
  { Name := "Svc", FullName := "Sample Service", PackageName := "svc",
    Metadata := { Protocol := "json" },
    Shapes := [("Kind", { Name := "Kind", ShapeType := "string", Enum := true,
                          Enums := [("A", "\"a\""), ("B", "\"b\"")] })] }

/-! ## Observations on a `query` or `ec2` method -/

/-- The types with which the method declares the result `resp`. -/
def respTypes (out : Out) : List String := valBetween "resp " "," out

/-- The literals with which the method initialises `resp`. -/
def respInits (out : Out) : List String := valBetween "resp = " "\n" out

/-- Whether the method passes `resp` to `c.client.Do`. -/
def passesResp (out : Out) : Bool := emitsText " resp " out

/-- The types with which the method declares the parameter `req`. -/
def reqTypes (out : Out) : List String := valBetween "req " ") (" out

/-- Whether the method passes `req` to `c.client.Do`. -/
def passesReq (out : Out) : Bool := emitsText " req " out

/-- The method is consistent about `resp` and `req`: it declares `resp` exactly
when it initialises it and passes it on, and declares `req` exactly when it
passes it on. -/
def selfConsistent (out : Out) : Prop :=
  (respTypes out ≠ [] ↔ (respInits out ≠ [] ∧ passesResp out = true))
    ∧ (reqTypes out ≠ [] ↔ passesReq out = true)

/-- A query operation with input and output, each with its reference. -/
def describeOperation : Operation :=
  { HTTP := { Method := "POST", RequestURI := "/" },
    Input := some { Name := "DescribeInput", ShapeType := "structure" },
    InputRef := some { WrappedType := "*DescribeInput" },
    Output := some { Name := "DescribeOutput", ShapeType := "structure",
                     ResultWrapper := "DescribeResult" },
    OutputRef := some { WrappedType := "*DescribeResult",
                        WrappedLiteral := "&DescribeResult\x7b\x7d" } }

/-- A query service whose operation `Describe` has its output wrapped in
`DescribeResult`, with the wrapper the annotation requires. -/
def stackService : Service :=
  { Name := "Stacks", FullName := "Sample Stacks", PackageName := "stacks",
    Metadata := { Protocol := "query", EndpointPrefix := "stacks", APIVersion := "2010-05-15" },
    Operations := [("Describe", describeOperation)],
    Shapes := [("DescribeInput", { Name := "DescribeInput", ShapeType := "structure" }),
               ("DescribeOutput", { Name := "DescribeOutput", ShapeType := "structure",
                                    ResultWrapper := "DescribeResult" })],
    Wrappers := [("DescribeResult", { Name := "DescribeOutput", ShapeType := "structure",
                                      ResultWrapper := "DescribeResult" })] }

/-- A REST operation `ListBuckets` whose output has members but none named
`Body`. -/
def listBuckets : Operation :=
  { HTTP := { Method := "GET", RequestURI := "/" },
    Output := some
      { Name := "ListBucketsOutput", ShapeType := "structure", GoType := "*ListBucketsOutput",
        Literal := "&ListBucketsOutput\x7b\x7d",
        Members :=
          [("Buckets", { Name := "Buckets", GoType := "[]Bucket",
                         Shape := { ShapeType := "list" } }),
           ("Owner", { Name := "Owner", GoType := "*Owner",
                       Shape := { ShapeType := "structure" } })] },
    OutputRef := some {} }

/-- The method closes the response body when it returns and does not decode it
into `resp`. -/
def closesWithoutDecoding (out : Out) : Bool :=
  emitsText "defer httpResp.Body.Close()" out && !emitsText "Decode(resp)" out

/-! ## Observations on the response-header fragment -/

/-- Whether the output member has a location the response-header fragment does
not handle: it is not empty and is none of `header`, `headers`, `statusCode`. -/
def unsupportedLocation (m : Member) : Bool :=
  m.Location ≠ "header" && m.Location ≠ "headers" && m.Location ≠ "statusCode"
    && m.Location ≠ ""

/-- Whether the output holds no value and no text other than white space. -/
def blank (out : Out) : Bool :=
  out.all fun c =>
    match c with
    | .text t => t.data.all Char.isWhitespace
    | .val _ => false

/-- An output member `Trailer` bound to the location `trailer`, which the
response-header fragment does not handle. -/
def trailerMember : Member :=
  { Name := "Trailer", GoType := "*string", Location := "trailer",
    LocationName := "x-amz-trailer", Shape := { ShapeType := "string" } }

/-- A REST operation `HeadObject` whose output has one member for each kind of
location. -/
def headObject : Operation :=
  { HTTP := { Method := "HEAD", RequestURI := "/\x7bBucket\x7d/\x7bKey+\x7d" },
    Output := some
      { Name := "HeadObjectOutput", ShapeType := "structure", GoType := "*HeadObjectOutput",
        Literal := "&HeadObjectOutput\x7b\x7d",
        Members :=
          [("ETag", { Name := "ETag", GoType := "*string", Location := "header",
                      LocationName := "ETag", Shape := { ShapeType := "string" } }),
           ("Metadata", { Name := "Metadata", GoType := "map[string]string",
                          Location := "headers", LocationName := "x-amz-meta-",
                          Shape := { ShapeType := "map", GoType := "map[string]string" } }),
           ("Owner", { Name := "Owner", GoType := "*Owner",
                       Shape := { ShapeType := "structure" } }),
           ("Status", { Name := "Status", GoType := "*int", Location := "statusCode",
                        Shape := { ShapeType := "integer" } }),
           ("Trailer", trailerMember)] },
    OutputRef := some {} }

/-! ## Occurrences in the rendered bytes

The observations above look at the template texts and at the values one by one.
The ones below look at the bytes that reach the buffer, where a value written
by an action counts like any other text. -/

/-- The number of places at which the characters `p` occur in `s`. -/
def occ (p : List Char) : List Char → Nat
  | [] => 0
  | c :: cs => (if p.isPrefixOf (c :: cs) then 1 else 0) + occ p cs

/-- The number of places at which `pat` occurs in the bytes of the output. -/
def occurrences (pat : String) (out : Out) : Nat := occ pat.data out.bytes.data

/-- Whether `pat` occurs in the bytes of the output. -/
def rendersText (pat : String) (out : Out) : Bool := contains pat out.bytes

/-- Whether no value written by an action contains one of the texts `bad`. -/
def valsAvoid (bad : List String) (out : Out) : Bool :=
  (vals out).all fun v => bad.all fun w => !contains w v

/-- Whether the characters are empty or start with a line break. -/
def startsNL : List Char → Bool
  | [] => true
  | c :: _ => c == '\n'

/-! ### Following a pattern through texts and values

To count the occurrences of a pattern `p` in bytes that hold values not known in
advance, the lengths of the beginnings of `p` that end the bytes read so far are
followed: `sure` holds lengths that certainly do, `may` every length that
possibly does.  A value is only known to contain none of the texts `bad`. -/

/-- The characters of `p` from position `i` up to position `j`. -/
def slice (p : List Char) (i j : Nat) : List Char := (p.drop i).take (j - i)

/-- The lengths of the beginnings of `p` that end the bytes once the character
`c` follows bytes ended by the beginnings of the lengths `S`. -/
def advance (p : List Char) (S : List Nat) (c : Char) : List Nat :=
  ((0 :: S).filter fun i => p.get? i == some c).map (· + 1)

/-- The lengths of the beginnings of `p` that may end the bytes once a value
that contains none of `bad` follows bytes ended by the beginnings of the
lengths `S`. -/
def spread (p : List Char) (bad : List (List Char)) (S : List Nat) : List Nat :=
  (List.range (p.length + 1)).filter fun j =>
    (0 :: S).any fun i => decide (i ≤ j) && bad.all fun w => !hasInfix w (slice p i j)

/-- What is known while the bytes are read: the lengths of the beginnings of the
pattern that end the bytes for certain, those that may end them, and the number
of occurrences met. -/
structure Track where
  sure : List Nat
  may : List Nat
  hits : Nat
deriving DecidableEq, Repr

/-- Reading one character of a template text; no result when an occurrence
would depend on what a value holds. -/
def trackChar (p : List Char) (t : Track) (c : Char) : Option Track :=
  let may := advance p t.may c
  let sure := advance p t.sure c
  if may.contains p.length && !sure.contains p.length then none
  else
    some ⟨sure.filter (· < p.length), may.filter (· < p.length),
      t.hits + (if sure.contains p.length then 1 else 0)⟩

/-- Reading a template text. -/
def trackText (p : List Char) : Track → List Char → Option Track
  | t, [] => some t
  | t, c :: cs =>
    match trackChar p t c with
    | none => none
    | some t1 => trackText p t1 cs

/-- Reading a value that contains none of `bad`; no result when the value could
complete an occurrence. -/
def trackVal (p : List Char) (bad : List (List Char)) (t : Track) : Option Track :=
  let may := spread p bad t.may
  if may.contains p.length then none else some ⟨[], may, t.hits⟩

/-- The writes of an output with the values left out: `some` for a template
text, `none` for a value. -/
def skeleton (out : Out) : List (Option String) :=
  out.map fun e =>
    match e with
    | .text s => some s
    | .val _ => none

/-- Reading the writes of an output. -/
def track (p : List Char) (bad : List (List Char)) : Track → List (Option String) → Option Track
  | t, [] => some t
  | t, some s :: rest =>
    match trackText p t s.data with
    | none => none
    | some t1 => track p bad t1 rest
  | t, none :: rest =>
    match trackVal p bad t with
    | none => none
    | some t1 => track p bad t1 rest

/-- The number of occurrences of `pat` in the bytes of any output with these
writes whose values contain none of `bad`, when the writes determine it. -/
def tally (pat : String) (bad : List String) (sk : List (Option String)) : Option Nat :=
  if pat.data.isEmpty then none
  else (track pat.data (bad.map String.data) ⟨[], [], 0⟩ sk).map Track.hits

/-- Whether the first write is a template text that starts with a line break,
or there is no write. -/
def nlSkeleton : List (Option String) → Bool
  | [] => true
  | some s :: _ => s.data.head? == some '\n'
  | none :: _ => false

/-- The bytes of the output start with a line break (or are empty), and hold
`pat` exactly `n` times whenever no value contains one of `bad`. -/
def Sealed (pat : String) (bad : List String) (out : Out) (n : Nat) : Prop :=
  startsNL out.bytes.data = true ∧ (valsAvoid bad out = true → occurrences pat out = n)

/-- The beginning of `p` of length `j`, neither empty nor all of `p`, ends the
characters `b`. -/
def Ends (p b : List Char) (j : Nat) : Prop :=
  0 < j ∧ j < p.length ∧ p.take j <:+ b

/-- What is tracked is right for the bytes `b` read so far: every length in
`sure` ends `b`, and every length that ends `b` is in `may`. -/
def Tracks (p b : List Char) (t : Track) : Prop :=
  (∀ j ∈ t.sure, Ends p b j) ∧ (∀ j, Ends p b j → j ∈ t.may)

/-- Whether the writes start with a line break and hold none of the patterns,
whatever their values are, as long as no value contains the text paired with
the pattern. -/
def hush (pairs : List (String × String)) (sk : List (Option String)) : Bool :=
  nlSkeleton sk && pairs.all fun pw => tally pw.1 [pw.2] sk == some 0

/-- What must not occur in the method of an operation with a streaming response
body, each with the text no value may contain for it to be ruled out. -/
def closePairs : List (String × String) :=
  [("httpResp.Body.Close()", "httpResp.Body.Close"), ("Decode(resp)", "Decode(resp")]

/-- What must not occur in the method of an operation with a streaming payload,
each with the text no value may contain for it to be ruled out. -/
def marshalPairs : List (String × String) :=
  [("xml.Marshal", "xml.Marshal"), ("json.Marshal", "json.Marshal"),
   ("contentType =", "contentType")]

/-- What occurs in no method: the opening of a struct declaration, with the
text no value may contain for it to be ruled out. -/
def declPairs : List (String × String) :=
  [(" struct \x7b", "struct")]

/-- What the request body of a REST method never holds. -/
def bodyPairs : List (String × String) := closePairs ++ declPairs

/-- What the response block of a REST method never holds. -/
def responsePairs : List (String × String) := marshalPairs ++ declPairs

/-- The patterns of `closePairs`, `marshalPairs` and `declPairs`. -/
def methodPairs : List (String × String) := closePairs ++ marshalPairs ++ declPairs


/-- Whether the text `v` contains none of the texts `bad`. -/
def avoids (bad : List String) (v : String) : Bool :=
  bad.all fun w => !contains w v

/-- Whether the bytes of the output are white space only. -/
def blankBytes (out : Out) : Bool :=
  out.bytes.data.all Char.isWhitespace

/-! ## Models whose names carry program text

`LocationName` and `Location` are texts of the model that the templates write
as they are.  The members below hold texts that end the literal or the comment
they are written into. -/

/-- The operation `getObject` whose output member `ETag` names its header by a
text that ends the string literal it is written into and goes on with a call. -/
def getObjectSpliced : Operation :=
  { getObject with
    Output := some
      { Name := "GetObjectOutput", ShapeType := "structure", GoType := "*GetObjectOutput",
        Literal := "&GetObjectOutput\x7b\x7d",
        Members :=
          [("Body", { Name := "Body", GoType := "io.ReadCloser", Streaming := true,
                      Shape := { ShapeType := "blob" } }),
           ("ETag", { Name := "ETag", GoType := "*string", Location := "header",
                      LocationName :=
                        "ETag\"); s != \"\" \x7b httpResp.Body.Close() \x7d; if s := httpResp.Header.Get(\"ETag",
                      Shape := { ShapeType := "string" } })] } }

/-- The operation `putObject true`, whose payload member `Body` is a stream,
with one more input member `Tag`: its header is named by a text that ends the
call it is written into and goes on with statements of its own. -/
def putObjectSpliced : Operation :=
  { putObject true with
    Input := some
      { Name := "PutObjectRequest", ShapeType := "structure", GoType := "*PutObjectRequest",
        Payload := "Body",
        Members :=
          [("Body", { Name := "Body", GoType := "io.Reader", Streaming := true,
                      Shape := { ShapeType := "blob" } }),
           ("Tag", { Name := "Tag", GoType := "*string", Location := "header",
                     LocationName :=
                       "X-Tag\", \"\")\n  \x7d\n  contentType = \"text/plain\"\n  if b, _ := json.Marshal(req); b != nil \x7b\n    httpReq.Header.Set(\"X-Tag",
                     Shape := { ShapeType := "string" } })] } }

/-- An input member `Tag` bound to a header whose name ends the call it is
written into and goes on with a second call. -/
def taggedMember : Member :=
  { Name := "Tag", GoType := "*string", Location := "header",
    LocationName := "X-Tag\", \"a\")\n    httpReq.Header.Set(\"X-Other",
    Shape := { ShapeType := "string" } }

/-- A REST operation `PutTagged` whose only input member is `taggedMember`. -/
def putTagged : Operation :=
  { HTTP := { Method := "PUT", RequestURI := "/" },
    Input := some
      { Name := "PutTaggedRequest", ShapeType := "structure", GoType := "*PutTaggedRequest",
        Members := [("Tag", taggedMember)] },
    InputRef := some {} }

/-- An output member `Trailer` whose `Location` is none of the handled ones and
holds a line break: the text after the line break is no longer part of the
comment the location is written into. -/
def splicedTrailer : Member :=
  { Name := "Trailer", GoType := "*string",
    Location := "trailer\n      resp.Trailer = nil //",
    LocationName := "x-amz-trailer", Shape := { ShapeType := "string" } }

/-- A REST operation `HeadSpliced` whose only output member is
`splicedTrailer`. -/
def headSpliced : Operation :=
  { HTTP := { Method := "HEAD", RequestURI := "/" },
    Output := some
      { Name := "HeadSplicedOutput", ShapeType := "structure", GoType := "*HeadSplicedOutput",
        Literal := "&HeadSplicedOutput\x7b\x7d",
        Members := [("Trailer", splicedTrailer)] },
    OutputRef := some {} }

/-- A `query` operation `Ping` without input and output whose request URI ends
the string literal it is written into and goes on with the arguments of the
call. -/
def pingSpliced : Operation :=
  { HTTP := { Method := "POST", RequestURI := "/\",  req ,  nil )\n  // " } }

/-- The lines of a constant block: one line `name = value` for each entry, in
order. -/
def constLines : List (String × String) → String
  | [] => ""
  | e :: rest => "\n" ++ e.1 ++ " = " ++ e.2 ++ constLines rest

/-- The bytes of `out` declare the struct types `names`: the declaration of
each is in the bytes, and, provided that no value contains `struct`, the bytes
open exactly as many struct declarations as there are names. -/
def declaresInBytes (names : List String) (out : Out) : Prop :=
  (∀ n ∈ names, rendersText ("type " ++ n ++ " struct \x7b") out = true)
    ∧ (valsAvoid ["struct"] out = true → occurrences " struct \x7b" out = names.length)

/-! ## General lemmas on the observations -/

theorem hasInfix_iff (p s : List Char) : hasInfix p s = true ↔ p <:+: s := by
  induction s with
  | nil =>
    cases p <;> simp [hasInfix]
  | cons c cs ih =>
    rw [hasInfix, Bool.or_eq_true, ih, List.isPrefixOf_iff_prefix, List.infix_cons_iff]

theorem contains_of_endsWith {pat s : String} (h : endsWith pat s = true) :
    contains pat s = true := by
  unfold endsWith at h
  unfold contains
  rw [hasInfix_iff]
  exact (List.isSuffixOf_iff_suffix.mp h).isInfix

theorem textsIn_append (L : List String) (a b : Out) :
    textsIn L (a ++ b) = (textsIn L a && textsIn L b) := by
  simp [textsIn, List.all_append]

theorem textsIn_nil (L : List String) : textsIn L [] = true := rfl

theorem textsIn_val (L : List String) (v : String) (r : Out) :
    textsIn L (.val v :: r) = textsIn L r := by
  simp [textsIn]

theorem textsIn_text (L : List String) (t : String) (r : Out) :
    textsIn L (.text t :: r) = (L.contains t && textsIn L r) := by
  simp [textsIn]

theorem textsIn_range {α : Type} (L : List String) (body : String → α → Out)
    (l : List (String × α)) (h : ∀ k v, textsIn L (body k v) = true) :
    textsIn L (range body l) = true := by
  induction l with
  | nil => rfl
  | cons kv rest ih =>
    obtain ⟨k, v⟩ := kv
    simp [range, textsIn_append, ih, h]

theorem emitsText_append (p : String) (a b : Out) :
    emitsText p (a ++ b) = (emitsText p a || emitsText p b) := by
  simp [emitsText, List.any_append]

theorem emitsText_nil (p : String) : emitsText p [] = false := rfl

theorem emitsText_val (p v : String) (r : Out) :
    emitsText p (.val v :: r) = emitsText p r := by
  simp [emitsText]

theorem emitsText_text (p t : String) (r : Out) :
    emitsText p (.text t :: r) = (contains p t || emitsText p r) := by
  simp [emitsText]

theorem emitsText_range_false {α : Type} (p : String) (body : String → α → Out)
    (l : List (String × α)) (h : ∀ k v, emitsText p (body k v) = false) :
    emitsText p (range body l) = false := by
  induction l with
  | nil => rfl
  | cons kv rest ih =>
    obtain ⟨k, v⟩ := kv
    simp [range, emitsText_append, ih, h]

theorem emitsText_false_of_textsIn (L : List String) (p : String) (out : Out)
    (hin : textsIn L out = true) (hL : ∀ t ∈ L, contains p t = false) :
    emitsText p out = false := by
  induction out with
  | nil => rfl
  | cons c rest ih =>
    cases c with
    | text t =>
      rw [textsIn_text, Bool.and_eq_true] at hin
      rw [emitsText_text, ih hin.2, hL t (by simpa using hin.1)]
      rfl
    | val v =>
      rw [textsIn_val] at hin
      rw [emitsText_val, ih hin]

theorem vals_append (a b : Out) : vals (a ++ b) = vals a ++ vals b := by
  induction a with
  | nil => rfl
  | cons c rest ih =>
    cases c <;> simp [vals, ih]

theorem scan_nil (pre suf : String) (st : Scan) : scan pre suf st [] = [] := rfl

theorem scan_cons (pre suf : String) (st : Scan) (c : Emit) (r : Out) :
    scan pre suf st (c :: r) = scanHit suf st c ++ scan pre suf (scanNext pre st c) r := rfl

theorem scanEnd_nil (pre : String) (st : Scan) : scanEnd pre st [] = st := rfl

theorem scanEnd_cons (pre : String) (st : Scan) (c : Emit) (r : Out) :
    scanEnd pre st (c :: r) = scanEnd pre (scanNext pre st c) r := rfl

theorem scan_append (pre suf : String) (st : Scan) (a b : Out) :
    scan pre suf st (a ++ b) = scan pre suf st a ++ scan pre suf (scanEnd pre st a) b := by
  induction a generalizing st with
  | nil => rfl
  | cons c rest ih => simp [scan, scanEnd, ih]

theorem scanEnd_append (pre : String) (st : Scan) (a b : Out) :
    scanEnd pre st (a ++ b) = scanEnd pre (scanEnd pre st a) b := by
  induction a generalizing st with
  | nil => rfl
  | cons c rest ih => simp [scanEnd, ih]

/-- Output in which no template text contains `pre` reports nothing and leaves
the scan idle. -/
theorem scan_quiet (pre suf : String) (out : Out) (h : emitsText pre out = false) :
    scan pre suf .idle out = [] ∧ scanEnd pre .idle out = .idle := by
  induction out with
  | nil => exact ⟨rfl, rfl⟩
  | cons c rest ih =>
    cases c with
    | text t =>
      rw [emitsText_text, Bool.or_eq_false_iff] at h
      have he : endsWith pre t = false := by
        cases hc : endsWith pre t with
        | false => rfl
        | true => rw [contains_of_endsWith hc] at h; exact absurd h.1 (by decide)
      simp [scan, scanEnd, scanHit, scanNext, he, ih h.2]
    | val v =>
      rw [emitsText_val] at h
      simp [scan, scanEnd, scanHit, scanNext, ih h]

/-- A `range` whose bodies start and end with the scan idle reports the hits of
its bodies, one after the other. -/
theorem scan_range {α : Type} (pre suf : String) (body : String → α → Out)
    (l : List (String × α)) (h : ∀ k v, scanEnd pre .idle (body k v) = .idle) :
    scan pre suf .idle (range body l)
        = (l.map fun kv => scan pre suf .idle (body kv.1 kv.2)).flatten
      ∧ scanEnd pre .idle (range body l) = .idle := by
  induction l with
  | nil => exact ⟨rfl, rfl⟩
  | cons kv rest ih =>
    obtain ⟨k, v⟩ := kv
    simp [range, scan_append, scanEnd_append, h, ih.1, ih.2]

theorem infix_range {α : Type} (body : String → α → Out) (l : List (String × α))
    (k : String) (v : α) (h : (k, v) ∈ l) : body k v <:+: range body l := by
  induction l with
  | nil => cases h
  | cons kv rest ih =>
    obtain ⟨k', v'⟩ := kv
    rcases List.mem_cons.mp h with heq | hmem
    · cases heq
      exact ⟨[], range body rest, by simp [range]⟩
    · obtain ⟨a, b, hab⟩ := ih hmem
      exact ⟨body k' v' ++ a, b, by simp [range, ← hab]⟩


/-! ## The REST fragments write none of the texts in `marks` -/

theorem restUriMember_texts (E : Env) (k : String) (m : Member) :
    textsIn restTexts (restUriMember E k m) = true := by
  unfold restUriMember
  split_ifs <;>
    simp only [List.cons_append, List.nil_append, textsIn_text, textsIn_val, textsIn_nil,
      Bool.and_true, Bool.and_eq_true] <;> decide

theorem restQuerystringMember_texts (E : Env) (k : String) (m : Member) :
    textsIn restTexts (restQuerystringMember E k m) = true := by
  unfold restQuerystringMember
  split_ifs <;>
    simp only [List.cons_append, List.nil_append, textsIn_text, textsIn_val, textsIn_nil,
      Bool.and_true, Bool.and_eq_true] <;> decide

theorem restReqheadersMember_texts (E : Env) (k : String) (m : Member) :
    textsIn restTexts (restReqheadersMember E k m) = true := by
  unfold restReqheadersMember
  split_ifs <;>
    simp only [List.cons_append, List.nil_append, textsIn_text, textsIn_val, textsIn_nil,
      Bool.and_true, Bool.and_eq_true] <;> decide

theorem restRespheadersMember_texts (E : Env) (k : String) (m : Member) :
    textsIn restTexts (restRespheadersMember E k m) = true := by
  unfold restRespheadersMember restRespheaderValue
  split_ifs <;>
    simp only [List.cons_append, List.nil_append, textsIn_text, textsIn_val, textsIn_nil,
      Bool.and_true, Bool.and_eq_true] <;> decide

theorem restUri_texts (E : Env) (op : Operation) : textsIn restTexts (restUri E op) = true := by
  unfold restUri
  cases op.Input <;>
    simp only [List.cons_append, List.nil_append, List.append_nil, textsIn_append, textsIn_text,
      textsIn_val, textsIn_nil, textsIn_range _ _ _ (restUriMember_texts E), Bool.and_true,
      Bool.and_eq_true] <;> decide

theorem restQuerystring_texts (E : Env) (op : Operation) :
    textsIn restTexts (restQuerystring E op) = true := by
  unfold restQuerystring
  cases op.Input <;>
    simp only [List.cons_append, List.nil_append, List.append_nil, textsIn_append, textsIn_text,
      textsIn_val, textsIn_nil, textsIn_range _ _ _ (restQuerystringMember_texts E),
      Bool.and_true, Bool.and_eq_true] <;> decide

theorem restReqheaders_texts (E : Env) (op : Operation) :
    textsIn restTexts (restReqheaders E op) = true := by
  unfold restReqheaders
  cases op.Input <;>
    simp only [List.cons_append, List.nil_append, List.append_nil, textsIn_append, textsIn_text,
      textsIn_val, textsIn_nil, textsIn_range _ _ _ (restReqheadersMember_texts E),
      Bool.and_true, Bool.and_eq_true] <;> decide

theorem restRespheaders_texts (E : Env) (o : Shape) :
    textsIn restTexts (restRespheaders E o) = true := by
  unfold restRespheaders
  simp only [List.cons_append, List.nil_append, List.append_nil, textsIn_append, textsIn_text,
    textsIn_val, textsIn_nil, textsIn_range _ _ _ (restRespheadersMember_texts E),
    Bool.and_true, Bool.and_eq_true]
  decide

set_option maxRecDepth 100000 in
theorem restTexts_marks :
    (restTexts.all fun t => marks.all fun p => !contains p t) = true := by
  decide!

theorem restTexts_quiet {p : String} (hp : p ∈ marks) :
    ∀ t ∈ restTexts, contains p t = false := by
  intro t ht
  have h := restTexts_marks
  rw [List.all_eq_true] at h
  have h2 := h t ht
  rw [List.all_eq_true] at h2
  simpa using h2 p hp

theorem restUri_quiet (E : Env) (op : Operation) {p : String} (hp : p ∈ marks) :
    emitsText p (restUri E op) = false :=
  emitsText_false_of_textsIn restTexts p _ (restUri_texts E op) (restTexts_quiet hp)

theorem restQuerystring_quiet (E : Env) (op : Operation) {p : String} (hp : p ∈ marks) :
    emitsText p (restQuerystring E op) = false :=
  emitsText_false_of_textsIn restTexts p _ (restQuerystring_texts E op) (restTexts_quiet hp)

theorem restReqheaders_quiet (E : Env) (op : Operation) {p : String} (hp : p ∈ marks) :
    emitsText p (restReqheaders E op) = false :=
  emitsText_false_of_textsIn restTexts p _ (restReqheaders_texts E op) (restTexts_quiet hp)

theorem restRespheaders_quiet (E : Env) (o : Shape) {p : String} (hp : p ∈ marks) :
    emitsText p (restRespheaders E o) = false :=
  emitsText_false_of_textsIn restTexts p _ (restRespheaders_texts E o) (restTexts_quiet hp)


/-! ## The driver `Generate` (claims C1, C2, C3) -/

/-- C1, as stated, fails: a service whose `Metadata.Protocol` is `header` (a
fragment registered in the same template set) is rendered.  With a
pretty-printer that accepts the text, `Generate` returns no error and the sink
receives the header; with one that rejects it, the sink still receives the
header. -/
theorem C1_header_protocol_is_rendered :
    Generate (sampleEnv false) acceptAll headerService recorder []
        = ([(header headerService).bytes], none)
      ∧ (Generate (sampleEnv false) rejectAll headerService recorder []).1
        = [(header headerService).bytes] := by
  constructor <;> rfl

/-- C1, amended: when `Metadata.Protocol` is none of `json`, `query`, `ec2`,
`rest-xml`, `rest-json`, `header`, `footer`, `root`, `Generate` returns an error
and leaves the sink as it was; this covers `soap`, every undefined name and the
four REST fragments.  When it is `header`, `footer` or `root`, that registered
template is rendered for the service and handed to the pretty-printer, and the
sink receives one write: of the pretty-printed bytes, or, when the
pretty-printer rejects the text, of the unformatted bytes, with the
pretty-printer's error returned. -/
theorem C1_protocol_selects_template {σ : Type} (E : Env)
    (formatSource : String → Except Error String) (service : Service) (W : Writer σ) (w : σ) :
    (service.Metadata.Protocol ∉
        ["json", "query", "ec2", "rest-xml", "rest-json", "header", "footer", "root"] →
        ∃ err, Generate E formatSource service W w = (w, some err))
      ∧ (service.Metadata.Protocol ∈ ["header", "footer", "root"] →
        ∃ out, ExecuteTemplate E service.Metadata.Protocol service = .ok out
          ∧ out = (if service.Metadata.Protocol = "header" then header service
                   else if service.Metadata.Protocol = "footer" then footer else root)
          ∧ (∀ b, formatSource out.bytes = .ok b →
              Generate E formatSource service W w = W.Write w b)
          ∧ (∀ err, formatSource out.bytes = .error err →
              Generate E formatSource service W w = ((W.Write w out.bytes).1, some err))) := by
  constructor
  · intro h
    simp only [List.mem_cons, List.mem_singleton, not_or, List.not_mem_nil, or_false] at h
    obtain ⟨h1, h2, h3, h4, h5, h6, h7, h8⟩ := h
    unfold Generate ExecuteTemplate
    simp only [h1, h2, h3, h4, h5, h6, h7, h8, if_false]
    split_ifs <;> exact ⟨_, rfl⟩
  · intro h
    simp only [List.mem_cons, List.mem_singleton, List.not_mem_nil, or_false] at h
    rcases h with h | h | h
    · refine ⟨header service, by simp +decide [ExecuteTemplate, h], by simp [h], ?_, ?_⟩
      · intro b hb
        simp +decide [Generate, ExecuteTemplate, h, hb]
      · intro err hb
        simp +decide [Generate, ExecuteTemplate, h, hb]
    · refine ⟨footer, by simp +decide [ExecuteTemplate, h], by simp +decide [h], ?_, ?_⟩
      · intro b hb
        simp +decide [Generate, ExecuteTemplate, h, hb]
      · intro err hb
        simp +decide [Generate, ExecuteTemplate, h, hb]
    · refine ⟨root, by simp +decide [ExecuteTemplate, h], by simp +decide [h], ?_, ?_⟩
      · intro b hb
        simp +decide [Generate, ExecuteTemplate, h, hb]
      · intro err hb
        simp +decide [Generate, ExecuteTemplate, h, hb]

/-- C1 witness: the protocol `soap` gives the error for a missing template and
nothing is written; the protocol `header` has the header of the service written
to the sink. -/
theorem C1_protocol_selects_template_witness :
    (soapService.Metadata.Protocol ∉
        ["json", "query", "ec2", "rest-xml", "rest-json", "header", "footer", "root"]
      ∧ ∃ err, Generate (sampleEnv false) acceptAll soapService recorder [] = ([], some err))
    ∧ (headerService.Metadata.Protocol ∈ ["header", "footer", "root"]
      ∧ ∃ out, ExecuteTemplate (sampleEnv false) headerService.Metadata.Protocol headerService
            = .ok out
          ∧ out = header headerService
          ∧ Generate (sampleEnv false) acceptAll headerService recorder [] = ([out.bytes], none)) := by
  refine ⟨⟨by decide,
    (C1_protocol_selects_template (sampleEnv false) acceptAll soapService recorder []).1
      (by decide)⟩, by decide, ?_⟩
  obtain ⟨out, h1, h2, h3, _⟩ :=
    (C1_protocol_selects_template (sampleEnv false) acceptAll headerService recorder []).2
      (by decide)
  exact ⟨out, h1, h2, h3 out.bytes rfl⟩

/-- C2: when rendering succeeds and the pretty-printer rejects the rendered
text, the sink receives exactly one write, of the unformatted bytes, and
`Generate` returns the pretty-printer's error. -/
theorem C2_format_failure_writes_unformatted {σ : Type} (E : Env)
    (formatSource : String → Except Error String) (service : Service) (W : Writer σ) (w : σ)
    (out : Out) (err : Error)
    (hrender : ExecuteTemplate E service.Metadata.Protocol service = .ok out)
    (hformat : formatSource out.bytes = .error err) :
    Generate E formatSource service W w = ((W.Write w out.bytes).1, some err) := by
  simp [Generate, hrender, hformat]

/-- C2 witness: the `Ping` service with a pretty-printer that rejects
everything; the recording sink holds the unformatted bytes and nothing else. -/
theorem C2_format_failure_writes_unformatted_witness :
    ExecuteTemplate (sampleEnv false) pingService.Metadata.Protocol pingService
        = .ok (jsonClient (sampleEnv false) pingService)
      ∧ rejectAll (jsonClient (sampleEnv false) pingService).bytes
        = .error (.external "format: syntax error")
      ∧ Generate (sampleEnv false) rejectAll pingService recorder []
        = ([(jsonClient (sampleEnv false) pingService).bytes],
           some (.external "format: syntax error")) :=
  ⟨rfl, rfl,
   C2_format_failure_writes_unformatted (sampleEnv false) rejectAll pingService recorder []
     (jsonClient (sampleEnv false) pingService) (.external "format: syntax error") rfl rfl⟩

/-- C3, as stated, fails on the fallback path: with a pretty-printer that
rejects the text and a sink whose write fails, the write returns the sink's
error and `Generate` returns the pretty-printer's error instead. -/
theorem C3_fallback_discards_sink_error :
    (brokenSink.Write [] (jsonClient (sampleEnv false) pingService).bytes).2
        = some (.external "sink: write failed")
      ∧ (Generate (sampleEnv false) rejectAll pingService brokenSink []).2
        = some (.external "format: syntax error") := by
  constructor <;> rfl

/-- C3, amended: on the path that writes the pretty-printed output, an error
returned by the sink is what `Generate` returns; on the fallback path the result
of the write is discarded and `Generate` returns the pretty-printer's error. -/
theorem C3_sink_error_returned_on_formatted_path {σ : Type} (E : Env)
    (formatSource : String → Except Error String) (service : Service) (W : Writer σ) (w : σ)
    (out : Out)
    (hrender : ExecuteTemplate E service.Metadata.Protocol service = .ok out) :
    (∀ b e, formatSource out.bytes = .ok b → (W.Write w b).2 = some e →
        Generate E formatSource service W w = ((W.Write w b).1, some e))
      ∧ (∀ err, formatSource out.bytes = .error err →
        Generate E formatSource service W w = ((W.Write w out.bytes).1, some err)) := by
  constructor
  · intro b e hf hw
    simp [Generate, hrender, hf, ← hw]
  · intro err hf
    simp [Generate, hrender, hf]

/-- C3 witness: the `Ping` service, a pretty-printer that accepts the text and
a sink whose write fails; `Generate` returns the sink's error. -/
theorem C3_sink_error_returned_on_formatted_path_witness :
    ExecuteTemplate (sampleEnv false) pingService.Metadata.Protocol pingService
        = .ok (jsonClient (sampleEnv false) pingService)
      ∧ Generate (sampleEnv false) acceptAll pingService brokenSink []
        = ([(jsonClient (sampleEnv false) pingService).bytes],
           some (.external "sink: write failed")) :=
  ⟨rfl,
   (C3_sink_error_returned_on_formatted_path (sampleEnv false) acceptAll pingService brokenSink
     [] (jsonClient (sampleEnv false) pingService) rfl).1
     (jsonClient (sampleEnv false) pingService).bytes (.external "sink: write failed") rfl rfl⟩


/-! ## When the templates render

Rendering fails only where a template reads a field through a reference that is
absent: `$op.OutputRef.WrappedLiteral` in `query` and `ec2`, and
`$op.InputRef.LocationName` in `rest-xml`. -/

theorem rangeE_ok {α : Type} (body : String → α → Except Error Out) (l : List (String × α))
    (h : ∀ kv ∈ l, ∃ o, body kv.1 kv.2 = .ok o) : ∃ out, rangeE body l = .ok out := by
  induction l with
  | nil => exact ⟨[], rfl⟩
  | cons kv rest ih =>
    obtain ⟨k, v⟩ := kv
    obtain ⟨a, ha⟩ := h (k, v) (List.mem_cons_self _ _)
    obtain ⟨b, hb⟩ := ih (fun kv hkv => h kv (List.mem_cons_of_mem _ hkv))
    exact ⟨a ++ b, by simp [rangeE, ha, hb]⟩

theorem queryMethod_renders (E : Env) (svc : Service) (name : String) (op : Operation)
    (hw : op.Output.isSome = true → op.OutputRef.isSome = true) :
    ∃ out, queryMethod E svc name op = .ok out := by
  unfold queryMethod wrappedInit deref
  cases hO : op.Output <;> cases hOR : op.OutputRef <;> simp_all

theorem restXMLMethod_renders (E : Env) (svc : Service) (name : String) (op : Operation)
    (hw : op.Input.isSome = true → op.InputRef.isSome = true) :
    ∃ out, restXMLMethod E svc name op = .ok out := by
  unfold restXMLMethod restXMLBody deref
  cases hI : op.Input with
  | none => simp
  | some i =>
    cases hR : op.InputRef with
    | none => simp_all
    | some r =>
      simp only []
      split_ifs <;> simp

theorem queryClient_renders (E : Env) (svc : Service)
    (hw : ∀ kv ∈ svc.Operations, kv.2.Output.isSome = true → kv.2.OutputRef.isSome = true) :
    (∃ out, queryClient E svc = .ok out) ∧ ∃ out, ec2Client E svc = .ok out := by
  obtain ⟨ms, hms⟩ := rangeE_ok (queryMethod E svc) svc.Operations
    (fun kv hkv => queryMethod_renders E svc kv.1 kv.2 (hw kv hkv))
  constructor
  · exact ⟨_, by rw [queryClient, hms]⟩
  · exact ⟨_, by rw [ec2Client, show ec2Method E svc = queryMethod E svc from rfl, hms]⟩

theorem restXMLClient_renders (E : Env) (svc : Service)
    (hw : ∀ kv ∈ svc.Operations, kv.2.Input.isSome = true → kv.2.InputRef.isSome = true) :
    ∃ out, restXMLClient E svc = .ok out := by
  obtain ⟨ms, hms⟩ := rangeE_ok (restXMLMethod E svc) svc.Operations
    (fun kv hkv => restXMLMethod_renders E svc kv.1 kv.2 (hw kv hkv))
  exact ⟨_, by rw [restXMLClient, hms]⟩


/-! ## REST methods: request body and response -/

theorem restXMLMethod_ok {E : Env} {svc : Service} {name : String} {op : Operation} {out : Out}
    (h : restXMLMethod E svc name op = .ok out) :
    ∃ body, restXMLBody E op = .ok body ∧ out = restXMLMethodText E svc name op body := by
  unfold restXMLMethod at h
  split at h
  · cases h
  · next body hb =>
    cases h
    exact ⟨body, hb, rfl⟩

/-- The request body of a `rest-xml` method writes nothing that belongs to the
response side. -/
theorem restXMLBody_quiet {E : Env} {op : Operation} {body : Out}
    (h : restXMLBody E op = .ok body) {p : String}
    (hp : p ∈ ["httpResp.Body.Close()", "Decode(resp)", "resp.Body = httpResp.Body", "type "]) :
    emitsText p body = false := by
  simp only [List.mem_cons, List.mem_singleton, List.not_mem_nil, or_false] at hp
  unfold restXMLBody at h
  split at h
  · cases h
    rfl
  · split at h
    · cases h
      unfold restXMLPayload
      rcases hp with rfl | rfl | rfl | rfl <;> split <;> (try split_ifs) <;>
        simp +decide [emitsText]
    · split at h
      · cases h
      · cases h
        rcases hp with rfl | rfl | rfl | rfl <;> split_ifs <;> simp +decide [emitsText]

/-- The request body of a `rest-json` method writes nothing that belongs to the
response side. -/
theorem restJSONBody_quiet (E : Env) (op : Operation) {p : String}
    (hp : p ∈ ["httpResp.Body.Close()", "Decode(resp)", "resp.Body = httpResp.Body", "type "]) :
    emitsText p (restJSONBody E op) = false := by
  simp only [List.mem_cons, List.mem_singleton, List.not_mem_nil, or_false] at hp
  unfold restJSONBody restJSONPayload
  rcases hp with rfl | rfl | rfl | rfl <;> split <;> (try split_ifs) <;>
    (try split) <;> (try split_ifs) <;> simp +decide [emitsText]


/-- The template texts of the method of an operation whose output has a
streaming member `Body`, in `rest-xml` and `rest-json`: one of them is
`resp.Body = httpResp.Body`, and none closes the response body or decodes it
into `resp`.  The `rest-xml` method is rendered whenever `InputRef` is present
with `Input`. -/
theorem streamingBody_texts (E : Env) (svc : Service) (name : String)
    (op : Operation) (o : Shape) (m : Member)
    (hO : op.Output = some o) (hB : o.Members.lookup "Body" = some m)
    (hS : m.Streaming = true) :
    (∀ out, restXMLMethod E svc name op = .ok out → handsOverBody out = true)
      ∧ handsOverBody (restJSONMethod E svc name op) = true
      ∧ ((op.Input.isSome = true → op.InputRef.isSome = true) →
          ∃ out, restXMLMethod E svc name op = .ok out) := by
  have hm : ∀ p, p ∈ ["httpResp.Body.Close()", "Decode(resp)", "resp.Body = httpResp.Body"]
      → p ∈ marks := by decide
  have hm4 : ∀ p, p ∈ ["httpResp.Body.Close()", "Decode(resp)", "resp.Body = httpResp.Body"]
      → p ∈ ["httpResp.Body.Close()", "Decode(resp)", "resp.Body = httpResp.Body", "type "] := by
    decide
  have hidx : indexMembers E o.Members "Body" = some m := by simp [indexMembers, hB]
  refine ⟨?_, ?_, ?_⟩
  · intro out hout
    obtain ⟨body, hb, rfl⟩ := restXMLMethod_ok hout
    unfold handsOverBody restXMLMethodText restXMLResponse
    simp only [hO, hidx, hS, truth, Option.isSome_some, if_true, emitsText_append,
      restXMLBody_quiet hb (hm4 _ (List.mem_cons_self _ _)),
      restXMLBody_quiet hb (hm4 "Decode(resp)" (by decide)),
      restXMLBody_quiet hb (hm4 "resp.Body = httpResp.Body" (by decide)),
      restUri_quiet E op (hm _ (List.mem_cons_self _ _)),
      restUri_quiet E op (hm "Decode(resp)" (by decide)),
      restQuerystring_quiet E op (hm _ (List.mem_cons_self _ _)),
      restQuerystring_quiet E op (hm "Decode(resp)" (by decide)),
      restReqheaders_quiet E op (hm _ (List.mem_cons_self _ _)),
      restReqheaders_quiet E op (hm "Decode(resp)" (by decide)),
      restRespheaders_quiet E o (hm _ (List.mem_cons_self _ _)),
      restRespheaders_quiet E o (hm "Decode(resp)" (by decide))]
    cases op.Input <;> simp +decide [emitsText]
  · unfold handsOverBody restJSONMethod restJSONResponse
    simp only [hO, hidx, hS, truth, Option.isSome_some, if_true, emitsText_append,
      restJSONBody_quiet E op (hm4 _ (List.mem_cons_self _ _)),
      restJSONBody_quiet E op (hm4 "Decode(resp)" (by decide)),
      restJSONBody_quiet E op (hm4 "resp.Body = httpResp.Body" (by decide)),
      restUri_quiet E op (hm _ (List.mem_cons_self _ _)),
      restUri_quiet E op (hm "Decode(resp)" (by decide)),
      restQuerystring_quiet E op (hm _ (List.mem_cons_self _ _)),
      restQuerystring_quiet E op (hm "Decode(resp)" (by decide)),
      restReqheaders_quiet E op (hm _ (List.mem_cons_self _ _)),
      restReqheaders_quiet E op (hm "Decode(resp)" (by decide)),
      restRespheaders_quiet E o (hm _ (List.mem_cons_self _ _)),
      restRespheaders_quiet E o (hm "Decode(resp)" (by decide))]
    cases op.Input <;> simp +decide [emitsText]
  · exact restXMLMethod_renders E svc name op

/-! ### A REST method as head, request body and tail -/

theorem restXMLMethodText_eq (E : Env) (svc : Service) (name : String) (op : Operation)
    (body : Out) :
    restXMLMethodText E svc name op body
      = restMethodHead E svc name op ++ (body
          ++ restMethodTail E op "\n\n\n  " (restXMLResponse E op)) := by
  simp [restXMLMethodText, restMethodHead, restMethodTail, List.append_assoc]

theorem restJSONMethod_eq (E : Env) (svc : Service) (name : String) (op : Operation) :
    restJSONMethod E svc name op
      = restMethodHead E svc name op ++ (restJSONBody E op
          ++ restMethodTail E op "\n\n  " (restJSONResponse E op)) := by
  simp [restJSONMethod, restMethodHead, restMethodTail, List.append_assoc]

theorem textsIn_mono {L L' : List String} (h : ∀ t ∈ L, t ∈ L') (out : Out)
    (hin : textsIn L out = true) : textsIn L' out = true := by
  induction out with
  | nil => rfl
  | cons c rest ih =>
    cases c with
    | text t =>
      rw [textsIn_text, Bool.and_eq_true] at hin
      rw [textsIn_text, Bool.and_eq_true]
      exact ⟨by simpa using h t (by simpa using hin.1), ih hin.2⟩
    | val v =>
      rw [textsIn_val] at hin
      rw [textsIn_val]
      exact ih hin

theorem textsIn_frame_of_rest (out : Out) (h : textsIn restTexts out = true) :
    textsIn (frameTexts ++ restTexts) out = true :=
  textsIn_mono (fun _ ht => List.mem_append_right _ ht) out h

theorem restMethodHead_texts (E : Env) (svc : Service) (name : String) (op : Operation) :
    textsIn (frameTexts ++ restTexts) (restMethodHead E svc name op) = true := by
  unfold restMethodHead
  cases op.Input <;> cases op.Output <;>
    simp only [List.cons_append, List.nil_append, List.append_nil, textsIn_text, textsIn_val,
      textsIn_nil, Bool.and_true, Bool.and_eq_true] <;> decide!

theorem restXMLResponse_texts (E : Env) (op : Operation) :
    textsIn (frameTexts ++ restTexts) (restXMLResponse E op) = true := by
  unfold restXMLResponse
  split
  · next o _ =>
    have hr := textsIn_frame_of_rest _ (restRespheaders_texts E o)
    split <;> (try split_ifs) <;>
      simp only [List.cons_append, List.nil_append, List.append_nil, textsIn_append,
        textsIn_text, textsIn_val, textsIn_nil, hr, Bool.and_true, Bool.and_eq_true] <;> decide!
  · decide!

theorem restJSONResponse_texts (E : Env) (op : Operation) :
    textsIn (frameTexts ++ restTexts) (restJSONResponse E op) = true := by
  unfold restJSONResponse
  split
  · next o _ =>
    have hr := textsIn_frame_of_rest _ (restRespheaders_texts E o)
    split <;> (try split_ifs) <;>
      simp only [List.cons_append, List.nil_append, List.append_nil, textsIn_append,
        textsIn_text, textsIn_val, textsIn_nil, hr, Bool.and_true, Bool.and_eq_true] <;> decide!
  · decide!

theorem restMethodTail_texts (E : Env) (op : Operation) (gap : String) (response : Out)
    (hgap : (frameTexts ++ restTexts).contains gap = true)
    (hresp : textsIn (frameTexts ++ restTexts) response = true) :
    textsIn (frameTexts ++ restTexts) (restMethodTail E op gap response) = true := by
  unfold restMethodTail
  simp only [List.cons_append, List.nil_append, List.append_nil, textsIn_append, textsIn_text,
    textsIn_val, textsIn_nil, hgap, hresp, textsIn_frame_of_rest _ (restUri_texts E op),
    textsIn_frame_of_rest _ (restQuerystring_texts E op),
    textsIn_frame_of_rest _ (restReqheaders_texts E op), Bool.and_true, Bool.and_eq_true]
  decide!

set_option maxRecDepth 100000 in
theorem frameTexts_marks :
    ((frameTexts ++ restTexts).all fun t => frameMarks.all fun p => !contains p t) = true := by
  decide!

theorem frameTexts_quiet {p : String} (hp : p ∈ frameMarks) :
    ∀ t ∈ frameTexts ++ restTexts, contains p t = false := by
  intro t ht
  have h := frameTexts_marks
  rw [List.all_eq_true] at h
  have h2 := h t ht
  rw [List.all_eq_true] at h2
  simpa using h2 p hp

theorem restMethodHead_quiet (E : Env) (svc : Service) (name : String) (op : Operation)
    {p : String} (hp : p ∈ frameMarks) : emitsText p (restMethodHead E svc name op) = false :=
  emitsText_false_of_textsIn _ p _ (restMethodHead_texts E svc name op) (frameTexts_quiet hp)

theorem restXMLTail_quiet (E : Env) (op : Operation) {p : String} (hp : p ∈ frameMarks) :
    emitsText p (restMethodTail E op "\n\n\n  " (restXMLResponse E op)) = false :=
  emitsText_false_of_textsIn _ p _
    (restMethodTail_texts E op _ _ (by decide!) (restXMLResponse_texts E op))
    (frameTexts_quiet hp)

theorem restJSONTail_quiet (E : Env) (op : Operation) {p : String} (hp : p ∈ frameMarks) :
    emitsText p (restMethodTail E op "\n\n  " (restJSONResponse E op)) = false :=
  emitsText_false_of_textsIn _ p _
    (restMethodTail_texts E op _ _ (by decide!) (restJSONResponse_texts E op))
    (frameTexts_quiet hp)

/-- Around a request body, a REST method writes none of the request texts: what
the method shows of them is what the body shows. -/
theorem emitsText_frame (p : String) (head body tail : Out)
    (hh : emitsText p head = false) (ht : emitsText p tail = false) :
    emitsText p (head ++ (body ++ tail)) = emitsText p body := by
  simp [emitsText_append, hh, ht]

theorem scan_frame (pre suf : String) (head body tail : Out)
    (hh : emitsText pre head = false) (ht : emitsText pre tail = false)
    (hb : scanEnd pre .idle body = .idle) :
    scan pre suf .idle (head ++ (body ++ tail)) = scan pre suf .idle body := by
  rw [scan_append, (scan_quiet pre suf head hh).1, (scan_quiet pre suf head hh).2, scan_append,
    hb, (scan_quiet pre suf tail ht).1]
  simp


theorem restXMLBody_payload (E : Env) (op : Operation) (i : Shape) (m : Member)
    (hI : op.Input = some i) (hP : i.Payload ≠ "") (hM : i.Members.lookup i.Payload = some m) :
    restXMLBody E op = .ok ([.text "\n\n  "]
      ++ ([.text "\n  "]
          ++ ([.text "\n  "]
              ++ (if m.Streaming then
                    [.text "\n  body = req.", .val (E.exportable m.Name), .text "\n  "]
                  else
                    [.text "\n  contentType = \"application/xml\"\n\t"]
                    ++ (if m.LocationName ≠ "" then
                          [.text "\n  if req.", .val (E.exportable m.Name),
                           .text " != nil \x7b\n\treq.", .val (E.exportable m.Name),
                           .text ".XMLName = xml.Name\x7b\n\t\tSpace: \"",
                           .val m.XMLNamespace.URI,
                           .text "\",\n\t\tLocal: \"", .val m.LocationName,
                           .text "\",\n\t\x7d\n  \x7d\n  "]
                        else [])
                    ++ [.text "\n  b, err := xml.Marshal(req.", .val (E.exportable m.Name),
                        .text ")\n  if err != nil \x7b\n    return\n  \x7d\n  body = bytes.NewReader(b)\n  "])
              ++ [.text "\n  "])
          ++ [.text "\n  "])
      ++ [.text "\n  "]) := by
  simp [restXMLBody, hI, hP, restXMLPayload, indexMembers, hM]

theorem restJSONBody_payload (E : Env) (op : Operation) (i : Shape) (m : Member)
    (hI : op.Input = some i) (hP : i.Payload ≠ "") (hM : i.Members.lookup i.Payload = some m) :
    restJSONBody E op = [.text "\n  "]
      ++ ([.text "\n  "]
          ++ ([.text "\n  "]
              ++ (if m.Streaming then
                    [.text "\n  body = req.", .val (E.exportable m.Name), .text "\n  "]
                  else
                    [.text "\n  contentType = \"application/json\"\n  b, err := json.Marshal(req.",
                     .val (E.exportable m.Name),
                     .text ")\n  if err != nil \x7b\n    return\n  \x7d\n  body = bytes.NewReader(b)\n  "])
              ++ [.text "\n  "])
          ++ [.text "\n  "])
      ++ [.text "\n  "] := by
  simp [restJSONBody, hI, hP, restJSONPayload, indexMembers, hM]

/-- The writes of a REST method whose input declares a payload member that is
among its members: a streaming member is written as the body directly
(`body = req.<member>`, and no template text marshals or assigns a content
type), and a member that is not streaming is marshalled into the body with the
content type set to the media type of the protocol. -/
theorem payload_writes (E : Env) (svc : Service) (name : String) (op : Operation)
    (i : Shape) (m : Member)
    (hI : op.Input = some i) (hP : i.Payload ≠ "")
    (hM : i.Members.lookup i.Payload = some m) :
    (∃ out, restXMLMethod E svc name op = .ok out
        ∧ if m.Streaming then streamsPayload (E.exportable m.Name) out
          else marshalsPayload "contentType = \"application/xml\"" "xml.Marshal(req."
            (E.exportable m.Name) out)
      ∧ (if m.Streaming then
            streamsPayload (E.exportable m.Name) (restJSONMethod E svc name op)
          else marshalsPayload "contentType = \"application/json\"" "json.Marshal(req."
            (E.exportable m.Name) (restJSONMethod E svc name op)) := by
  constructor
  · refine ⟨_, by rw [restXMLMethod, restXMLBody_payload E op i m hI hP hM], ?_⟩
    rw [restXMLMethodText_eq]
    cases hS : m.Streaming
    · simp only [Bool.false_eq_true, if_false, marshalsPayload, valBetween]
      rw [emitsText_frame _ _ _ _ (restMethodHead_quiet E svc name op (by decide))
          (restXMLTail_quiet E op (by decide)),
        emitsText_frame _ _ _ _ (restMethodHead_quiet E svc name op (by decide))
          (restXMLTail_quiet E op (by decide)),
        scan_frame _ _ _ _ _ (restMethodHead_quiet E svc name op (by decide))
          (restXMLTail_quiet E op (by decide))
          (by split_ifs <;> simp +decide [scanEnd, scanNext]),
        scan_frame _ _ _ _ _ (restMethodHead_quiet E svc name op (by decide))
          (restXMLTail_quiet E op (by decide))
          (by split_ifs <;> simp +decide [scanEnd, scanNext])]
      split_ifs <;> simp +decide [emitsText, scan, scanHit, scanNext]
    · simp only [if_true, streamsPayload, valBetween]
      rw [emitsText_frame _ _ _ _ (restMethodHead_quiet E svc name op (by decide))
          (restXMLTail_quiet E op (by decide)),
        emitsText_frame _ _ _ _ (restMethodHead_quiet E svc name op (by decide))
          (restXMLTail_quiet E op (by decide)),
        emitsText_frame _ _ _ _ (restMethodHead_quiet E svc name op (by decide))
          (restXMLTail_quiet E op (by decide)),
        scan_frame _ _ _ _ _ (restMethodHead_quiet E svc name op (by decide))
          (restXMLTail_quiet E op (by decide))
          (by simp +decide [scanEnd, scanNext])]
      simp +decide [emitsText, scan, scanHit, scanNext]
  · rw [restJSONMethod_eq, restJSONBody_payload E op i m hI hP hM]
    cases hS : m.Streaming
    · simp only [Bool.false_eq_true, if_false, marshalsPayload, valBetween]
      rw [emitsText_frame _ _ _ _ (restMethodHead_quiet E svc name op (by decide))
          (restJSONTail_quiet E op (by decide)),
        emitsText_frame _ _ _ _ (restMethodHead_quiet E svc name op (by decide))
          (restJSONTail_quiet E op (by decide)),
        scan_frame _ _ _ _ _ (restMethodHead_quiet E svc name op (by decide))
          (restJSONTail_quiet E op (by decide))
          (by simp +decide [scanEnd, scanNext]),
        scan_frame _ _ _ _ _ (restMethodHead_quiet E svc name op (by decide))
          (restJSONTail_quiet E op (by decide))
          (by simp +decide [scanEnd, scanNext])]
      simp +decide [emitsText, scan, scanHit, scanNext]
    · simp only [if_true, streamsPayload, valBetween]
      rw [emitsText_frame _ _ _ _ (restMethodHead_quiet E svc name op (by decide))
          (restJSONTail_quiet E op (by decide)),
        emitsText_frame _ _ _ _ (restMethodHead_quiet E svc name op (by decide))
          (restJSONTail_quiet E op (by decide)),
        emitsText_frame _ _ _ _ (restMethodHead_quiet E svc name op (by decide))
          (restJSONTail_quiet E op (by decide)),
        scan_frame _ _ _ _ _ (restMethodHead_quiet E svc name op (by decide))
          (restJSONTail_quiet E op (by decide))
          (by simp +decide [scanEnd, scanNext])]
      simp +decide [emitsText, scan, scanHit, scanNext]

/-! ## Routing of input members by location -/

theorem restQuerystringMember_routing (E : Env) (name : String) (m : Member) :
    valBetween "q.Set(\"" "\", " (restQuerystringMember E name m)
        = (if m.Location = "querystring" then [m.LocationName] else [])
      ∧ countText "q.Set(" (restQuerystringMember E name m)
        = (if m.Location = "querystring" then 1 else 0)
      ∧ (vals (restQuerystringMember E name m) = [] ↔ m.Location ≠ "querystring") := by
  unfold restQuerystringMember
  split_ifs <;>
    simp +decide [valBetween, scan, scanHit, scanNext, vals, countText, texts, *]

theorem restReqheadersMember_routing (E : Env) (name : String) (m : Member) :
    valBetween "httpReq.Header.Set(\"" "\", " (restReqheadersMember E name m)
        = (if m.Location = "header" ∧ isContentLength m = false then [m.LocationName] else [])
      ∧ valBetween "httpReq.ContentLength = *req." "\n" (restReqheadersMember E name m)
        = (if m.Location = "header" ∧ isContentLength m = true then [E.exportable name]
           else [])
      ∧ countText "Header.Set(" (restReqheadersMember E name m)
        = (if m.Location = "header" then (if isContentLength m then 0 else 1)
           else if m.Location = "headers" then 1 else 0)
      ∧ (vals (restReqheadersMember E name m) = []
          ↔ m.Location ≠ "header" ∧ m.Location ≠ "headers") := by
  unfold restReqheadersMember isContentLength
  split_ifs <;>
    simp_all +decide [valBetween, scan, scanHit, scanNext, vals, countText, texts]

/-! ## Struct declarations of a rendered client (claim C7) -/

theorem piece_append {pre suf : String} {a b : Out} {ha hb : List String}
    (h1 : Piece pre suf a ha) (h2 : Piece pre suf b hb) : Piece pre suf (a ++ b) (ha ++ hb) := by
  unfold Piece at *
  rw [scan_append, scanEnd_append, h1.1, h1.2, h2.1, h2.2]
  exact ⟨rfl, rfl⟩

theorem piece_quiet {pre suf : String} {out : Out} (h : emitsText pre out = false) :
    Piece pre suf out [] :=
  scan_quiet pre suf out h

theorem piece_range {α : Type} {pre suf : String} {body : String → α → Out}
    {f : String → α → List String} (h : ∀ k v, Piece pre suf (body k v) (f k v))
    (l : List (String × α)) :
    Piece pre suf (range body l) (l.map fun kv => f kv.1 kv.2).flatten := by
  induction l with
  | nil => exact ⟨rfl, rfl⟩
  | cons kv rest ih =>
    obtain ⟨k, v⟩ := kv
    exact piece_append (h k v) ih

theorem piece_rangeE {α : Type} {pre suf : String} {body : String → α → Except Error Out}
    (h : ∀ k v o, body k v = .ok o → Piece pre suf o [])
    (l : List (String × α)) (out : Out) (hout : rangeE body l = .ok out) :
    Piece pre suf out [] := by
  induction l generalizing out with
  | nil =>
    cases hout
    exact ⟨rfl, rfl⟩
  | cons kv rest ih =>
    obtain ⟨k, v⟩ := kv
    unfold rangeE at hout
    split at hout
    · cases hout
    · next a ha =>
      split at hout
      · cases hout
      · next b hb =>
        cases hout
        exact piece_append (h k v a ha) (ih b hb)

theorem memberFields_quiet (E : Env) (tag : Member → String) (ms : List (String × Member)) :
    emitsText "type " (memberFields E tag ms) = false := by
  unfold memberFields
  exact emitsText_range_false _ _ _ (fun k v => by simp +decide [emitsText])

theorem enumBlock_quiet (svc : Service) (s : Shape) :
    emitsText "type " (enumBlock svc s) = false := by
  unfold enumBlock
  rw [emitsText_append, emitsText_append,
    emitsText_range_false _ _ _ (fun k v => by simp +decide [emitsText])]
  simp +decide [emitsText]

/-- The struct declaration written by one round of the shape loop. -/
theorem shapeBody_piece (E : Env) (svc : Service) (opening : String)
    (tag : Shape → Member → String) (closing : String → Out)
    (ho1 : startsWith " struct \x7b" opening = true) (ho2 : endsWith "type " opening = false)
    (hc : ∀ e, emitsText "type " (closing e) = false) (name : String) (s : Shape) :
    Piece "type " " struct \x7b" (shapeBody E svc opening tag closing name s)
      (if declaresStruct s then [E.exportable name] else []) := by
  have hnl : Piece "type " " struct \x7b" [.text "\n"] [] := by
    constructor <;> simp +decide [scan_cons, scan_nil, scanEnd_cons, scanEnd_nil, scanHit, scanNext]
  unfold shapeBody declaresStruct
  by_cases h1 : s.ShapeType = "structure"
  · by_cases h2 : s.Exception = true
    · have hp := piece_append (piece_append hnl (piece_append (piece_append hnl
        (piece_quiet (emitsText_nil _))) hnl)) hnl
      simpa [h1, h2] using hp
    · have hd : Piece "type " " struct \x7b"
          [.text "\n\n// ", .val (E.exportable name), .text " is undocumented.\ntype ",
           .val (E.exportable name), .text opening] [E.exportable name] := by
        constructor <;>
          simp +decide [scan_cons, scan_nil, scanEnd_cons, scanEnd_nil, scanHit, scanNext,
            ho1, ho2]
      have hp := piece_append (piece_append hnl (piece_append (piece_append hnl
        (piece_append (piece_append hd (piece_quiet (memberFields_quiet E (tag s) s.Members)))
          (piece_quiet (hc (E.exportable name))))) hnl)) hnl
      simpa [h1, h2] using hp
  · by_cases h3 : s.Enum = true
    · have hp := piece_append (piece_append hnl (piece_quiet (enumBlock_quiet svc s))) hnl
      simpa [h1, h3] using hp
    · have hp := piece_append (piece_append hnl (piece_quiet (emitsText_nil _))) hnl
      simpa [h1, h3] using hp

theorem shapes_piece (E : Env) (svc : Service) (opening : String)
    (tag : Shape → Member → String) (closing : String → Out)
    (ho1 : startsWith " struct \x7b" opening = true) (ho2 : endsWith "type " opening = false)
    (hc : ∀ e, emitsText "type " (closing e) = false) (shapes : List (String × Shape)) :
    Piece "type " " struct \x7b" (range (shapeBody E svc opening tag closing) shapes)
      (structNames E shapes) := by
  have he : (shapes.map fun kv => if declaresStruct kv.2 then [E.exportable kv.1] else []).flatten
      = structNames E shapes := by
    unfold structNames
    induction shapes with
    | nil => rfl
    | cons kv rest ih =>
      by_cases hk : declaresStruct kv.2 = true <;> simp [List.filter_cons, hk, ih]
  rw [← he]
  exact piece_range (shapeBody_piece E svc opening tag closing ho1 ho2 hc) shapes

theorem wrapperBody_piece (E : Env) (tag : String → Member → String) (wname : String)
    (s : Shape) :
    Piece "type " " struct \x7b" (wrapperBody E tag wname s) [E.exportable wname] := by
  have hd : Piece "type " " struct \x7b"
      [.text "\n\n// ", .val (E.exportable wname), .text " is a wrapper for ", .val s.Name,
       .text ".\ntype ", .val (E.exportable wname), .text " struct \x7b\n"]
      [E.exportable wname] := by
    constructor <;>
      simp +decide [scan_cons, scan_nil, scanEnd_cons, scanEnd_nil, scanHit, scanNext]
  have hp := piece_append
    (piece_append hd (piece_quiet (memberFields_quiet E (tag wname) s.Members)))
    (piece_quiet (show emitsText "type " [.text "\n\x7d\n\n"] = false by decide)
      : Piece "type " " struct \x7b" _ [])
  simpa [wrapperBody] using hp

theorem wrappers_piece (E : Env) (tag : String → Member → String)
    (wrappers : List (String × Shape)) :
    Piece "type " " struct \x7b" (range (wrapperBody E tag) wrappers)
      (wrapperNames E wrappers) := by
  have he : (wrappers.map fun kv => [E.exportable kv.1]).flatten = wrapperNames E wrappers := by
    unfold wrapperNames
    induction wrappers with
    | nil => rfl
    | cons kv rest ih => simp [ih]
  rw [← he]
  exact piece_range (wrapperBody_piece E tag) wrappers


theorem jsonMethod_quiet (E : Env) (svc : Service) (name : String) (op : Operation) :
    emitsText "type " (jsonMethod E svc name op) = false := by
  unfold jsonMethod
  cases op.Input <;> cases op.Output <;> simp +decide [emitsText]

theorem queryMethod_quiet (E : Env) (svc : Service) (name : String) (op : Operation)
    (out : Out) (h : queryMethod E svc name op = .ok out) : emitsText "type " out = false := by
  unfold queryMethod wrappedInit deref at h
  unfold queryMethodText at h
  cases hI : op.Input <;> cases hO : op.Output <;> cases hIR : op.InputRef <;>
    cases hOR : op.OutputRef <;> simp only [hI, hO, hIR, hOR] at h <;> cases h <;>
    simp +decide [emitsText]

theorem restXMLMethod_quiet (E : Env) (svc : Service) (name : String) (op : Operation)
    (out : Out) (h : restXMLMethod E svc name op = .ok out) : emitsText "type " out = false := by
  obtain ⟨body, hb, rfl⟩ := restXMLMethod_ok h
  rw [restXMLMethodText_eq, emitsText_frame _ _ _ _
    (restMethodHead_quiet E svc name op (by decide)) (restXMLTail_quiet E op (by decide))]
  exact restXMLBody_quiet hb (by decide)

theorem restJSONMethod_quiet (E : Env) (svc : Service) (name : String) (op : Operation) :
    emitsText "type " (restJSONMethod E svc name op) = false := by
  rw [restJSONMethod_eq, emitsText_frame _ _ _ _
    (restMethodHead_quiet E svc name op (by decide)) (restJSONTail_quiet E op (by decide))]
  exact restJSONBody_quiet E op (by decide)

theorem header_piece (svc : Service) : Piece "type " " struct \x7b" (header svc) [] :=
  piece_quiet (by simp +decide [header, emitsText])

theorem text_piece (t : String) (h : contains "type " t = false) :
    Piece "type " " struct \x7b" [.text t] [] :=
  piece_quiet (by simp [emitsText, h])

theorem jsonPreamble_piece (svc : Service) :
    Piece "type " " struct \x7b" (jsonPreamble svc) [svc.Name] := by
  unfold jsonPreamble
  constructor <;>
    simp +decide [scan_cons, scan_nil, scanEnd_cons, scanEnd_nil, scanHit, scanNext]

theorem queryPreamble_piece (svc : Service) :
    Piece "type " " struct \x7b" (queryPreamble svc "QueryClient") [svc.Name]
      ∧ Piece "type " " struct \x7b" (queryPreamble svc "EC2Client") [svc.Name] := by
  unfold queryPreamble
  refine ⟨?_, ?_⟩ <;> constructor <;>
    simp +decide [scan_cons, scan_nil, scanEnd_cons, scanEnd_nil, scanHit, scanNext]

theorem restPreamble_piece (svc : Service) :
    Piece "type " " struct \x7b" (restXMLPreamble svc) [svc.Name]
      ∧ Piece "type " " struct \x7b" (restJSONPreamble svc) [svc.Name] := by
  unfold restXMLPreamble restJSONPreamble
  refine ⟨?_, ?_⟩ <;> constructor <;>
    simp +decide [scan_cons, scan_nil, scanEnd_cons, scanEnd_nil, scanHit, scanNext]

theorem plainShapes_piece (E : Env) (svc : Service) (tag : Shape → Member → String) :
    Piece "type " " struct \x7b"
      (range (shapeBody E svc " struct \x7b\n" tag plainClosing) svc.Shapes)
      (structNames E svc.Shapes) :=
  shapes_piece E svc _ tag plainClosing (by decide) (by decide)
    (fun _ => by simp +decide [plainClosing, emitsText]) svc.Shapes

theorem jsonClient_piece (E : Env) (svc : Service) :
    Piece "type " " struct \x7b" (jsonClient E svc) (svc.Name :: structNames E svc.Shapes) := by
  have hp := piece_append (piece_append (piece_append (piece_append (piece_append (piece_append
    (piece_append (piece_append (text_piece "\n" (by decide)) (header_piece svc))
      (jsonPreamble_piece svc))
      (piece_range (fun k v => piece_quiet (jsonMethod_quiet E svc k v)) svc.Operations))
      (text_piece "\n\n" (by decide)))
      (plainShapes_piece E svc (fun _ m => m.JSONTag)))
      (text_piece "\n\n" (by decide)))
      (piece_quiet (show emitsText "type " footer = false by decide)))
      (text_piece "\n" (by decide))
  unfold jsonClient
  simpa using hp

theorem restJSONClient_piece (E : Env) (svc : Service) :
    Piece "type " " struct \x7b" (restJSONClient E svc)
      (svc.Name :: structNames E svc.Shapes) := by
  have hp := piece_append (piece_append (piece_append (piece_append (piece_append (piece_append
    (piece_append (piece_append (text_piece "\n" (by decide)) (header_piece svc))
      (restPreamble_piece svc).2)
      (piece_range (fun k v => piece_quiet (restJSONMethod_quiet E svc k v)) svc.Operations))
      (text_piece "\n\n" (by decide)))
      (plainShapes_piece E svc (fun _ m => m.JSONTag)))
      (text_piece "\n\n" (by decide)))
      (piece_quiet (show emitsText "type " footer = false by decide)))
      (text_piece "\nvar _ bytes.Reader\nvar _ url.URL\nvar _ fmt.Stringer\nvar _ strings.Reader\nvar _ strconv.NumError\nvar _ = ioutil.Discard\nvar _ json.RawMessage\n"
        (by decide))
  unfold restJSONClient
  simpa using hp

theorem restXMLClient_piece (E : Env) (svc : Service) (out : Out)
    (h : restXMLClient E svc = .ok out) :
    Piece "type " " struct \x7b" out (svc.Name :: structNames E svc.Shapes) := by
  unfold restXMLClient at h
  split at h
  · cases h
  · next methods hm =>
    cases h
    have hp := piece_append (piece_append (piece_append (piece_append (piece_append
      (piece_append (piece_append (piece_append (text_piece "\n" (by decide)) (header_piece svc))
        (restPreamble_piece svc).1)
        (piece_rangeE (fun k v o ho => piece_quiet (restXMLMethod_quiet E svc k v o ho))
          svc.Operations methods hm))
        (text_piece "\n\n" (by decide)))
        (shapes_piece E svc " struct \x7b\n  XMLName xml.Name\n"
          (fun s m => m.XMLTag s.ResultWrapper) xmlClosing (by decide) (by decide)
          (fun _ => by simp +decide [xmlClosing, emitsText]) svc.Shapes))
        (text_piece "\n\n" (by decide)))
        (piece_quiet (show emitsText "type " footer = false by decide)))
        (text_piece "\nvar _ bytes.Reader\nvar _ url.URL\nvar _ fmt.Stringer\nvar _ strings.Reader\nvar _ strconv.NumError\nvar _ = ioutil.Discard\n"
          (by decide))
    unfold restXMLClientText
    simpa using hp

theorem queryClient_piece (E : Env) (svc : Service) (out : Out)
    (h : queryClient E svc = .ok out) :
    Piece "type " " struct \x7b" out
      (svc.Name :: structNames E svc.Shapes ++ wrapperNames E svc.Wrappers) := by
  unfold queryClient at h
  split at h
  · cases h
  · next methods hm =>
    cases h
    have hp := piece_append (piece_append (piece_append (piece_append (piece_append
      (piece_append (piece_append (piece_append (piece_append (piece_append
        (text_piece "\n" (by decide)) (header_piece svc))
        (queryPreamble_piece svc).1)
        (piece_rangeE (fun k v o ho => piece_quiet (queryMethod_quiet E svc k v o ho))
          svc.Operations methods hm))
        (text_piece "\n\n" (by decide)))
        (plainShapes_piece E svc (fun s m => m.QueryTag s.ResultWrapper)))
        (text_piece "\n\n" (by decide)))
        (wrappers_piece E (fun wname m => m.QueryTag wname) svc.Wrappers))
        (text_piece "\n\n" (by decide)))
        (piece_quiet (show emitsText "type " footer = false by decide)))
        (text_piece "\n" (by decide))
    unfold queryClientText
    simpa using hp

theorem ec2Client_piece (E : Env) (svc : Service) (out : Out)
    (h : ec2Client E svc = .ok out) :
    Piece "type " " struct \x7b" out
      (svc.Name :: structNames E svc.Shapes ++ wrapperNames E svc.Wrappers) := by
  unfold ec2Client at h
  split at h
  · cases h
  · next methods hm =>
    cases h
    have hp := piece_append (piece_append (piece_append (piece_append (piece_append
      (piece_append (piece_append (piece_append (piece_append (piece_append
        (text_piece "\n" (by decide)) (header_piece svc))
        (queryPreamble_piece svc).2)
        (piece_rangeE (fun k v o ho => piece_quiet (queryMethod_quiet E svc k v o ho))
          svc.Operations methods hm))
        (text_piece "\n\n" (by decide)))
        (plainShapes_piece E svc (fun _ m => m.EC2Tag)))
        (text_piece "\n\n" (by decide)))
        (wrappers_piece E (fun _ m => m.EC2Tag) svc.Wrappers))
        (text_piece "\n\n" (by decide)))
        (piece_quiet (show emitsText "type " footer = false by decide)))
        (text_piece "\n" (by decide))
    unfold ec2ClientText
    simpa using hp


/-! ## Constant blocks of enum shapes (claim C8) -/

/-- The body of the `range` over `Enums`. -/
theorem enum_names (l : List (String × String)) (st : Scan) (hst : ∀ v, st ≠ .got v) :
    scan "\n" " = " st
        (range (fun name value => [Emit.text "\n", .val name, .text " = ", .val value]) l
          ++ [.text "\n)\n", .text "\n"])
      = l.map Prod.fst := by
  induction l generalizing st with
  | nil =>
    cases st with
    | got v => exact absurd rfl (hst v)
    | idle => decide
    | armed => decide
  | cons kv rest ih =>
    obtain ⟨n, v⟩ := kv
    have h := ih .idle (fun _ => by simp)
    cases st with
    | got v => exact absurd rfl (hst v)
    | idle =>
      simp +decide [range, scan_cons, scanHit, scanNext]
      exact h
    | armed =>
      simp +decide [range, scan_cons, scanHit, scanNext]
      exact h

theorem enum_values (l : List (String × String)) (st : Scan) :
    scan " = " "\n" st
        (range (fun name value => [Emit.text "\n", .val name, .text " = ", .val value]) l
          ++ [.text "\n)\n", .text "\n"])
      = (match st with
         | .got v => [v]
         | _ => []) ++ l.map Prod.snd := by
  induction l generalizing st with
  | nil =>
    cases st <;> simp +decide [range, scan_cons, scan_nil, scanHit, scanNext]
  | cons kv rest ih =>
    obtain ⟨n, v⟩ := kv
    have h := ih (.got v)
    cases st <;> simp +decide [range, scan_cons, scanHit, scanNext] <;> simpa using h

theorem enum_vals (l : List (String × String)) :
    vals (range (fun name value => [Emit.text "\n", .val name, .text " = ", .val value]) l)
      = (l.map fun e => [e.1, e.2]).flatten := by
  induction l with
  | nil => rfl
  | cons kv rest ih =>
    obtain ⟨n, v⟩ := kv
    simp [range, vals, vals_append, ih]

theorem enum_texts (p : String) (h1 : contains p "\n" = false) (h2 : contains p " = " = false)
    (l : List (String × String)) :
    countText p
      (range (fun name value => [Emit.text "\n", .val name, .text " = ", .val value]) l) = 0 := by
  induction l with
  | nil => rfl
  | cons kv rest ih =>
    obtain ⟨n, v⟩ := kv
    unfold countText at ih ⊢
    simp [range, texts, h1, h2, ih]

theorem countText_append (p : String) (a b : Out) :
    countText p (a ++ b) = countText p a + countText p b := by
  unfold countText
  induction a with
  | nil => simp [texts]
  | cons c rest ih =>
    cases c with
    | text t =>
      by_cases h : contains p t = true
      · simp [texts, List.countP_cons, h, ih]
        omega
      · simp [texts, List.countP_cons, h, ih]
    | val v => simpa [texts] using ih


theorem shapeBody_enum (E : Env) (svc : Service) (opening : String)
    (tag : Shape → Member → String) (closing : String → Out) (name : String) (s : Shape)
    (hT : s.ShapeType ≠ "structure") (hE : s.Enum = true) :
    shapeBody E svc opening tag closing name s
      = [Emit.text "\n", .text "\n// Possible values for ", .val svc.Name,
         .text ".\nconst (\n"]
        ++ (range (fun name value => [Emit.text "\n", .val name, .text " = ", .val value])
              s.Enums
            ++ [.text "\n)\n", .text "\n"]) := by
  simp [shapeBody, hT, hE, enumBlock]

theorem infix_then3 {x p m a b c : Out} (h : x <:+: m) : x <:+: p ++ m ++ a ++ b ++ c :=
  h.trans (((List.suffix_append p m).isInfix.trans (List.prefix_append _ a).isInfix).trans
    ((List.prefix_append _ b).isInfix.trans (List.prefix_append _ c).isInfix))

theorem infix_then5 {x p m a b c d e : Out} (h : x <:+: m) :
    x <:+: p ++ m ++ a ++ b ++ c ++ d ++ e :=
  (infix_then3 h).trans ((List.prefix_append _ d).isInfix.trans (List.prefix_append _ e).isInfix)

theorem memberFields_quiet_const (E : Env) (tag : Member → String)
    (ms : List (String × Member)) : emitsText "const (" (memberFields E tag ms) = false := by
  unfold memberFields
  exact emitsText_range_false _ _ _ (fun _ _ => by simp +decide [emitsText])

/-! ## Wrapped types of `query` and `ec2` methods (claim C9) -/

theorem queryMethod_cases (E : Env) (svc : Service) (name : String) (op : Operation)
    (out : Out) (h : queryMethod E svc name op = .ok out) :
    ∃ init, out = queryMethodText E svc name op init
      ∧ ((op.Output = none ∧ init = [.text "// NRE"])
        ∨ ∃ o r, op.Output = some o ∧ op.OutputRef = some r
            ∧ init = [.text "resp = ", .val r.WrappedLiteral]) := by
  unfold queryMethod wrappedInit deref at h
  cases hO : op.Output <;> cases hOR : op.OutputRef <;> simp only [hO, hOR] at h <;>
    cases h
  · exact ⟨_, rfl, Or.inl ⟨rfl, rfl⟩⟩
  · exact ⟨_, rfl, Or.inl ⟨rfl, rfl⟩⟩
  · exact ⟨_, rfl, Or.inr ⟨_, _, rfl, rfl, rfl⟩⟩

set_option maxHeartbeats 1600000 in
/-- What a rendered `query` method shows of `resp`. -/
theorem queryMethod_shows_resp (E : Env) (svc : Service) (name : String) (op : Operation)
    (out : Out) (h : queryMethod E svc name op = .ok out) :
    respTypes out = (op.OutputRef.map fun r => r.WrappedType).toList
      ∧ respInits out
        = (if op.Output.isSome then (op.OutputRef.map fun r => r.WrappedLiteral).toList
           else [])
      ∧ passesResp out = op.Output.isSome := by
  obtain ⟨init, rfl, hinit⟩ := queryMethod_cases E svc name op out h
  unfold queryMethodText respTypes respInits passesResp valBetween
  rcases hinit with ⟨hO, rfl⟩ | ⟨o, r, hO, hOR, rfl⟩
  · cases hI : op.Input <;> cases hIR : op.InputRef <;> cases hOR : op.OutputRef <;>
      simp +decide [hO, emitsText, scan, scanHit, scanNext]
  · cases hI : op.Input <;> cases hIR : op.InputRef <;>
      simp +decide [hO, hOR, emitsText, scan, scanHit, scanNext]

set_option maxHeartbeats 1600000 in
/-- What a rendered `query` method shows of `req`. -/
theorem queryMethod_shows_req (E : Env) (svc : Service) (name : String) (op : Operation)
    (out : Out) (h : queryMethod E svc name op = .ok out) :
    reqTypes out = (op.InputRef.map fun r => r.WrappedType).toList
      ∧ passesReq out = op.Input.isSome := by
  obtain ⟨init, rfl, hinit⟩ := queryMethod_cases E svc name op out h
  unfold queryMethodText reqTypes passesReq valBetween
  rcases hinit with ⟨hO, rfl⟩ | ⟨o, r, hO, hOR, rfl⟩
  · cases hI : op.Input <;> cases hIR : op.InputRef <;> cases hOR : op.OutputRef <;>
      simp +decide [hO, emitsText, scan, scanHit, scanNext]
  · cases hI : op.Input <;> cases hIR : op.InputRef <;>
      simp +decide [hO, hOR, emitsText, scan, scanHit, scanNext]

/-- What a rendered `query` method shows of `resp` and `req`. -/
theorem queryMethod_shows (E : Env) (svc : Service) (name : String) (op : Operation)
    (out : Out) (h : queryMethod E svc name op = .ok out) :
    respTypes out = (op.OutputRef.map fun r => r.WrappedType).toList
      ∧ respInits out
        = (if op.Output.isSome then (op.OutputRef.map fun r => r.WrappedLiteral).toList
           else [])
      ∧ passesResp out = op.Output.isSome
      ∧ reqTypes out = (op.InputRef.map fun r => r.WrappedType).toList
      ∧ passesReq out = op.Input.isSome :=
  ⟨(queryMethod_shows_resp E svc name op out h).1, (queryMethod_shows_resp E svc name op out h).2.1,
   (queryMethod_shows_resp E svc name op out h).2.2, (queryMethod_shows_req E svc name op out h).1,
   (queryMethod_shows_req E svc name op out h).2⟩

/-! ## REST methods whose output has no `Body` member (claim C10) -/

/-- When the output has no member `Body`, the `else` branch that defers the
close is never taken: the method closes the response body exactly when it also
decodes it, and that is when the value `index` yields for the absent key counts
as true. -/
theorem restMethods_without_body (E : Env) (svc : Service) (name : String) (op : Operation)
    (o : Shape) (hO : op.Output = some o) (hB : o.Members.lookup "Body" = none) :
    (∀ out, restXMLMethod E svc name op = .ok out →
        emitsText "httpResp.Body.Close()" out = E.zeroIsTrue
          ∧ emitsText "Decode(resp)" out = E.zeroIsTrue)
      ∧ emitsText "httpResp.Body.Close()" (restJSONMethod E svc name op) = E.zeroIsTrue
      ∧ emitsText "Decode(resp)" (restJSONMethod E svc name op) = E.zeroIsTrue := by
  have hm : ∀ p, p ∈ ["httpResp.Body.Close()", "Decode(resp)"] → p ∈ marks := by decide
  have hm4 : ∀ p, p ∈ ["httpResp.Body.Close()", "Decode(resp)"]
      → p ∈ ["httpResp.Body.Close()", "Decode(resp)", "resp.Body = httpResp.Body", "type "] := by
    decide
  have hidx : indexMembers E o.Members "Body" = if E.zeroIsTrue then some {} else none := by
    simp [indexMembers, hB]
  refine ⟨?_, ?_, ?_⟩
  · intro out hout
    obtain ⟨body, hb, rfl⟩ := restXMLMethod_ok hout
    unfold restXMLMethodText restXMLResponse
    simp only [hO, hidx, emitsText_append,
      restXMLBody_quiet hb (hm4 _ (List.mem_cons_self _ _)),
      restXMLBody_quiet hb (hm4 "Decode(resp)" (by decide)),
      restUri_quiet E op (hm _ (List.mem_cons_self _ _)),
      restUri_quiet E op (hm "Decode(resp)" (by decide)),
      restQuerystring_quiet E op (hm _ (List.mem_cons_self _ _)),
      restQuerystring_quiet E op (hm "Decode(resp)" (by decide)),
      restReqheaders_quiet E op (hm _ (List.mem_cons_self _ _)),
      restReqheaders_quiet E op (hm "Decode(resp)" (by decide)),
      restRespheaders_quiet E o (hm _ (List.mem_cons_self _ _)),
      restRespheaders_quiet E o (hm "Decode(resp)" (by decide))]
    cases E.zeroIsTrue <;> cases op.Input <;> simp +decide [emitsText, truth]
  · unfold restJSONMethod restJSONResponse
    simp only [hO, hidx, emitsText_append,
      restJSONBody_quiet E op (hm4 _ (List.mem_cons_self _ _)),
      restUri_quiet E op (hm _ (List.mem_cons_self _ _)),
      restQuerystring_quiet E op (hm _ (List.mem_cons_self _ _)),
      restReqheaders_quiet E op (hm _ (List.mem_cons_self _ _)),
      restRespheaders_quiet E o (hm _ (List.mem_cons_self _ _))]
    cases E.zeroIsTrue <;> cases op.Input <;> simp +decide [emitsText, truth]
  · unfold restJSONMethod restJSONResponse
    simp only [hO, hidx, emitsText_append,
      restJSONBody_quiet E op (hm4 "Decode(resp)" (by decide)),
      restUri_quiet E op (hm "Decode(resp)" (by decide)),
      restQuerystring_quiet E op (hm "Decode(resp)" (by decide)),
      restReqheaders_quiet E op (hm "Decode(resp)" (by decide)),
      restRespheaders_quiet E o (hm "Decode(resp)" (by decide))]
    cases E.zeroIsTrue <;> cases op.Input <;> simp +decide [emitsText, truth]

/-- C10 fails on the code: for `ListBuckets`, whose output has no member `Body`,
neither REST method closes the response body without decoding it.  When an
absent key yields a value that counts as false, the method has no
`defer httpResp.Body.Close()` at all; when it yields a value that counts as
true, the method decodes the response body into `resp`. -/
theorem C10_no_body_member_misses_deferred_close :
    (∃ out, restXMLMethod (sampleEnv false) objectService "ListBuckets" listBuckets = .ok out
        ∧ emitsText "defer httpResp.Body.Close()" out = false
        ∧ closesWithoutDecoding out = false)
      ∧ emitsText "defer httpResp.Body.Close()"
          (restJSONMethod (sampleEnv false) objectService "ListBuckets" listBuckets) = false
      ∧ closesWithoutDecoding
          (restJSONMethod (sampleEnv false) objectService "ListBuckets" listBuckets) = false
      ∧ (∃ out, restXMLMethod (sampleEnv true) objectService "ListBuckets" listBuckets = .ok out
        ∧ emitsText "Decode(resp)" out = true
        ∧ closesWithoutDecoding out = false)
      ∧ emitsText "Decode(resp)"
          (restJSONMethod (sampleEnv true) objectService "ListBuckets" listBuckets) = true
      ∧ closesWithoutDecoding
          (restJSONMethod (sampleEnv true) objectService "ListBuckets" listBuckets) = false := by
  refine ⟨⟨_, rfl, ?_, ?_⟩, ?_, ?_, ⟨_, rfl, ?_, ?_⟩, ?_, ?_⟩ <;> decide


/-! ## Dispatch of output members by location -/

theorem restRespheadersMember_status (E : Env) (name : String) (m : Member) :
    valBetween "resp." " = aws.Integer(httpResp.StatusCode)" (restRespheadersMember E name m)
      = (if name ≠ "Body" ∧ m.Location = "statusCode" then [E.exportable name] else []) := by
  unfold restRespheadersMember restRespheaderValue
  split_ifs <;> simp_all +decide [valBetween, scan, scanHit, scanNext]

theorem restRespheadersMember_unsupported (E : Env) (name : String) (m : Member)
    (hname : name ≠ "Body") (hloc : unsupportedLocation m = true) :
    countText "// TODO" (restRespheadersMember E name m) = 1
      ∧ vals (restRespheadersMember E name m) = [m.Location, E.exportable name]
      ∧ emitsText "=" (restRespheadersMember E name m) = false
      ∧ emitsText "resp." (restRespheadersMember E name m) = false := by
  unfold unsupportedLocation at hloc
  unfold restRespheadersMember restRespheaderValue
  split_ifs <;> simp_all +decide [emitsText, vals, countText, texts]

theorem restRespheadersMember_blank (E : Env) (name : String) (m : Member) :
    blank (restRespheadersMember E name m) = decide (name = "Body" ∨ m.Location = "") := by
  unfold restRespheadersMember restRespheaderValue
  split_ifs <;> simp_all +decide [blank]

theorem restRespheaders_in_json (E : Env) (svc : Service) (name : String) (op : Operation)
    (o : Shape) (hO : op.Output = some o) :
    restRespheaders E o <:+: restJSONMethod E svc name op := by
  have hresp : restRespheaders E o <:+: restJSONResponse E op := by
    unfold restJSONResponse
    simp only [hO]
    exact (List.infix_append _ _ _).trans (List.infix_append _ _ _)
  rw [restJSONMethod_eq]
  refine hresp.trans ?_
  have htail : restJSONResponse E op
      <:+: restMethodTail E op "\n\n  " (restJSONResponse E op) := by
    unfold restMethodTail
    exact List.infix_append _ _ _
  exact htail.trans ((List.suffix_append _ _).isInfix.trans (List.suffix_append _ _).isInfix)

theorem restRespheaders_in_xml (E : Env) (svc : Service) (name : String) (op : Operation)
    (o : Shape) (hO : op.Output = some o) (out : Out)
    (hout : restXMLMethod E svc name op = .ok out) : restRespheaders E o <:+: out := by
  obtain ⟨body, _, rfl⟩ := restXMLMethod_ok hout
  have hresp : restRespheaders E o <:+: restXMLResponse E op := by
    unfold restXMLResponse
    simp only [hO]
    exact (List.infix_append _ _ _).trans (List.infix_append _ _ _)
  rw [restXMLMethodText_eq]
  refine hresp.trans ?_
  have htail : restXMLResponse E op
      <:+: restMethodTail E op "\n\n\n  " (restXMLResponse E op) := by
    unfold restMethodTail
    exact List.infix_append _ _ _
  exact htail.trans ((List.suffix_append _ _).isInfix.trans (List.suffix_append _ _).isInfix)

theorem restRespheadersMember_in_fragment (E : Env) (o : Shape) (name : String) (m : Member)
    (hmem : (name, m) ∈ o.Members) : restRespheadersMember E name m <:+: restRespheaders E o := by
  unfold restRespheaders
  exact (infix_range _ _ _ _ hmem).trans (List.infix_append _ _ _)

theorem isPrefixOf_append_nl (p l b : List Char) (hp : '\n' ∉ p) (hb : startsNL b = true) :
    p.isPrefixOf (l ++ b) = p.isPrefixOf l := by
  induction l generalizing p with
  | nil =>
    cases p with
    | nil => cases b <;> rfl
    | cons c p' =>
      cases b with
      | nil => rfl
      | cons x b' =>
        have hx : x = '\n' := by simpa [startsNL] using hb
        have hc : c ≠ '\n' := fun h => hp (by simp [h])
        subst hx
        simp [List.isPrefixOf, hc]
  | cons x l' ih =>
    cases p with
    | nil => rfl
    | cons c p' =>
      have := ih p' (fun h => hp (List.mem_cons_of_mem _ h))
      simp [List.isPrefixOf, this]

theorem isPrefixOf_cons_append_nl (p : List Char) (x : Char) (l b : List Char)
    (hp : '\n' ∉ p.tail) (hb : startsNL b = true) :
    p.isPrefixOf (x :: l ++ b) = p.isPrefixOf (x :: l) := by
  cases p with
  | nil => rfl
  | cons c p' =>
    have h := isPrefixOf_append_nl p' l b hp hb
    show (c == x && p'.isPrefixOf (l ++ b)) = (c == x && p'.isPrefixOf l)
    rw [h]

theorem occ_append_nl (p a b : List Char) (hp : '\n' ∉ p.tail) (hb : startsNL b = true) :
    occ p (a ++ b) = occ p a + occ p b := by
  induction a with
  | nil =>
    simp [occ]
  | cons x a' ih =>
    have h := isPrefixOf_cons_append_nl p x a' b hp hb
    simp only [List.cons_append] at h ⊢
    simp only [occ, h, ih]
    omega

theorem hasInfix_eq_occ (p s : List Char) (hp : p ≠ []) :
    hasInfix p s = decide (0 < occ p s) := by
  induction s with
  | nil =>
    cases p with
    | nil => exact absurd rfl hp
    | cons c p' => rfl
  | cons x s' ih =>
    simp only [hasInfix, occ, ih]
    by_cases h : p.isPrefixOf (x :: s') = true
    · simp [h]
    · simp [h]

theorem occ_cons (p : List Char) (x : Char) (s : List Char) :
    occ p (x :: s) = (if p.isPrefixOf (x :: s) then 1 else 0) + occ p s := rfl

theorem occ_snoc (p b : List Char) (c : Char) (hp : p ≠ []) :
    (p <:+ b ++ [c] → occ p (b ++ [c]) = occ p b + 1)
      ∧ (¬ p <:+ b ++ [c] → occ p (b ++ [c]) = occ p b) := by
  induction b with
  | nil =>
    have hsuf : p <:+ [c] ↔ p = [c] := by
      rw [List.suffix_cons_iff]
      simp [hp]
    have hpre : p.isPrefixOf [c] = true ↔ p = [c] := by
      rw [List.isPrefixOf_iff_prefix]
      have := @List.prefix_concat_iff _ p [] c
      simp only [List.nil_append] at this
      rw [this]
      simp [hp]
    constructor
    · intro h
      have h1 : p.isPrefixOf [c] = true := hpre.mpr (hsuf.mp h)
      simp [occ, h1]
    · intro h
      have h1 : ¬ p.isPrefixOf [c] = true := fun hh => h (hsuf.mpr (hpre.mp hh))
      simp [occ, h1]
  | cons x b' ih =>
    by_cases hw : p = x :: (b' ++ [c])
    · have h1 : p.isPrefixOf (x :: (b' ++ [c])) = true := by
        rw [List.isPrefixOf_iff_prefix, hw]
      have h2 : ¬ p.isPrefixOf (x :: b') = true := by
        rw [List.isPrefixOf_iff_prefix]
        intro h
        have := h.length_le
        rw [hw] at this
        simp at this
      have h3 : ¬ p <:+ b' ++ [c] := by
        intro h
        have := h.length_le
        rw [hw] at this
        simp at this
      constructor
      · intro _
        rw [List.cons_append, occ_cons, occ_cons, if_pos h1, if_neg h2, ih.2 h3]
        omega
      · intro h
        exact absurd (by rw [hw]; exact List.suffix_refl _) h
    · have hpre : p.isPrefixOf (x :: (b' ++ [c])) = p.isPrefixOf (x :: b') := by
        rw [Bool.eq_iff_iff, List.isPrefixOf_iff_prefix, List.isPrefixOf_iff_prefix]
        have := @List.prefix_concat_iff _ p (x :: b') c
        simp only [List.cons_append] at this
        rw [this]
        constructor
        · rintro (h | h)
          · exact absurd h hw
          · exact h
        · exact Or.inr
      have hsuf : p <:+ x :: (b' ++ [c]) ↔ p <:+ b' ++ [c] := by
        rw [List.suffix_cons_iff]
        constructor
        · rintro (h | h)
          · exact absurd h hw
          · exact h
        · exact Or.inr
      constructor
      · intro h
        rw [List.cons_append, occ_cons, occ_cons, hpre, ih.1 (hsuf.mp h)]
        omega
      · intro h
        rw [List.cons_append, occ_cons, occ_cons, hpre, ih.2 (fun hh => h (hsuf.mpr hh))]

/-! ### Soundness of the tracking -/

theorem suffix_snoc_iff (l b : List Char) (a c : Char) :
    l ++ [a] <:+ b ++ [c] ↔ a = c ∧ l <:+ b := by
  constructor
  · rintro ⟨u, hu⟩
    rw [← List.append_assoc] at hu
    have h := List.append_inj' hu rfl
    exact ⟨by simpa using h.2, ⟨u, h.1⟩⟩
  · rintro ⟨rfl, u, rfl⟩
    exact ⟨u, by simp⟩

theorem take_suffix_snoc (p b : List Char) (c : Char) (i : Nat) :
    (i < p.length ∧ p.take (i + 1) <:+ b ++ [c]) ↔ (p.get? i = some c ∧ p.take i <:+ b) := by
  constructor
  · rintro ⟨hi, h⟩
    rw [List.take_succ, List.getElem?_eq_getElem hi] at h
    simp only [Option.toList_some] at h
    rw [suffix_snoc_iff] at h
    refine ⟨?_, h.2⟩
    rw [List.get?_eq_getElem?, List.getElem?_eq_getElem hi, h.1]
  · rintro ⟨hg, h⟩
    rw [List.get?_eq_getElem?] at hg
    have hi : i < p.length := by
      by_contra hn
      rw [List.getElem?_eq_none (by omega)] at hg
      cases hg
    refine ⟨hi, ?_⟩
    rw [List.take_succ, hg]
    simp only [Option.toList_some]
    rw [suffix_snoc_iff]
    exact ⟨rfl, h⟩

theorem mem_advance (p : List Char) (S : List Nat) (c : Char) (j : Nat) :
    j ∈ advance p S c ↔ ∃ i, (i = 0 ∨ i ∈ S) ∧ p.get? i = some c ∧ j = i + 1 := by
  unfold advance
  simp only [List.mem_map, List.mem_filter, List.mem_cons, beq_iff_eq]
  constructor
  · rintro ⟨i, ⟨hi, hg⟩, rfl⟩
    exact ⟨i, hi, hg, rfl⟩
  · rintro ⟨i, hi, hg, rfl⟩
    exact ⟨i, ⟨hi, hg⟩, rfl⟩

/-- Every length the certain lengths advance to ends the longer bytes. -/
theorem advance_sure (p b : List Char) (S : List Nat) (c : Char)
    (hS : ∀ j ∈ S, Ends p b j) (j : Nat) (hj : j ∈ advance p S c) :
    0 < j ∧ j ≤ p.length ∧ p.take j <:+ b ++ [c] := by
  obtain ⟨i, hi, hg, rfl⟩ := (mem_advance p S c j).mp hj
  have hb : p.take i <:+ b := by
    rcases hi with rfl | hi
    · exact List.nil_suffix
    · exact (hS i hi).2.2
  have := (take_suffix_snoc p b c i).mpr ⟨hg, hb⟩
  exact ⟨by omega, by omega, this.2⟩

/-- Every length that ends the longer bytes is among those the possible lengths
advance to. -/
theorem advance_may (p b : List Char) (S : List Nat) (c : Char)
    (hS : ∀ j, Ends p b j → j ∈ S) (j : Nat) (h0 : 0 < j) (hj : j ≤ p.length)
    (h : p.take j <:+ b ++ [c]) : j ∈ advance p S c := by
  obtain ⟨i, rfl⟩ : ∃ i, j = i + 1 := ⟨j - 1, by omega⟩
  have := (take_suffix_snoc p b c i).mp ⟨by omega, h⟩
  refine (mem_advance p S c _).mpr ⟨i, ?_, this.1, rfl⟩
  by_cases hi : i = 0
  · exact Or.inl hi
  · exact Or.inr (hS i ⟨by omega, by omega, this.2⟩)

theorem trackChar_sound (p b : List Char) (hp : p ≠ []) (t t1 : Track) (c : Char)
    (ht : Tracks p b t) (h : trackChar p t c = some t1) :
    Tracks p (b ++ [c]) t1 ∧ occ p (b ++ [c]) + t.hits = occ p b + t1.hits := by
  have hlen : 0 < p.length := List.length_pos.mpr hp
  unfold trackChar at h
  simp only [] at h
  split at h
  · cases h
  · next hc =>
    cases h
    have hA := advance_sure p b t.sure c ht.1
    have hB := advance_may p b t.may c ht.2
    refine ⟨⟨?_, ?_⟩, ?_⟩
    · intro j hj
      simp only [List.mem_filter, decide_eq_true_eq] at hj
      obtain ⟨h1, h2, h3⟩ := hA j hj.1
      exact ⟨h1, hj.2, h3⟩
    · intro j hj
      simp only [List.mem_filter, decide_eq_true_eq]
      exact ⟨hB j hj.1 (by have := hj.2.1; omega) hj.2.2, hj.2.1⟩
    · by_cases hs : (advance p t.sure c).contains p.length = true
      · have hfull : p <:+ b ++ [c] := by
          have := (hA p.length (by simpa using hs)).2.2
          rwa [List.take_length] at this
        simp only [hs, if_true]
        rw [(occ_snoc p b c hp).1 hfull]
        omega
      · have hm : ¬ (advance p t.may c).contains p.length = true := by
          intro hm
          apply hc
          have hs2 : (advance p t.sure c).contains p.length = false := by
            cases hx : (advance p t.sure c).contains p.length
            · rfl
            · exact absurd hx hs
          rw [hm, hs2]
          rfl
        have hfull : ¬ p <:+ b ++ [c] := by
          intro hf
          apply hm
          have := hB p.length hlen (Nat.le_refl _) (by rwa [List.take_length])
          simpa using this
        simp only [hs]
        rw [(occ_snoc p b c hp).2 hfull]
        simp

theorem trackText_sound (p : List Char) (hp : p ≠ []) (cs : List Char) :
    ∀ (b : List Char) (t t1 : Track), Tracks p b t → trackText p t cs = some t1 →
      Tracks p (b ++ cs) t1 ∧ occ p (b ++ cs) + t.hits = occ p b + t1.hits := by
  induction cs with
  | nil =>
    intro b t t1 ht h
    cases h
    simpa using ht
  | cons c cs ih =>
    intro b t t1 ht h
    unfold trackText at h
    split at h
    · cases h
    · next t2 h2 =>
      obtain ⟨hT, hO⟩ := trackChar_sound p b hp t t2 c ht h2
      obtain ⟨hT2, hO2⟩ := ih (b ++ [c]) t2 t1 hT h
      have e : b ++ [c] ++ cs = b ++ c :: cs := by simp
      rw [e] at hT2 hO2
      exact ⟨hT2, by omega⟩

theorem suffix_append_cases (s b v : List Char) (h : s <:+ b ++ v) :
    s <:+ v ∨ ∃ t, t ≠ [] ∧ t <:+ b ∧ s = t ++ v := by
  rcases Nat.le_total s.length v.length with hl | hl
  · exact Or.inl (List.suffix_of_suffix_length_le h (List.suffix_append b v) hl)
  · have hv : v <:+ s := List.suffix_of_suffix_length_le (List.suffix_append b v) h hl
    obtain ⟨t, rfl⟩ := hv
    by_cases ht : t = []
    · subst ht
      exact Or.inl (by simp)
    · refine Or.inr ⟨t, ht, ?_, rfl⟩
      obtain ⟨u, hu⟩ := h
      rw [← List.append_assoc] at hu
      exact ⟨u, List.append_cancel_right hu⟩

theorem mem_spread (p : List Char) (bad : List (List Char)) (S : List Nat) (j : Nat) :
    j ∈ spread p bad S ↔
      j ≤ p.length ∧ ∃ i, (i = 0 ∨ i ∈ S) ∧ i ≤ j ∧ ∀ w ∈ bad, hasInfix w (slice p i j) = false := by
  unfold spread
  simp only [List.mem_filter, List.mem_range, List.any_eq_true, List.mem_cons, Bool.and_eq_true,
    decide_eq_true_eq, List.all_eq_true, Bool.not_eq_true']
  constructor
  · rintro ⟨hj, i, hi, hij, hw⟩
    exact ⟨by omega, i, hi, hij, hw⟩
  · rintro ⟨hj, i, hi, hij, hw⟩
    exact ⟨by omega, i, hi, hij, hw⟩

/-- After a value that contains none of `bad`, every length that ends the bytes
is among those the possible lengths spread to. -/
theorem spread_may (p b v : List Char) (bad : List (List Char)) (S : List Nat)
    (hS : ∀ j, Ends p b j → j ∈ S) (hv : ∀ w ∈ bad, hasInfix w v = false) (j : Nat)
    (hj : j ≤ p.length) (hne : j < p.length ∨ v ≠ [])
    (h : p.take j <:+ b ++ v) : j ∈ spread p bad S := by
  rw [mem_spread]
  refine ⟨hj, ?_⟩
  rcases suffix_append_cases _ _ _ h with hs | ⟨t, ht, htb, hjt⟩
  · refine ⟨0, Or.inl rfl, Nat.zero_le _, ?_⟩
    intro w hw
    have e : slice p 0 j = p.take j := by simp [slice]
    rw [e]
    cases hx : hasInfix w (p.take j) with
    | false => rfl
    | true =>
      have h1 : w <:+: v := ((hasInfix_iff _ _).mp hx).trans hs.isInfix
      have h2 := hv w hw
      rw [(hasInfix_iff _ _).mpr h1] at h2
      cases h2
  · have hlen : j = t.length + v.length := by
      have := congrArg List.length hjt
      simpa [List.length_take, Nat.min_eq_left hj] using this
    have htl : 0 < t.length := List.length_pos.mpr ht
    have hvl : v ≠ [] → 0 < v.length := fun h => List.length_pos.mpr h
    have hti : p.take t.length = t := by
      have := congrArg (List.take t.length) hjt
      rw [List.take_take, Nat.min_eq_left (by omega)] at this
      simpa using this
    have hil : t.length < p.length := by
      rcases hne with h1 | h1
      · omega
      · have := hvl h1
        omega
    refine ⟨t.length, Or.inr (hS _ ⟨htl, hil, by rw [hti]; exact htb⟩), by omega, ?_⟩
    intro w hw
    have e : slice p t.length j = v := by
      unfold slice
      rw [← List.drop_take, hjt]
      simp
    rw [e]
    exact hv w hw

theorem occ_append_quiet (p b : List Char) (hp : p ≠ []) (v : List Char)
    (h : ∀ v1, v1 <+: v → v1 ≠ [] → ¬ p <:+ b ++ v1) : occ p (b ++ v) = occ p b := by
  induction v using List.reverseRecOn with
  | nil => simp
  | append_singleton l a ih =>
    have h1 := ih (fun v1 hv1 hne => h v1 (hv1.trans (List.prefix_append _ _)) hne)
    have h2 := h (l ++ [a]) (List.prefix_refl _) (by simp)
    rw [← List.append_assoc] at h2 ⊢
    rw [(occ_snoc p (b ++ l) a hp).2 h2, h1]

theorem trackVal_sound (p b v : List Char) (hp : p ≠ []) (bad : List (List Char))
    (t t1 : Track) (ht : Tracks p b t) (hv : ∀ w ∈ bad, hasInfix w v = false)
    (h : trackVal p bad t = some t1) :
    Tracks p (b ++ v) t1 ∧ occ p (b ++ v) + t.hits = occ p b + t1.hits := by
  have hlen : 0 < p.length := List.length_pos.mpr hp
  unfold trackVal at h
  simp only [] at h
  split at h
  · cases h
  · next hc =>
    cases h
    have hpre : ∀ v1, v1 <+: v → ∀ w ∈ bad, hasInfix w v1 = false := by
      intro v1 hv1 w hw
      cases hx : hasInfix w v1 with
      | false => rfl
      | true =>
        have h1 : w <:+: v := ((hasInfix_iff _ _).mp hx).trans hv1.isInfix
        have h2 := hv w hw
        rw [(hasInfix_iff _ _).mpr h1] at h2
        cases h2
    refine ⟨⟨?_, ?_⟩, ?_⟩
    · intro j hj
      cases hj
    · intro j hj
      exact spread_may p b v bad t.may ht.2 hv j (Nat.le_of_lt hj.2.1) (Or.inl hj.2.1) hj.2.2
    · have : occ p (b ++ v) = occ p b := by
        apply occ_append_quiet p b hp
        intro v1 hv1 hne hfull
        apply hc
        have := spread_may p b v1 bad t.may ht.2 (hpre v1 hv1) p.length (Nat.le_refl _)
          (Or.inr hne) (by rwa [List.take_length])
        simpa using this
      simp only []
      omega

theorem bytes_data_nil : (Out.bytes []).data = [] := rfl

theorem bytes_data_cons (e : Emit) (r : Out) :
    (Out.bytes (e :: r)).data = e.str.data ++ (Out.bytes r).data := by
  simp [Out.bytes]

theorem bytes_data_append (a b : Out) :
    (Out.bytes (a ++ b)).data = (Out.bytes a).data ++ (Out.bytes b).data := by
  simp [Out.bytes]

theorem valsAvoid_append (bad : List String) (a b : Out) :
    valsAvoid bad (a ++ b) = (valsAvoid bad a && valsAvoid bad b) := by
  simp [valsAvoid, vals_append, List.all_append]

theorem valsAvoid_text (bad : List String) (s : String) (r : Out) :
    valsAvoid bad (.text s :: r) = valsAvoid bad r := rfl

theorem valsAvoid_val (bad : List String) (v : String) (r : Out) :
    valsAvoid bad (.val v :: r) = ((bad.all fun w => !contains w v) && valsAvoid bad r) := by
  simp [valsAvoid, vals]

theorem valsAvoid_range {α : Type} (bad : List String) (body : String → α → Out)
    (l : List (String × α)) (h : valsAvoid bad (range body l) = true) :
    ∀ kv ∈ l, valsAvoid bad (body kv.1 kv.2) = true := by
  induction l with
  | nil => intro kv hkv; cases hkv
  | cons a rest ih =>
    obtain ⟨k, v⟩ := a
    simp only [range, valsAvoid_append, Bool.and_eq_true] at h
    intro kv hkv
    rcases List.mem_cons.mp hkv with rfl | hmem
    · exact h.1
    · exact ih h.2 kv hmem

theorem valsAvoid_mono {bad bad1 : List String} (hsub : ∀ w ∈ bad, w ∈ bad1) (out : Out)
    (h : valsAvoid bad1 out = true) : valsAvoid bad out = true := by
  unfold valsAvoid at h ⊢
  rw [List.all_eq_true] at h ⊢
  intro v hv
  have := h v hv
  rw [List.all_eq_true] at this ⊢
  exact fun w hw => this w (hsub w hw)

theorem track_sound (p : List Char) (hp : p ≠ []) (bad : List String) (out : Out) :
    ∀ (b : List Char) (t t1 : Track), Tracks p b t →
      track p (bad.map String.data) t (skeleton out) = some t1 → valsAvoid bad out = true →
      Tracks p (b ++ (Out.bytes out).data) t1
        ∧ occ p (b ++ (Out.bytes out).data) + t.hits = occ p b + t1.hits := by
  induction out with
  | nil =>
    intro b t t1 ht h _
    cases h
    simpa [bytes_data_nil] using ht
  | cons e rest ih =>
    intro b t t1 ht h hv
    cases e with
    | text s =>
      simp only [skeleton, List.map_cons] at h
      unfold track at h
      split at h
      · cases h
      · next t2 h2 =>
        obtain ⟨hT, hO⟩ := trackText_sound p hp s.data b t t2 ht h2
        obtain ⟨hT2, hO2⟩ := ih (b ++ s.data) t2 t1 hT h (by simpa [valsAvoid_text] using hv)
        rw [bytes_data_cons, ← List.append_assoc]
        exact ⟨hT2, by simp only [Emit.str] at *; omega⟩
    | val v =>
      simp only [skeleton, List.map_cons] at h
      unfold track at h
      rw [valsAvoid_val, Bool.and_eq_true] at hv
      split at h
      · cases h
      · next t2 h2 =>
        have hbad : ∀ w ∈ bad.map String.data, hasInfix w v.data = false := by
          intro w hw
          obtain ⟨w0, hw0, rfl⟩ := List.mem_map.mp hw
          have := List.all_eq_true.mp hv.1 w0 hw0
          simpa [contains] using this
        obtain ⟨hT, hO⟩ := trackVal_sound p b v.data hp _ t t2 ht hbad h2
        obtain ⟨hT2, hO2⟩ := ih (b ++ v.data) t2 t1 hT h hv.2
        rw [bytes_data_cons, ← List.append_assoc]
        exact ⟨hT2, by simp only [Emit.str] at *; omega⟩

/-- What `tally` reports for the writes of an output is the number of
occurrences in its bytes, whenever no value contains one of `bad`. -/
theorem tally_sound (pat : String) (bad : List String) (out : Out) (n : Nat)
    (h : tally pat bad (skeleton out) = some n) (hv : valsAvoid bad out = true) :
    occurrences pat out = n := by
  unfold tally at h
  split at h
  · cases h
  · next hne =>
    have hp : pat.data ≠ [] := by
      intro he
      rw [he] at hne
      exact hne rfl
    cases ht : track pat.data (bad.map String.data) ⟨[], [], 0⟩ (skeleton out) with
    | none => rw [ht] at h; cases h
    | some t1 =>
      rw [ht] at h
      cases h
      have h0 : Tracks pat.data [] ⟨[], [], 0⟩ := by
        refine ⟨(fun j hj => by cases hj), ?_⟩
        rintro j ⟨h1, h2, h3⟩
        have := h3.length_le
        rw [List.length_take, List.length_nil] at this
        omega
      have := (track_sound pat.data hp bad out [] _ t1 h0 ht hv).2
      simpa [occurrences, occ] using this

theorem rendersText_eq (pat : String) (out : Out) (hp : pat.data ≠ []) :
    rendersText pat out = decide (0 < occurrences pat out) :=
  hasInfix_eq_occ _ _ hp

theorem rendersText_false (pat : String) (out : Out) (hp : pat.data ≠ [])
    (h : occurrences pat out = 0) : rendersText pat out = false := by
  rw [rendersText_eq pat out hp, h]
  rfl

theorem rendersText_of_infix {pat : String} {a b : Out} (h : a <:+: b)
    (ha : rendersText pat a = true) : rendersText pat b = true := by
  obtain ⟨x, y, rfl⟩ := h
  unfold rendersText contains at ha ⊢
  rw [hasInfix_iff] at ha ⊢
  rw [bytes_data_append, bytes_data_append]
  exact ha.trans ((List.suffix_append _ _).isInfix.trans (List.prefix_append _ _).isInfix)

/-- A template text of the output is part of its bytes. -/
theorem rendersText_of_emitsText (pat : String) (out : Out) (h : emitsText pat out = true) :
    rendersText pat out = true := by
  induction out with
  | nil => cases h
  | cons e rest ih =>
    cases e with
    | text s =>
      rw [emitsText_text, Bool.or_eq_true] at h
      rcases h with h | h
      · unfold rendersText contains at *
        rw [hasInfix_iff] at h ⊢
        rw [bytes_data_cons]
        exact h.trans (List.prefix_append _ _).isInfix
      · exact rendersText_of_infix (List.suffix_cons _ _).isInfix (ih h)
    | val v =>
      rw [emitsText_val] at h
      exact rendersText_of_infix (List.suffix_cons _ _).isInfix (ih h)

/-! ### Pieces that start with a line break -/

theorem startsNL_append (a b : List Char) (ha : startsNL a = true) (hb : startsNL b = true) :
    startsNL (a ++ b) = true := by
  cases a with
  | nil => simpa using hb
  | cons x a1 => simpa [startsNL] using ha

theorem startsNL_of_skeleton (out : Out) (h : nlSkeleton (skeleton out) = true) :
    startsNL (Out.bytes out).data = true := by
  cases out with
  | nil => rfl
  | cons e rest =>
    cases e with
    | text s =>
      simp only [skeleton, List.map_cons, nlSkeleton, beq_iff_eq] at h
      rw [bytes_data_cons]
      simp only [Emit.str]
      cases hs : s.data with
      | nil => rw [hs] at h; cases h
      | cons c cs =>
        rw [hs] at h
        simp only [List.head?_cons, Option.some.injEq] at h
        simp [startsNL, h]
    | val v =>
      simp [skeleton, nlSkeleton] at h

theorem sealed_nil (pat : String) (bad : List String) : Sealed pat bad [] 0 :=
  ⟨rfl, fun _ => rfl⟩

theorem sealed_leaf {pat : String} {bad : List String} {out : Out} {n : Nat}
    (hnl : nlSkeleton (skeleton out) = true) (h : tally pat bad (skeleton out) = some n) :
    Sealed pat bad out n :=
  ⟨startsNL_of_skeleton out hnl, tally_sound pat bad out n h⟩

theorem sealed_append {pat : String} {bad : List String} {a b : Out} {n m : Nat}
    (hp : '\n' ∉ pat.data.tail) (ha : Sealed pat bad a n) (hb : Sealed pat bad b m) :
    Sealed pat bad (a ++ b) (n + m) := by
  refine ⟨?_, ?_⟩
  · rw [bytes_data_append]
    exact startsNL_append _ _ ha.1 hb.1
  · intro hv
    rw [valsAvoid_append, Bool.and_eq_true] at hv
    unfold occurrences
    rw [bytes_data_append, occ_append_nl _ _ _ hp hb.1]
    have h1 := ha.2 hv.1
    have h2 := hb.2 hv.2
    unfold occurrences at h1 h2
    rw [h1, h2]

theorem sealed_range {α : Type} {pat : String} {bad : List String} (hp : '\n' ∉ pat.data.tail)
    (body : String → α → Out) (h : ∀ k v, Sealed pat bad (body k v) 0)
    (l : List (String × α)) : Sealed pat bad (range body l) 0 := by
  induction l with
  | nil => exact sealed_nil pat bad
  | cons kv rest ih =>
    obtain ⟨k, v⟩ := kv
    exact sealed_append hp (h k v) ih

theorem sealed_append0 {pat : String} {bad : List String} {a b : Out}
    (hp : '\n' ∉ pat.data.tail) (ha : Sealed pat bad a 0) (hb : Sealed pat bad b 0) :
    Sealed pat bad (a ++ b) 0 :=
  sealed_append hp ha hb

theorem sealed_mono {pat : String} {bad bad1 : List String} {out : Out} {n : Nat}
    (hsub : ∀ w ∈ bad, w ∈ bad1) (h : Sealed pat bad out n) : Sealed pat bad1 out n :=
  ⟨h.1, fun hv => h.2 (valsAvoid_mono hsub out hv)⟩

theorem sealed_of_hush {pairs : List (String × String)} (out : Out)
    (h : hush pairs (skeleton out) = true) {pat w : String} (hm : (pat, w) ∈ pairs) :
    Sealed pat [w] out 0 := by
  unfold hush at h
  rw [Bool.and_eq_true, List.all_eq_true] at h
  exact sealed_leaf h.1 (by simpa using h.2 (pat, w) hm)

/-! ### Values framed by template texts are part of the bytes -/

theorem scan_renders (pre suf : String) (out : Out) :
    ∀ (st : Scan) (b : List Char) (x : String),
      (st = .armed → pre.data <:+ b) → (∀ v, st = .got v → pre.data ++ v.data <:+ b) →
      x ∈ scan pre suf st out →
      pre.data ++ x.data ++ suf.data <:+: b ++ (Out.bytes out).data := by
  induction out with
  | nil =>
    intro st b x _ _ hx
    cases hx
  | cons e rest ih =>
    intro st b x ha hg hx
    rw [scan_cons, List.mem_append] at hx
    rw [bytes_data_cons, ← List.append_assoc]
    rcases hx with hx | hx
    · cases e with
      | val v => cases st <;> cases hx
      | text t =>
        cases st with
        | idle => cases hx
        | armed => cases hx
        | got v =>
          simp only [scanHit] at hx
          split_ifs at hx with hsuf
          · simp only [List.mem_singleton] at hx
            subst hx
            have h1 := hg x rfl
            have h2 : suf.data <+: t.data := List.isPrefixOf_iff_prefix.mp hsuf
            obtain ⟨u, hu⟩ := h1
            obtain ⟨w, hw⟩ := h2
            refine ⟨u, w ++ (Out.bytes rest).data, ?_⟩
            simp only [Emit.str]
            rw [← hu, ← hw]
            simp [List.append_assoc]
          · cases hx
    · apply ih (scanNext pre st e) (b ++ e.str.data) x _ _ hx
      · intro hst
        cases e with
        | val v => cases st <;> simp [scanNext] at hst
        | text t =>
          simp only [scanNext] at hst
          split_ifs at hst with he
          have := List.isSuffixOf_iff_suffix.mp he
          exact this.trans (List.suffix_append _ _)
      · intro v hst
        cases e with
        | text t =>
          simp only [scanNext] at hst
          split_ifs at hst
        | val v1 =>
          cases st with
          | idle => simp [scanNext] at hst
          | got _ => simp [scanNext] at hst
          | armed =>
            simp only [scanNext, Scan.got.injEq] at hst
            subst hst
            obtain ⟨u, hu⟩ := ha rfl
            exact ⟨u, by simp [Emit.str, ← hu]⟩

/-- A value the scan reports between `pre` and `suf` stands in the bytes
between these two texts. -/
theorem rendersText_of_valBetween (pre suf : String) (out : Out) (x : String)
    (h : x ∈ valBetween pre suf out) : rendersText (pre ++ x ++ suf) out = true := by
  unfold rendersText contains
  rw [hasInfix_iff]
  have := scan_renders pre suf out .idle [] x (fun h => by cases h) (fun v h => by cases h) h
  simpa [String.data_append] using this


/-! ### The REST fragments hold none of the method patterns -/

theorem methodPairs_line : ∀ pw ∈ methodPairs, '\n' ∉ pw.1.data.tail := by decide

set_option maxRecDepth 100000 in
theorem restUriMember_hush (E : Env) (k : String) (m : Member) :
    hush methodPairs (skeleton (restUriMember E k m)) = true := by
  unfold restUriMember
  split_ifs <;>
    simp only [List.cons_append, List.nil_append, List.append_nil, skeleton, List.map_cons,
      List.map_nil] <;> decide!

set_option maxRecDepth 100000 in
theorem restQuerystringMember_hush (E : Env) (k : String) (m : Member) :
    hush methodPairs (skeleton (restQuerystringMember E k m)) = true := by
  unfold restQuerystringMember
  split_ifs <;>
    simp only [List.cons_append, List.nil_append, List.append_nil, skeleton, List.map_cons,
      List.map_nil] <;> decide!

set_option maxRecDepth 100000 in
theorem restReqheadersMember_hush (E : Env) (k : String) (m : Member) :
    hush methodPairs (skeleton (restReqheadersMember E k m)) = true := by
  unfold restReqheadersMember
  split_ifs <;>
    simp only [List.cons_append, List.nil_append, List.append_nil, skeleton, List.map_cons,
      List.map_nil] <;> decide!

set_option maxRecDepth 100000 in
theorem restRespheadersMember_hush (E : Env) (k : String) (m : Member) :
    hush methodPairs (skeleton (restRespheadersMember E k m)) = true := by
  unfold restRespheadersMember restRespheaderValue
  split_ifs <;>
    simp only [List.cons_append, List.nil_append, List.append_nil, skeleton, List.map_cons,
      List.map_nil] <;> decide!

theorem restUri_sealed (E : Env) (op : Operation) {pat w : String}
    (hm : (pat, w) ∈ methodPairs) : Sealed pat [w] (restUri E op) 0 := by
  have hp := methodPairs_line _ hm
  have hr := fun ms => sealed_range hp (restUriMember E)
    (fun k v => sealed_of_hush _ (restUriMember_hush E k v) hm) ms
  unfold restUri
  cases op.Input <;> simp only [] <;>
    repeat' (first
      | apply sealed_append0 hp
      | exact hr _
      | exact sealed_of_hush _ (by decide) hm)

theorem restQuerystring_sealed (E : Env) (op : Operation) {pat w : String}
    (hm : (pat, w) ∈ methodPairs) : Sealed pat [w] (restQuerystring E op) 0 := by
  have hp := methodPairs_line _ hm
  have hr := fun ms => sealed_range hp (restQuerystringMember E)
    (fun k v => sealed_of_hush _ (restQuerystringMember_hush E k v) hm) ms
  unfold restQuerystring
  cases op.Input <;> simp only [] <;>
    repeat' (first
      | apply sealed_append0 hp
      | exact hr _
      | exact sealed_of_hush _ (by decide) hm)

theorem restReqheaders_sealed (E : Env) (op : Operation) {pat w : String}
    (hm : (pat, w) ∈ methodPairs) : Sealed pat [w] (restReqheaders E op) 0 := by
  have hp := methodPairs_line _ hm
  have hr := fun ms => sealed_range hp (restReqheadersMember E)
    (fun k v => sealed_of_hush _ (restReqheadersMember_hush E k v) hm) ms
  unfold restReqheaders
  cases op.Input <;> simp only [] <;>
    repeat' (first
      | apply sealed_append0 hp
      | exact hr _
      | exact sealed_of_hush _ (by decide) hm)

theorem restRespheaders_sealed (E : Env) (o : Shape) {pat w : String}
    (hm : (pat, w) ∈ methodPairs) : Sealed pat [w] (restRespheaders E o) 0 := by
  have hp := methodPairs_line _ hm
  have hr := fun ms => sealed_range hp (restRespheadersMember E)
    (fun k v => sealed_of_hush _ (restRespheadersMember_hush E k v) hm) ms
  unfold restRespheaders
  repeat' (first
    | apply sealed_append0 hp
    | exact hr _
    | exact sealed_of_hush _ (by decide) hm)

set_option maxRecDepth 100000 in
theorem restMethodHead_hush (E : Env) (svc : Service) (name : String) (op : Operation) :
    hush methodPairs (skeleton (restMethodHead E svc name op)) = true := by
  unfold restMethodHead
  cases op.Input <;> cases op.Output <;>
    simp only [List.cons_append, List.nil_append, List.append_nil, skeleton, List.map_cons,
      List.map_nil] <;> decide!

set_option maxRecDepth 100000 in
theorem restMethodTail_sealed (E : Env) (op : Operation) (gap : String) (response : Out)
    {pat w : String} (hm : (pat, w) ∈ methodPairs)
    (hgap : hush methodPairs [some gap] = true) (hresp : Sealed pat [w] response 0) :
    Sealed pat [w] (restMethodTail E op gap response) 0 := by
  have hp := methodPairs_line _ hm
  have h1 := restUri_sealed E op hm
  have h2 := restQuerystring_sealed E op hm
  have h3 := restReqheaders_sealed E op hm
  have hg := sealed_of_hush [.text gap] hgap hm
  unfold restMethodTail
  generalize restUri E op = U at h1 ⊢
  generalize restQuerystring E op = Q at h2 ⊢
  generalize restReqheaders E op = H at h3 ⊢
  generalize [Emit.text gap] = G at hg ⊢
  repeat' (first
    | exact hresp
    | exact h1
    | exact h2
    | exact h3
    | exact hg
    | apply sealed_append0 hp
    | exact sealed_of_hush _ (by simp only [skeleton, List.map_cons, List.map_nil]; decide!) hm)

/-! ### The request body and the response block of a REST method -/

theorem closePairs_method {pat w : String} (hm : (pat, w) ∈ closePairs) :
    (pat, w) ∈ methodPairs :=
  List.mem_append_left _ (List.mem_append_left _ hm)

theorem marshalPairs_method {pat w : String} (hm : (pat, w) ∈ marshalPairs) :
    (pat, w) ∈ methodPairs :=
  List.mem_append_left _ (List.mem_append_right _ hm)

theorem declPairs_method {pat w : String} (hm : (pat, w) ∈ declPairs) :
    (pat, w) ∈ methodPairs :=
  List.mem_append_right _ hm

theorem bodyPairs_method {pat w : String} (hm : (pat, w) ∈ bodyPairs) :
    (pat, w) ∈ methodPairs := by
  rcases List.mem_append.mp hm with h | h
  · exact closePairs_method h
  · exact declPairs_method h

theorem responsePairs_method {pat w : String} (hm : (pat, w) ∈ responsePairs) :
    (pat, w) ∈ methodPairs := by
  rcases List.mem_append.mp hm with h | h
  · exact marshalPairs_method h
  · exact declPairs_method h

set_option maxRecDepth 100000 in
theorem restXMLPayload_hush (E : Env) (i : Shape) :
    hush bodyPairs (skeleton (restXMLPayload E i)) = true := by
  unfold restXMLPayload
  split
  · decide
  · split_ifs <;>
      simp only [List.cons_append, List.nil_append, List.append_nil, skeleton, List.map_cons,
        List.map_nil] <;> decide!

set_option maxRecDepth 100000 in
theorem restJSONPayload_hush (E : Env) (i : Shape) :
    hush bodyPairs (skeleton (restJSONPayload E i)) = true := by
  unfold restJSONPayload
  split
  · decide
  · split_ifs <;>
      simp only [List.cons_append, List.nil_append, List.append_nil, skeleton, List.map_cons,
        List.map_nil] <;> decide!

set_option maxRecDepth 100000 in
/-- The request body of a `rest-xml` method holds nothing of the response
side. -/
theorem restXMLBody_sealed {E : Env} {op : Operation} {body : Out}
    (h : restXMLBody E op = .ok body) {pat w : String} (hm : (pat, w) ∈ bodyPairs) :
    Sealed pat [w] body 0 := by
  have hp := methodPairs_line _ (bodyPairs_method hm)
  unfold restXMLBody at h
  split at h
  · cases h
    exact sealed_nil _ _
  · split at h
    · next i _ _ =>
      cases h
      have hpl := sealed_of_hush _ (restXMLPayload_hush E i) hm
      generalize restXMLPayload E i = P at hpl ⊢
      repeat' (first
        | exact hpl
        | apply sealed_append0 hp
        | exact sealed_of_hush _ (by decide!) hm)
    · split at h
      · cases h
      · cases h
        split_ifs <;>
          exact sealed_of_hush _
            (by simp only [List.cons_append, List.nil_append, List.append_nil, skeleton,
                  List.map_cons, List.map_nil]; decide!) hm

/-- The request body of a `rest-json` method holds nothing of the response
side. -/
theorem restJSONBody_sealed (E : Env) (op : Operation) {pat w : String}
    (hm : (pat, w) ∈ bodyPairs) : Sealed pat [w] (restJSONBody E op) 0 := by
  have hp := methodPairs_line _ (bodyPairs_method hm)
  unfold restJSONBody
  split
  · exact sealed_nil _ _
  · next i _ =>
    have hpl := sealed_of_hush _ (restJSONPayload_hush E i) hm
    generalize restJSONPayload E i = P at hpl ⊢
    split_ifs <;>
      repeat' (first
        | exact hpl
        | apply sealed_append0 hp
        | exact sealed_of_hush _ (by decide!) hm)

set_option maxRecDepth 100000 in
/-- The response block of a `rest-xml` method holds nothing of the request
side. -/
theorem restXMLResponse_sealed (E : Env) (op : Operation) {pat w : String}
    (hm : (pat, w) ∈ responsePairs) : Sealed pat [w] (restXMLResponse E op) 0 := by
  have hp := methodPairs_line _ (responsePairs_method hm)
  unfold restXMLResponse
  split
  · next o _ =>
    have hr := restRespheaders_sealed E o (responsePairs_method hm)
    generalize restRespheaders E o = R at hr ⊢
    cases indexMembers E o.Members "Body" <;>
      simp only [truth, Option.isSome_some, if_true] <;> (try split_ifs) <;>
      repeat' (first
        | exact hr
        | apply sealed_append0 hp
        | exact sealed_of_hush _ (by decide!) hm)
  · exact sealed_of_hush _ (by decide!) hm

set_option maxRecDepth 100000 in
/-- The response block of a `rest-json` method holds nothing of the request
side. -/
theorem restJSONResponse_sealed (E : Env) (op : Operation) {pat w : String}
    (hm : (pat, w) ∈ responsePairs) : Sealed pat [w] (restJSONResponse E op) 0 := by
  have hp := methodPairs_line _ (responsePairs_method hm)
  unfold restJSONResponse
  split
  · next o _ =>
    have hr := restRespheaders_sealed E o (responsePairs_method hm)
    generalize restRespheaders E o = R at hr ⊢
    cases indexMembers E o.Members "Body" <;>
      simp only [truth, Option.isSome_some, if_true] <;> (try split_ifs) <;>
      repeat' (first
        | exact hr
        | apply sealed_append0 hp
        | exact sealed_of_hush _ (by decide!) hm)
  · exact sealed_of_hush _ (by decide!) hm

/-- The response block for a streaming `Body` neither closes nor decodes the
response body. -/
theorem restResponse_streaming_sealed (E : Env) (op : Operation) (o : Shape) (m : Member)
    (hO : op.Output = some o) (hB : o.Members.lookup "Body" = some m)
    (hS : m.Streaming = true) {pat w : String} (hm : (pat, w) ∈ closePairs) :
    Sealed pat [w] (restXMLResponse E op) 0 ∧ Sealed pat [w] (restJSONResponse E op) 0 := by
  have hp := methodPairs_line _ (closePairs_method hm)
  have hidx : indexMembers E o.Members "Body" = some m := by simp [indexMembers, hB]
  have hr := restRespheaders_sealed E o (closePairs_method hm)
  constructor
  · unfold restXMLResponse
    simp only [hO, hidx, hS, truth, Option.isSome_some, if_true]
    generalize restRespheaders E o = R at hr ⊢
    repeat' (first
      | exact hr
      | apply sealed_append0 hp
      | exact sealed_of_hush _ (by decide!) hm)
  · unfold restJSONResponse
    simp only [hO, hidx, hS, truth, Option.isSome_some, if_true]
    generalize restRespheaders E o = R at hr ⊢
    repeat' (first
      | exact hr
      | apply sealed_append0 hp
      | exact sealed_of_hush _ (by decide!) hm)

set_option maxRecDepth 100000 in
/-- The request body made of a streaming payload member holds no marshalling
and no content type. -/
theorem streamingPayload_sealed (E : Env) (m : Member) {pat w : String}
    (hm : (pat, w) ∈ marshalPairs) :
    Sealed pat [w]
        ([Emit.text "\n\n  "]
          ++ ([.text "\n  "]
              ++ ([.text "\n  "]
                  ++ [.text "\n  body = req.", .val (E.exportable m.Name), .text "\n  "]
                  ++ [.text "\n  "])
              ++ [.text "\n  "])
          ++ [.text "\n  "]) 0
      ∧ Sealed pat [w]
        ([Emit.text "\n  "]
          ++ ([.text "\n  "]
              ++ ([.text "\n  "]
                  ++ [.text "\n  body = req.", .val (E.exportable m.Name), .text "\n  "]
                  ++ [.text "\n  "])
              ++ [.text "\n  "])
          ++ [.text "\n  "]) 0 := by
  constructor <;>
    exact sealed_of_hush _
      (by simp only [List.cons_append, List.nil_append, List.append_nil, skeleton,
            List.map_cons, List.map_nil]; decide!) hm

/-- A REST method holds a pattern nowhere when its request body and its
response block do not. -/
theorem restMethod_sealed (E : Env) (svc : Service) (name : String) (op : Operation)
    (body response : Out) (gap : String) {pat w : String} (hm : (pat, w) ∈ methodPairs)
    (hgap : hush methodPairs [some gap] = true) (hb : Sealed pat [w] body 0)
    (hr : Sealed pat [w] response 0) :
    Sealed pat [w]
      (restMethodHead E svc name op ++ (body ++ restMethodTail E op gap response)) 0 := by
  have hp := methodPairs_line _ hm
  exact sealed_append0 hp (sealed_of_hush _ (restMethodHead_hush E svc name op) hm)
    (sealed_append0 hp hb (restMethodTail_sealed E op gap response hm hgap hr))

/-- What a sealed output gives for its bytes. -/
theorem sealed_quiet {pat w : String} {bad : List String} {out : Out}
    (h : Sealed pat [w] out 0) (hw : w ∈ bad) (hp : pat.data ≠ [])
    (hv : valsAvoid bad out = true) : rendersText pat out = false :=
  rendersText_false pat out hp
    (h.2 (valsAvoid_mono (fun x hx => by rw [List.mem_singleton.mp hx]; exact hw) out hv))

/-! ### Observations on the bytes of the member fragments -/

theorem valsAvoid_of_avoids (bad : List String) (out : Out) (L : List String)
    (hin : ∀ v ∈ vals out, v ∈ L) (hL : ∀ v ∈ L, avoids bad v = true) :
    valsAvoid bad out = true := by
  unfold valsAvoid
  rw [List.all_eq_true]
  intro v hv
  exact hL v (hin v hv)

theorem blankBytes_of_blank (out : Out) (h : blank out = true) : blankBytes out = true := by
  induction out with
  | nil => rfl
  | cons e rest ih =>
    cases e with
    | val v => simp [blank] at h
    | text t =>
      simp only [blank, List.all_cons, Bool.and_eq_true] at h
      unfold blankBytes at ih ⊢
      rw [bytes_data_cons, List.all_append, Bool.and_eq_true]
      exact ⟨h.1, ih (by simpa [blank] using h.2)⟩

/-- The bytes of a run of writes of the output are part of its bytes. -/
theorem rendersText_sub (sub out : Out) (s : String) (h : sub <:+: out)
    (hs : s.data = (Out.bytes sub).data) : rendersText s out = true := by
  obtain ⟨x, y, rfl⟩ := h
  unfold rendersText contains
  rw [hasInfix_iff, bytes_data_append, bytes_data_append, hs]
  exact (List.suffix_append _ _).isInfix.trans (List.prefix_append _ _).isInfix

theorem restUriMember_vals (E : Env) (name : String) (m : Member) :
    ∀ v ∈ vals (restUriMember E name m), v ∈ [E.exportable name, m.LocationName] := by
  unfold restUriMember
  split_ifs <;> simp [vals]

theorem restQuerystringMember_vals (E : Env) (name : String) (m : Member) :
    ∀ v ∈ vals (restQuerystringMember E name m), v ∈ [E.exportable name, m.LocationName] := by
  unfold restQuerystringMember
  split_ifs <;> simp [vals]

theorem restReqheadersMember_vals (E : Env) (name : String) (m : Member) :
    ∀ v ∈ vals (restReqheadersMember E name m), v ∈ [E.exportable name, m.LocationName] := by
  unfold restReqheadersMember
  split_ifs <;> simp [vals]

set_option maxRecDepth 100000 in
theorem restUriMember_tally (E : Env) (name : String) (m : Member) :
    tally "strings.Replace(" ["strings.Replace("] (skeleton (restUriMember E name m))
        = some (if m.Location = "uri" then 2 else 0)
      ∧ tally "aws.EscapePath(" ["aws.EscapePath("] (skeleton (restUriMember E name m))
        = some (if m.Location = "uri" then 2 else 0) := by
  unfold restUriMember
  split_ifs <;>
    simp only [List.cons_append, List.nil_append, List.append_nil, skeleton, List.map_cons,
      List.map_nil] <;> decide!

set_option maxRecDepth 100000 in
theorem restQuerystringMember_tally (E : Env) (name : String) (m : Member) :
    tally "q.Set(" ["Set("] (skeleton (restQuerystringMember E name m))
      = some (if m.Location = "querystring" then 1 else 0) := by
  unfold restQuerystringMember
  split_ifs <;>
    simp only [List.cons_append, List.nil_append, List.append_nil, skeleton, List.map_cons,
      List.map_nil] <;> decide!

set_option maxRecDepth 100000 in
theorem restReqheadersMember_tally (E : Env) (name : String) (m : Member) :
    tally "Header.Set(" ["Set("] (skeleton (restReqheadersMember E name m))
        = some (if m.Location = "header" then (if isContentLength m then 0 else 1)
                else if m.Location = "headers" then 1 else 0)
      ∧ tally "httpReq.ContentLength =" ["httpReq.ContentLength"]
          (skeleton (restReqheadersMember E name m))
        = some (if m.Location = "header" ∧ isContentLength m = true then 1 else 0) := by
  unfold restReqheadersMember isContentLength
  split_ifs <;>
    first
    | (simp only [List.cons_append, List.nil_append, List.append_nil, skeleton, List.map_cons,
        List.map_nil]
       decide!)
    | (exfalso
       simp_all)

/-! ### Values and texts between two template texts -/

/-- The writes between a template text that ends with `pre` and one that starts
with `suf` are in the bytes, framed by `pre` and `suf`. -/
theorem rendersText_framed (s pre suf a b : String) (mid x y : Out)
    (ha : endsWith pre a = true) (hb : startsWith suf b = true)
    (hs : s.data = pre.data ++ (Out.bytes mid).data ++ suf.data) :
    rendersText s (x ++ .text a :: (mid ++ .text b :: y)) = true := by
  unfold endsWith at ha
  unfold startsWith at hb
  obtain ⟨a0, ha0⟩ := List.isSuffixOf_iff_suffix.mp ha
  obtain ⟨b1, hb1⟩ := List.isPrefixOf_iff_prefix.mp hb
  unfold rendersText contains
  rw [hasInfix_iff, hs, bytes_data_append, bytes_data_cons, bytes_data_append, bytes_data_cons]
  refine ⟨(Out.bytes x).data ++ a0, b1 ++ (Out.bytes y).data, ?_⟩
  simp only [Emit.str, ← ha0, ← hb1, List.append_assoc]

theorem restUriMember_blank (E : Env) (name : String) (m : Member) (h : m.Location ≠ "uri") :
    blankBytes (restUriMember E name m) = true := by
  unfold restUriMember
  rw [if_neg h]
  decide

theorem restQuerystringMember_blank (E : Env) (name : String) (m : Member)
    (h : m.Location ≠ "querystring") : blankBytes (restQuerystringMember E name m) = true := by
  unfold restQuerystringMember
  rw [if_neg h]
  decide

theorem restReqheadersMember_blank (E : Env) (name : String) (m : Member)
    (h : m.Location ≠ "header") (h2 : m.Location ≠ "headers") :
    blankBytes (restReqheadersMember E name m) = true := by
  unfold restReqheadersMember
  rw [if_neg h, if_neg h2]
  decide

/-! ### Where the fragments stand in the methods -/

theorem restMethodTail_in_json (E : Env) (svc : Service) (name : String) (op : Operation) :
    restMethodTail E op "\n\n  " (restJSONResponse E op) <:+: restJSONMethod E svc name op := by
  rw [restJSONMethod_eq]
  exact (List.suffix_append _ _).isInfix.trans (List.suffix_append _ _).isInfix

theorem restMethodTail_in_xml (E : Env) (svc : Service) (name : String) (op : Operation)
    (out : Out) (hout : restXMLMethod E svc name op = .ok out) :
    restMethodTail E op "\n\n\n  " (restXMLResponse E op) <:+: out := by
  obtain ⟨body, _, rfl⟩ := restXMLMethod_ok hout
  rw [restXMLMethodText_eq]
  exact (List.suffix_append _ _).isInfix.trans (List.suffix_append _ _).isInfix

theorem restFragments_in_tail (E : Env) (op : Operation) (gap : String) (response : Out) :
    restUri E op <:+: restMethodTail E op gap response
      ∧ restQuerystring E op <:+: restMethodTail E op gap response
      ∧ restReqheaders E op <:+: restMethodTail E op gap response := by
  have pre : ∀ {a b : Out} (c : Out), a <:+: b → a <:+: b ++ c :=
    fun _ h => h.trans (List.prefix_append _ _).isInfix
  have suf : ∀ (a b : Out), b <:+: a ++ b := fun a b => (List.suffix_append a b).isInfix
  unfold restMethodTail
  exact ⟨pre _ (pre _ (pre _ (pre _ (pre _ (pre _ (pre _ (suf _ _))))))),
    pre _ (pre _ (pre _ (pre _ (pre _ (suf _ _))))),
    pre _ (pre _ (pre _ (suf _ _)))⟩

theorem restInputMember_in_fragment (E : Env) (op : Operation) (name : String) (m : Member)
    (hmem : (name, m) ∈ inputMembers op) :
    restUriMember E name m <:+: restUri E op
      ∧ restQuerystringMember E name m <:+: restQuerystring E op
      ∧ restReqheadersMember E name m <:+: restReqheaders E op := by
  unfold inputMembers at hmem
  unfold restUri restQuerystring restReqheaders
  cases hI : op.Input with
  | none => rw [hI] at hmem; cases hmem
  | some i =>
    rw [hI] at hmem
    simp only []
    refine ⟨?_, ?_, ?_⟩ <;>
      exact ((infix_range _ _ _ _ hmem).trans
        ((List.infix_append _ _ _).trans (List.infix_append _ _ _)))

/-! ### The response-header fragment for a location it does not handle -/

theorem restRespheadersMember_todo_eq (E : Env) (name : String) (m : Member)
    (hname : name ≠ "Body") (hloc : unsupportedLocation m = true) :
    restRespheadersMember E name m
      = [.text "\n    ", .text "\n      ",
         .text "\n      // TODO: add support for extracting output members from ",
         .val m.Location, .text " to support ", .val (E.exportable name), .text "\n      ",
         .text "\n\n    ", .text "\n  "] := by
  unfold unsupportedLocation at hloc
  unfold restRespheadersMember
  split_ifs <;> simp_all

set_option maxRecDepth 100000 in
theorem restRespheadersMember_todo_tally (E : Env) (name : String) (m : Member)
    (hname : name ≠ "Body") (hloc : unsupportedLocation m = true) :
    tally "// TODO" ["// TODO"] (skeleton (restRespheadersMember E name m)) = some 1
      ∧ tally "=" ["="] (skeleton (restRespheadersMember E name m)) = some 0 := by
  rw [restRespheadersMember_todo_eq E name m hname hloc]
  simp only [skeleton, List.map_cons, List.map_nil]
  constructor <;> decide!

theorem restRespheadersMember_blankBytes (E : Env) (name : String) (m : Member)
    (hloc : m.Location = "") :
    blankBytes (restRespheadersMember E name m) = true :=
  blankBytes_of_blank _ (by rw [restRespheadersMember_blank]; simp [hloc])

set_option maxRecDepth 100000 in
/-- C4, counterexample: the output of `getObjectSpliced` has a streaming member
`Body`, yet the bytes of its method hold `httpResp.Body.Close()` in `rest-json`
and in `rest-xml`: the call comes from the `LocationName` of the member `ETag`,
which the response-header fragment writes as it is. -/
theorem C4_location_name_closes_body :
    (∃ o m, getObjectSpliced.Output = some o ∧ o.Members.lookup "Body" = some m
        ∧ m.Streaming = true)
      ∧ rendersText "httpResp.Body.Close()"
          (restJSONMethod (sampleEnv false) objectService "GetObject" getObjectSpliced) = true
      ∧ (∃ out, restXMLMethod (sampleEnv false) objectService "GetObject" getObjectSpliced
            = .ok out ∧ rendersText "httpResp.Body.Close()" out = true) := by
  refine ⟨⟨_, _, rfl, rfl, rfl⟩, by decide!, _, rfl, by decide!⟩

/-- C4 (amended): in `rest-xml` and `rest-json`, for every operation whose
output has a streaming member `Body`, the bytes of the rendered method hold
`resp.Body = httpResp.Body`, and they hold neither `httpResp.Body.Close()` nor
`Decode(resp)` provided that no value written from the model contains
`httpResp.Body.Close` or `Decode(resp`.  The `rest-xml` method is rendered
whenever `InputRef` is present with `Input`. -/
theorem C4_streaming_body_handed_over (E : Env) (svc : Service) (name : String)
    (op : Operation) (o : Shape) (m : Member)
    (hO : op.Output = some o) (hB : o.Members.lookup "Body" = some m)
    (hS : m.Streaming = true) :
    (∀ out, (restXMLMethod E svc name op = .ok out ∨ out = restJSONMethod E svc name op) →
        rendersText "resp.Body = httpResp.Body" out = true
          ∧ (valsAvoid ["httpResp.Body.Close", "Decode(resp"] out = true →
              rendersText "httpResp.Body.Close()" out = false
                ∧ rendersText "Decode(resp)" out = false))
      ∧ ((op.Input.isSome = true → op.InputRef.isSome = true) →
          ∃ out, restXMLMethod E svc name op = .ok out) := by
  have ht := streamingBody_texts E svc name op o m hO hB hS
  have hc : ("httpResp.Body.Close()", "httpResp.Body.Close") ∈ closePairs := by decide
  have hd : ("Decode(resp)", "Decode(resp") ∈ closePairs := by decide
  have hr := fun pat w (hm : (pat, w) ∈ closePairs) =>
    restResponse_streaming_sealed E op o m hO hB hS hm
  refine ⟨?_, ht.2.2⟩
  rintro out (hout | rfl)
  · obtain ⟨body, hb, rfl⟩ := restXMLMethod_ok hout
    have hh := ht.1 _ hout
    simp only [handsOverBody, Bool.and_eq_true] at hh
    refine ⟨rendersText_of_emitsText _ _ hh.1.1, fun hv => ?_⟩
    rw [restXMLMethodText_eq] at hv ⊢
    exact ⟨sealed_quiet (restMethod_sealed E svc name op body _ _ (closePairs_method hc)
          (by decide!) (restXMLBody_sealed hb (List.mem_append_left _ hc)) (hr _ _ hc).1) (by decide) (by decide) hv,
      sealed_quiet (restMethod_sealed E svc name op body _ _ (closePairs_method hd)
          (by decide!) (restXMLBody_sealed hb (List.mem_append_left _ hd)) (hr _ _ hd).1) (by decide) (by decide) hv⟩
  · have hh := ht.2.1
    simp only [handsOverBody, Bool.and_eq_true] at hh
    refine ⟨rendersText_of_emitsText _ _ hh.1.1, fun hv => ?_⟩
    rw [restJSONMethod_eq] at hv ⊢
    exact ⟨sealed_quiet (restMethod_sealed E svc name op _ _ _ (closePairs_method hc)
          (by decide!) (restJSONBody_sealed E op (List.mem_append_left _ hc)) (hr _ _ hc).2) (by decide) (by decide) hv,
      sealed_quiet (restMethod_sealed E svc name op _ _ _ (closePairs_method hd)
          (by decide!) (restJSONBody_sealed E op (List.mem_append_left _ hd)) (hr _ _ hd).2) (by decide) (by decide) hv⟩

/-- C4 witness: the operation `getObject`, whose values contain none of the two
texts. -/
theorem C4_streaming_body_handed_over_witness :
    valsAvoid ["httpResp.Body.Close", "Decode(resp"]
        (restJSONMethod (sampleEnv false) objectService "GetObject" getObject) = true
      ∧ rendersText "resp.Body = httpResp.Body"
          (restJSONMethod (sampleEnv false) objectService "GetObject" getObject) = true
      ∧ rendersText "httpResp.Body.Close()"
          (restJSONMethod (sampleEnv false) objectService "GetObject" getObject) = false
      ∧ rendersText "Decode(resp)"
          (restJSONMethod (sampleEnv false) objectService "GetObject" getObject) = false := by
  have h := (C4_streaming_body_handed_over (sampleEnv false) objectService "GetObject" getObject
    _ _ rfl rfl rfl).1 _ (Or.inr rfl)
  have hv : valsAvoid ["httpResp.Body.Close", "Decode(resp"]
      (restJSONMethod (sampleEnv false) objectService "GetObject" getObject) = true := by
    decide!
  exact ⟨hv, h.1, (h.2 hv).1, (h.2 hv).2⟩

set_option maxRecDepth 100000 in
/-- C5, counterexample: the input of `putObjectSpliced` declares the payload
member `Body`, which is among its members and is a stream, yet the bytes of its
method hold `json.Marshal` and an assignment `contentType = "text/plain"`, in
`rest-json` and in `rest-xml`: both come from the `LocationName` of the member
`Tag`, which the request-header fragment writes as it is. -/
theorem C5_location_name_marshals :
    (∃ i m, putObjectSpliced.Input = some i ∧ i.Payload ≠ ""
        ∧ i.Members.lookup i.Payload = some m ∧ m.Streaming = true)
      ∧ rendersText "json.Marshal"
          (restJSONMethod (sampleEnv false) objectService "PutObject" putObjectSpliced) = true
      ∧ rendersText "contentType = \"text/plain\""
          (restJSONMethod (sampleEnv false) objectService "PutObject" putObjectSpliced) = true
      ∧ (∃ out, restXMLMethod (sampleEnv false) objectService "PutObject" putObjectSpliced
            = .ok out ∧ rendersText "json.Marshal" out = true
          ∧ rendersText "contentType = \"text/plain\"" out = true) := by
  refine ⟨⟨_, _, rfl, by decide, rfl, rfl⟩, by decide!, by decide!, _, rfl, by decide!,
    by decide!⟩

/-- C5 (amended): in `rest-xml` and `rest-json`, for every operation whose input
declares a payload member that is among its members, the method is rendered
and its bytes are as follows.  When the member is a stream they hold
`body = req.<exported member name>` followed by a line break, and they hold no
`xml.Marshal`, no `json.Marshal` and no `contentType =` provided that no value
written from the model contains `xml.Marshal`, `json.Marshal` or `contentType`.
When the member is not a stream they hold the assignment of the media type of
the protocol to `contentType`, the call of the marshaller of the protocol on
`req.<exported member name>` and `body = bytes.NewReader(b)`. -/
theorem C5_payload_becomes_body (E : Env) (svc : Service) (name : String) (op : Operation)
    (i : Shape) (m : Member)
    (hI : op.Input = some i) (hP : i.Payload ≠ "")
    (hM : i.Members.lookup i.Payload = some m) :
    (∃ out, restXMLMethod E svc name op = .ok out
        ∧ (m.Streaming = true →
            rendersText ("body = req." ++ E.exportable m.Name ++ "\n") out = true
              ∧ (valsAvoid ["xml.Marshal", "json.Marshal", "contentType"] out = true →
                  rendersText "xml.Marshal" out = false
                    ∧ rendersText "json.Marshal" out = false
                    ∧ rendersText "contentType =" out = false))
        ∧ (m.Streaming = false →
            rendersText "contentType = \"application/xml\"" out = true
              ∧ rendersText ("xml.Marshal(req." ++ E.exportable m.Name ++ ")") out = true
              ∧ rendersText "body = bytes.NewReader(b)" out = true))
      ∧ (m.Streaming = true →
          rendersText ("body = req." ++ E.exportable m.Name ++ "\n")
              (restJSONMethod E svc name op) = true
            ∧ (valsAvoid ["xml.Marshal", "json.Marshal", "contentType"]
                  (restJSONMethod E svc name op) = true →
                rendersText "xml.Marshal" (restJSONMethod E svc name op) = false
                  ∧ rendersText "json.Marshal" (restJSONMethod E svc name op) = false
                  ∧ rendersText "contentType =" (restJSONMethod E svc name op) = false))
      ∧ (m.Streaming = false →
          rendersText "contentType = \"application/json\"" (restJSONMethod E svc name op) = true
            ∧ rendersText ("json.Marshal(req." ++ E.exportable m.Name ++ ")")
                (restJSONMethod E svc name op) = true
            ∧ rendersText "body = bytes.NewReader(b)" (restJSONMethod E svc name op) = true) := by
  have ht := payload_writes E svc name op i m hI hP hM
  have hx : ("xml.Marshal", "xml.Marshal") ∈ marshalPairs := by decide
  have hj : ("json.Marshal", "json.Marshal") ∈ marshalPairs := by decide
  have hc : ("contentType =", "contentType") ∈ marshalPairs := by decide
  obtain ⟨⟨out, hout, hxml⟩, hjson⟩ := ht
  refine ⟨⟨out, hout, ?_, ?_⟩, ?_, ?_⟩
  · intro hS
    rw [if_pos hS] at hxml
    refine ⟨rendersText_of_valBetween _ _ _ _ (by rw [hxml.1]; exact List.mem_singleton_self _),
      fun hv => ?_⟩
    have hb := restXMLBody_payload E op i m hI hP hM
    rw [if_pos hS] at hb
    obtain ⟨body, hbd, rfl⟩ := restXMLMethod_ok hout
    rw [hb] at hbd
    cases hbd
    rw [restXMLMethodText_eq] at hv ⊢
    exact ⟨sealed_quiet (restMethod_sealed E svc name op _ _ _ (marshalPairs_method hx)
          (by decide!) (streamingPayload_sealed E m hx).1 (restXMLResponse_sealed E op (List.mem_append_left _ hx)))
          (by decide) (by decide) hv,
      sealed_quiet (restMethod_sealed E svc name op _ _ _ (marshalPairs_method hj)
          (by decide!) (streamingPayload_sealed E m hj).1 (restXMLResponse_sealed E op (List.mem_append_left _ hj)))
          (by decide) (by decide) hv,
      sealed_quiet (restMethod_sealed E svc name op _ _ _ (marshalPairs_method hc)
          (by decide!) (streamingPayload_sealed E m hc).1 (restXMLResponse_sealed E op (List.mem_append_left _ hc)))
          (by decide) (by decide) hv⟩
  · intro hS
    rw [hS] at hxml
    simp only [Bool.false_eq_true, if_false, marshalsPayload] at hxml
    exact ⟨rendersText_of_emitsText _ _ hxml.1,
      rendersText_of_valBetween _ _ _ _ (by rw [hxml.2.1]; exact List.mem_singleton_self _),
      rendersText_of_emitsText _ _ hxml.2.2.1⟩
  · intro hS
    rw [if_pos hS] at hjson
    refine ⟨rendersText_of_valBetween _ _ _ _ (by rw [hjson.1]; exact List.mem_singleton_self _),
      fun hv => ?_⟩
    have hb := restJSONBody_payload E op i m hI hP hM
    rw [if_pos hS] at hb
    rw [restJSONMethod_eq, hb] at hv ⊢
    exact ⟨sealed_quiet (restMethod_sealed E svc name op _ _ _ (marshalPairs_method hx)
          (by decide!) (streamingPayload_sealed E m hx).2 (restJSONResponse_sealed E op (List.mem_append_left _ hx)))
          (by decide) (by decide) hv,
      sealed_quiet (restMethod_sealed E svc name op _ _ _ (marshalPairs_method hj)
          (by decide!) (streamingPayload_sealed E m hj).2 (restJSONResponse_sealed E op (List.mem_append_left _ hj)))
          (by decide) (by decide) hv,
      sealed_quiet (restMethod_sealed E svc name op _ _ _ (marshalPairs_method hc)
          (by decide!) (streamingPayload_sealed E m hc).2 (restJSONResponse_sealed E op (List.mem_append_left _ hc)))
          (by decide) (by decide) hv⟩
  · intro hS
    rw [hS] at hjson
    simp only [Bool.false_eq_true, if_false, marshalsPayload] at hjson
    exact ⟨rendersText_of_emitsText _ _ hjson.1,
      rendersText_of_valBetween _ _ _ _ (by rw [hjson.2.1]; exact List.mem_singleton_self _),
      rendersText_of_emitsText _ _ hjson.2.2.1⟩

set_option maxRecDepth 100000 in
/-- C5 witness: the operation `putObject`, with the payload member `Body` a
stream and not a stream; no value of its method contains one of the three
texts. -/
theorem C5_payload_becomes_body_witness :
    valsAvoid ["xml.Marshal", "json.Marshal", "contentType"]
        (restJSONMethod (sampleEnv false) objectService "PutObject" (putObject true)) = true
      ∧ rendersText "body = req.Body\n"
          (restJSONMethod (sampleEnv false) objectService "PutObject" (putObject true)) = true
      ∧ rendersText "json.Marshal"
          (restJSONMethod (sampleEnv false) objectService "PutObject" (putObject true)) = false
      ∧ rendersText "contentType ="
          (restJSONMethod (sampleEnv false) objectService "PutObject" (putObject true)) = false
      ∧ rendersText "json.Marshal(req.Body)"
          (restJSONMethod (sampleEnv false) objectService "PutObject" (putObject false)) = true := by
  have h := (C5_payload_becomes_body (sampleEnv false) objectService "PutObject"
    (putObject true) _ _ rfl (by decide) rfl).2.1 rfl
  have g := (C5_payload_becomes_body (sampleEnv false) objectService "PutObject"
    (putObject false) _ _ rfl (by decide) rfl).2.2 rfl
  have hv : valsAvoid ["xml.Marshal", "json.Marshal", "contentType"]
      (restJSONMethod (sampleEnv false) objectService "PutObject" (putObject true)) = true := by
    decide!
  exact ⟨hv, h.1, (h.2 hv).2.1, (h.2 hv).2.2, g.2.1⟩

set_option maxRecDepth 100000 in
/-- C6, counterexample: `taggedMember` is an input member of `putTagged` bound
to a header, and not the integer `Content-Length`, yet the bytes the
request-header fragment writes for it hold two calls of `httpReq.Header.Set`,
not one: the second call comes from its `LocationName`, which is written as it
is.  The second call, for a header `X-Other`, is in the bytes of the method. -/
theorem C6_location_name_sets_second_header :
    ("Tag", taggedMember) ∈ inputMembers putTagged
      ∧ taggedMember.Location = "header"
      ∧ isContentLength taggedMember = false
      ∧ occurrences "httpReq.Header.Set("
          (restReqheadersMember (sampleEnv false) "Tag" taggedMember) = 2
      ∧ rendersText "httpReq.Header.Set(\"X-Other\", *req.Tag)"
          (restJSONMethod (sampleEnv false) objectService "PutTagged" putTagged) = true := by
  refine ⟨List.Mem.head _, rfl, by decide, by decide!, by decide!⟩

/-- C6 (amended): for every REST operation and every input member, the shared
fragments route the member by its `Location`.  For `uri`, the bytes of
`rest-uri` hold the replacement of the placeholder `LocationName` and that of
the placeholder `LocationName+`, either in braces, by the path-escaped member.
For `querystring`, the bytes of `rest-querystring` hold `q.Set` keyed by
`LocationName`; for `header`, the bytes of `rest-reqheaders` hold
`httpReq.Header.Set` keyed by `LocationName`, except for an integer named
`Content-Length`, where they hold the assignment to `httpReq.ContentLength`.  The call is the only `q.Set(`, respectively the only
`Header.Set(`, in these bytes, and the `Content-Length` integer has none,
provided that neither the exported member name nor `LocationName` contains
`Set(`.  The bytes a fragment writes for a member of another location are white
space only.  The writes for the member are part of the fragment, and the
fragments are part of the `rest-json` method and of every rendered `rest-xml`
method. -/
theorem C6_members_routed_by_location (E : Env) (svc : Service) (opname : String)
    (op : Operation) (name : String) (m : Member) (hmem : (name, m) ∈ inputMembers op) :
    (m.Location = "uri" →
        rendersText ("strings.Replace(uri, \"\x7b\"+\"" ++ m.LocationName
            ++ "\"+\"\x7d\", aws.EscapePath(*req." ++ E.exportable name ++ "), -1)")
            (restUriMember E name m) = true
          ∧ rendersText ("strings.Replace(uri, \"\x7b\"+\"" ++ m.LocationName
              ++ "+\"+\"\x7d\", aws.EscapePath(*req." ++ E.exportable name ++ "), -1)")
              (restUriMember E name m) = true)
      ∧ (m.Location = "querystring" →
          rendersText ("q.Set(\"" ++ m.LocationName ++ "\", ")
              (restQuerystringMember E name m) = true
            ∧ (avoids ["Set("] (E.exportable name) = true →
                avoids ["Set("] m.LocationName = true →
                occurrences "q.Set(" (restQuerystringMember E name m) = 1))
      ∧ (m.Location = "header" → isContentLength m = false →
          rendersText ("httpReq.Header.Set(\"" ++ m.LocationName ++ "\", ")
              (restReqheadersMember E name m) = true
            ∧ (avoids ["Set("] (E.exportable name) = true →
                avoids ["Set("] m.LocationName = true →
                occurrences "Header.Set(" (restReqheadersMember E name m) = 1))
      ∧ (m.Location = "header" → isContentLength m = true →
          rendersText ("httpReq.ContentLength = *req." ++ E.exportable name ++ "\n")
              (restReqheadersMember E name m) = true
            ∧ (avoids ["Set("] (E.exportable name) = true →
                occurrences "Header.Set(" (restReqheadersMember E name m) = 0))
      ∧ ((m.Location ≠ "uri" → blankBytes (restUriMember E name m) = true)
          ∧ (m.Location ≠ "querystring" → blankBytes (restQuerystringMember E name m) = true)
          ∧ (m.Location ≠ "header" → m.Location ≠ "headers" →
              blankBytes (restReqheadersMember E name m) = true))
      ∧ (restUriMember E name m <:+: restUri E op
          ∧ restQuerystringMember E name m <:+: restQuerystring E op
          ∧ restReqheadersMember E name m <:+: restReqheaders E op)
      ∧ (∀ out, (restXMLMethod E svc opname op = .ok out
            ∨ out = restJSONMethod E svc opname op) →
          restUri E op <:+: out ∧ restQuerystring E op <:+: out
            ∧ restReqheaders E op <:+: out) := by
  refine ⟨?_, ?_, ?_, ?_, ⟨restUriMember_blank E name m, restQuerystringMember_blank E name m,
    restReqheadersMember_blank E name m⟩, restInputMember_in_fragment E op name m hmem, ?_⟩
  · intro hL
    unfold restUriMember
    rw [if_pos hL]
    constructor
    · exact rendersText_framed _ "strings.Replace(uri, \"\x7b\"+\"" "), -1)" _ _
        [.val m.LocationName, .text "\"+\"\x7d\", aws.EscapePath(*req.",
          .val (E.exportable name)]
        [.text "\n  ", .text "\n\n  if req.", .val (E.exportable name)] _
        (by decide) (by decide)
        (by simp [Out.bytes, Emit.str, String.data_append])
    · exact rendersText_framed _ "strings.Replace(uri, \"\x7b\"+\"" "), -1)" _ _
        [.val m.LocationName, .text "+\"+\"\x7d\", aws.EscapePath(*req.",
          .val (E.exportable name)]
        [.text "\n  ", .text "\n\n  if req.", .val (E.exportable name),
          .text " != nil \x7b\n    uri = strings.Replace(uri, \"\x7b\"+\"",
          .val m.LocationName,
          .text "\"+\"\x7d\", aws.EscapePath(*req.",
          .val (E.exportable name)] _
        (by decide) (by decide)
        (by simp [Out.bytes, Emit.str, String.data_append])
  · intro hL
    refine ⟨rendersText_of_valBetween _ _ _ _ ?_, fun h1 h2 => ?_⟩
    · rw [(restQuerystringMember_routing E name m).1, if_pos hL]
      exact List.mem_singleton_self _
    · have ht := restQuerystringMember_tally E name m
      rw [if_pos hL] at ht
      exact tally_sound _ _ _ _ ht (valsAvoid_of_avoids _ _ _
        (restQuerystringMember_vals E name m) (by simp [h1, h2]))
  · intro hL hC
    refine ⟨rendersText_of_valBetween _ _ _ _ ?_, fun h1 h2 => ?_⟩
    · rw [(restReqheadersMember_routing E name m).1, if_pos ⟨hL, hC⟩]
      exact List.mem_singleton_self _
    · have ht := (restReqheadersMember_tally E name m).1
      rw [if_pos hL, hC] at ht
      exact tally_sound _ _ _ _ ht (valsAvoid_of_avoids _ _ _
        (restReqheadersMember_vals E name m) (by simp [h1, h2]))
  · intro hL hC
    refine ⟨rendersText_of_valBetween _ _ _ _ ?_, fun h1 => ?_⟩
    · rw [(restReqheadersMember_routing E name m).2.1, if_pos ⟨hL, hC⟩]
      exact List.mem_singleton_self _
    · have ht := (restReqheadersMember_tally E name m).1
      rw [if_pos hL, hC] at ht
      have hn : m.LocationName = "Content-Length" := by
        simp only [isContentLength, Bool.and_eq_true, decide_eq_true_eq] at hC
        exact hC.2
      have h2 : avoids ["Set("] m.LocationName = true := by rw [hn]; decide
      exact tally_sound _ _ _ _ ht (valsAvoid_of_avoids _ _ _
        (restReqheadersMember_vals E name m) (by simp [h1, h2]))
  · rintro out (hout | rfl)
    · have ht := restMethodTail_in_xml E svc opname op out hout
      have hf := restFragments_in_tail E op "\n\n\n  " (restXMLResponse E op)
      exact ⟨hf.1.trans ht, hf.2.1.trans ht, hf.2.2.trans ht⟩
    · have ht := restMethodTail_in_json E svc opname op
      have hf := restFragments_in_tail E op "\n\n  " (restJSONResponse E op)
      exact ⟨hf.1.trans ht, hf.2.1.trans ht, hf.2.2.trans ht⟩

set_option maxRecDepth 100000 in
/-- C6 witness: the member `ContentLength` of `putObject`, an integer bound to
the header `Content-Length`. -/
theorem C6_members_routed_by_location_witness :
    ("ContentLength", contentLengthMember) ∈ inputMembers (putObject true)
      ∧ rendersText "httpReq.ContentLength = *req.ContentLength\n"
          (restReqheadersMember (sampleEnv false) "ContentLength" contentLengthMember) = true
      ∧ occurrences "Header.Set("
          (restReqheadersMember (sampleEnv false) "ContentLength" contentLengthMember) = 0
      ∧ blankBytes (restUriMember (sampleEnv false) "ContentLength" contentLengthMember)
          = true := by
  have hmem : ("ContentLength", contentLengthMember) ∈ inputMembers (putObject true) :=
    List.Mem.tail _ (List.Mem.head _)
  have h := C6_members_routed_by_location (sampleEnv false) objectService "PutObject"
    (putObject true) "ContentLength" contentLengthMember hmem
  have h4 := h.2.2.2.1 rfl (by decide)
  exact ⟨hmem, h4.1, h4.2 (by decide), h.2.2.2.2.1.1 (by decide)⟩

set_option maxRecDepth 100000 in
/-- C11, counterexample: `splicedTrailer` is an output member of `headSpliced`
not named `Body`, and its `Location` is not empty and none of `header`,
`headers`, `statusCode`, yet the bytes the response-header fragment writes for
it hold the assignment `resp.Trailer = nil` on a line of its own: the line
break and the assignment come from the `Location`, which is written into the
`TODO` comment as it is.  The assignment is in the bytes of the method. -/
theorem C11_location_assigns_field :
    (∃ o, headSpliced.Output = some o ∧ ("Trailer", splicedTrailer) ∈ o.Members)
      ∧ ("Trailer" : String) ≠ "Body"
      ∧ unsupportedLocation splicedTrailer = true
      ∧ rendersText "\n      resp.Trailer = nil"
          (restRespheadersMember (sampleEnv false) "Trailer" splicedTrailer) = true
      ∧ occurrences "=" (restRespheadersMember (sampleEnv false) "Trailer" splicedTrailer) = 1
      ∧ rendersText "\n      resp.Trailer = nil"
          (restJSONMethod (sampleEnv false) objectService "HeadSpliced" headSpliced) = true := by
  refine ⟨⟨_, rfl, List.Mem.head _⟩, by decide, by decide, by decide!, by decide!, by decide!⟩

/-- C11 (amended): for every REST operation with an output and every output
member not named `Body`, the bytes the response-header fragment writes for the
member depend on its `Location`.  For `header` they hold the read of the
response header `LocationName` guarded by non-emptiness; for `headers` the
population of the map from the headers with the prefix `X-Amz-Meta-`; for
`statusCode` the assignment of the HTTP status.  For any other `Location` that
is not empty they hold the `TODO` comment that names the location and the
member, and, provided that neither the location nor the exported member name
contains `// TODO` or `=`, they hold `// TODO` exactly once and no `=`.  For
an empty `Location` they are white space only.  The writes for the member are
part of the fragment, and the fragment is part of the `rest-json` method and of
every rendered `rest-xml` method. -/
theorem C11_output_members_dispatched (E : Env) (svc : Service) (opname : String)
    (op : Operation) (o : Shape) (name : String) (m : Member)
    (hO : op.Output = some o) (hmem : (name, m) ∈ o.Members) (hname : name ≠ "Body") :
    (m.Location = "header" →
        rendersText ("if s := httpResp.Header.Get(\"" ++ m.LocationName ++ "\"); s != \"\" \x7b")
          (restRespheadersMember E name m) = true)
      ∧ (m.Location = "headers" →
          rendersText ("resp." ++ E.exportable name ++ " = " ++ m.Shape.GoType
              ++ "\x7b\x7d\n      for name := range httpResp.Header \x7b\n        if strings.HasPrefix(name, \"X-Amz-Meta-\") \x7b\n          resp."
              ++ E.exportable name ++ "[name] = httpResp.Header.Get(name)")
            (restRespheadersMember E name m) = true)
      ∧ (m.Location = "statusCode" →
          rendersText ("resp." ++ E.exportable name ++ " = aws.Integer(httpResp.StatusCode)")
            (restRespheadersMember E name m) = true)
      ∧ (unsupportedLocation m = true →
          rendersText ("// TODO: add support for extracting output members from "
              ++ m.Location ++ " to support " ++ E.exportable name ++ "\n")
            (restRespheadersMember E name m) = true
            ∧ (avoids ["// TODO", "="] m.Location = true →
                avoids ["// TODO", "="] (E.exportable name) = true →
                occurrences "// TODO" (restRespheadersMember E name m) = 1
                  ∧ occurrences "=" (restRespheadersMember E name m) = 0))
      ∧ (m.Location = "" → blankBytes (restRespheadersMember E name m) = true)
      ∧ restRespheadersMember E name m <:+: restRespheaders E o
      ∧ restRespheaders E o <:+: restJSONMethod E svc opname op
      ∧ (∀ out, restXMLMethod E svc opname op = .ok out → restRespheaders E o <:+: out) := by
  refine ⟨?_, ?_, ?_, ?_, restRespheadersMember_blankBytes E name m,
    restRespheadersMember_in_fragment E o name m hmem,
    restRespheaders_in_json E svc opname op o hO,
    fun out hout => restRespheaders_in_xml E svc opname op o hO out hout⟩
  · intro hL
    unfold restRespheadersMember restRespheaderValue
    rw [if_pos hname, if_pos hL]
    exact rendersText_framed _ "if s := httpResp.Header.Get(\"" "\"); s != \"\" \x7b" _ _
      [.val m.LocationName] [.text "\n    ", .text "\n      "] _
      (by decide) (by decide) (by simp [Out.bytes, Emit.str, String.data_append])
  · intro hL
    have h1 : m.Location ≠ "header" := by rw [hL]; decide
    unfold restRespheadersMember
    rw [if_pos hname, if_neg h1, if_pos hL]
    exact rendersText_framed _ "resp." "[name] = httpResp.Header.Get(name)" _ _
      [.val (E.exportable name), .text " = ", .val m.Shape.GoType,
        .text "\x7b\x7d\n      for name := range httpResp.Header \x7b\n        if strings.HasPrefix(name, \"X-Amz-Meta-\") \x7b\n          resp.",
        .val (E.exportable name)]
      [.text "\n    ", .text "\n      "] _
      (by decide) (by decide) (by simp [Out.bytes, Emit.str, String.data_append])
  · intro hL
    refine rendersText_of_valBetween _ _ _ _ ?_
    rw [restRespheadersMember_status, if_pos ⟨hname, hL⟩]
    exact List.mem_singleton_self _
  · intro hU
    have heq := restRespheadersMember_todo_eq E name m hname hU
    have ht := restRespheadersMember_todo_tally E name m hname hU
    have hvals := (restRespheadersMember_unsupported E name m hname hU).2.1
    refine ⟨?_, fun h1 h2 => ?_⟩
    · rw [heq]
      exact rendersText_framed _ "// TODO: add support for extracting output members from "
        "\n" _ _ [.val m.Location, .text " to support ", .val (E.exportable name)]
        [.text "\n    ", .text "\n      "] _
        (by decide) (by decide) (by simp [Out.bytes, Emit.str, String.data_append])
    · simp only [avoids, List.all_cons, List.all_nil, Bool.and_true, Bool.and_eq_true] at h1 h2
      constructor
      · refine tally_sound _ _ _ _ ht.1 ?_
        unfold valsAvoid
        rw [hvals]
        simp [h1.1, h2.1]
      · refine tally_sound _ _ _ _ ht.2 ?_
        unfold valsAvoid
        rw [hvals]
        simp [h1.2, h2.2]

set_option maxRecDepth 100000 in
/-- C11 witness: the member `Trailer` of `headObject`, bound to the location
`trailer`. -/
theorem C11_output_members_dispatched_witness :
    headObject.Output.isSome = true
      ∧ ("Trailer" : String) ≠ "Body"
      ∧ unsupportedLocation trailerMember = true
      ∧ rendersText
          "// TODO: add support for extracting output members from trailer to support Trailer\n"
          (restRespheadersMember (sampleEnv false) "Trailer" trailerMember) = true
      ∧ occurrences "// TODO" (restRespheadersMember (sampleEnv false) "Trailer" trailerMember)
          = 1
      ∧ occurrences "=" (restRespheadersMember (sampleEnv false) "Trailer" trailerMember)
          = 0 := by
  have h := (C11_output_members_dispatched (sampleEnv false) objectService "HeadObject"
    headObject _ "Trailer" trailerMember rfl
    (by repeat (first | exact List.Mem.head _ | apply List.Mem.tail))
    (by decide)).2.2.2.1 (by decide)
  exact ⟨rfl, by decide, by decide, h.1, h.2 (by decide) (by decide)⟩

/-! ### The bytes of a `query` or `ec2` method -/

set_option maxRecDepth 100000 in
set_option maxHeartbeats 1600000 in
/-- How often the bytes of a rendered `query` method hold the declaration, the
initialisation and the passing on of `resp` and of `req`, for an operation that
has each shape exactly when it has the reference to it, whatever the values
are, as long as no value contains the text paired with the pattern. -/
theorem queryMethod_tally (E : Env) (svc : Service) (name : String) (op : Operation)
    (out : Out) (h : queryMethod E svc name op = .ok out)
    (hI : op.Input.isSome = op.InputRef.isSome) (hO : op.Output.isSome = op.OutputRef.isSome) :
    tally "(resp " ["(resp"] (skeleton out) = some (if op.OutputRef.isSome then 1 else 0)
      ∧ tally "\x7b\n  resp = " ["\x7b\n  resp ="] (skeleton out)
          = some (if op.OutputRef.isSome then 1 else 0)
      ∧ tally ",  resp )" [",  resp "] (skeleton out)
          = some (if op.OutputRef.isSome then 1 else 0)
      ∧ tally ",  nil )" [",  nil "] (skeleton out)
          = some (if op.OutputRef.isSome then 0 else 1)
      ∧ tally "(req " ["(req"] (skeleton out) = some (if op.InputRef.isSome then 1 else 0)
      ∧ tally "\",  req , " [",  req "] (skeleton out)
          = some (if op.InputRef.isSome then 1 else 0)
      ∧ tally "\",  nil , " [",  nil "] (skeleton out)
          = some (if op.InputRef.isSome then 0 else 1) := by
  obtain ⟨init, rfl, hinit⟩ := queryMethod_cases E svc name op out h
  unfold queryMethodText
  rcases hinit with ⟨hOv, rfl⟩ | ⟨o, r, hOv, hOR, rfl⟩
  · have hOR : op.OutputRef = none := by
      rw [hOv] at hO
      cases hr : op.OutputRef with
      | none => rfl
      | some r => rw [hr] at hO; cases hO
    cases hIv : op.Input <;> cases hIR : op.InputRef <;> rw [hIv, hIR] at hI <;>
      first
        | (exfalso; simp at hI; done)
        | (simp only [hOv, hOR, skeleton, List.cons_append, List.nil_append, List.append_nil,
            List.map_cons, List.map_nil, List.append_assoc, Option.isSome_some,
            Option.isSome_none, if_true, Bool.false_eq_true, if_false]
           refine ⟨?_, ?_, ?_, ?_, ?_, ?_, ?_⟩ <;> decide!)
  · cases hIv : op.Input <;> cases hIR : op.InputRef <;> rw [hIv, hIR] at hI <;>
      first
        | (exfalso; simp at hI; done)
        | (simp only [hOv, hOR, skeleton, List.cons_append, List.nil_append, List.append_nil,
            List.map_cons, List.map_nil, List.append_assoc, Option.isSome_some,
            Option.isSome_none, if_true, Bool.false_eq_true, if_false]
           refine ⟨?_, ?_, ?_, ?_, ?_, ?_, ?_⟩ <;> decide!)

/-- The bytes of a rendered `query` method hold the declaration of `resp` with
the wrapped type and its initialisation with the wrapped literal when the
operation has an output, and the declaration of `req` with the wrapped type
when it has an input. -/
theorem queryMethod_declares (E : Env) (svc : Service) (name : String) (op : Operation)
    (out : Out) (h : queryMethod E svc name op = .ok out)
    (hO : op.Output.isSome = op.OutputRef.isSome) :
    (∀ r, op.OutputRef = some r →
        rendersText ("(resp " ++ r.WrappedType ++ ", err error)") out = true
          ∧ rendersText ("\x7b\n  resp = " ++ r.WrappedLiteral ++ "\n") out = true)
      ∧ (∀ r, op.InputRef = some r →
          rendersText ("(req " ++ r.WrappedType ++ ") (") out = true) := by
  obtain ⟨init, rfl, hinit⟩ := queryMethod_cases E svc name op out h
  unfold queryMethodText
  constructor
  · intro r hOR
    rcases hinit with ⟨hOv, rfl⟩ | ⟨o, r1, hOv, hOR1, rfl⟩
    · rw [hOv, hOR] at hO
      cases hO
    · rw [hOR] at hOR1
      cases hOR1
      cases hIR : op.InputRef with
      | none =>
        simp only [hOR, List.append_assoc, List.cons_append, List.nil_append]
        exact ⟨rendersText_framed _ "(" " err error)" _ _
            [.text "resp ", .val r.WrappedType, .text ","]
            [.text "\n\n", .val (E.godoc name op.Documentation), .text " func (c *",
              .val svc.Name, .text ") ", .val (E.exportable name), .text "("] _
            (by decide) (by decide) (by simp [Out.bytes, Emit.str, String.data_append]),
          rendersText_framed _ "\x7b\n  " "\n" _ _ [.text "resp = ", .val r.WrappedLiteral]
            [.text "\n\n", .val (E.godoc name op.Documentation), .text " func (c *",
              .val svc.Name, .text ") ", .val (E.exportable name), .text "(", .text ") (",
              .text "resp ", .val r.WrappedType, .text ","] _
            (by decide) (by decide) (by simp [Out.bytes, Emit.str, String.data_append])⟩
      | some ri =>
        simp only [hOR, List.append_assoc, List.cons_append, List.nil_append]
        exact ⟨rendersText_framed _ "(" " err error)" _ _
            [.text "resp ", .val r.WrappedType, .text ","]
            [.text "\n\n", .val (E.godoc name op.Documentation), .text " func (c *",
              .val svc.Name, .text ") ", .val (E.exportable name), .text "(",
              .text "req ", .val ri.WrappedType] _
            (by decide) (by decide) (by simp [Out.bytes, Emit.str, String.data_append]),
          rendersText_framed _ "\x7b\n  " "\n" _ _ [.text "resp = ", .val r.WrappedLiteral]
            [.text "\n\n", .val (E.godoc name op.Documentation), .text " func (c *",
              .val svc.Name, .text ") ", .val (E.exportable name), .text "(",
              .text "req ", .val ri.WrappedType, .text ") (",
              .text "resp ", .val r.WrappedType, .text ","] _
            (by decide) (by decide) (by simp [Out.bytes, Emit.str, String.data_append])⟩
  · intro r hIR
    simp only [hIR, List.append_assoc, List.cons_append, List.nil_append]
    exact rendersText_framed _ "(" ") (" _ _ [.text "req ", .val r.WrappedType]
      [.text "\n\n", .val (E.godoc name op.Documentation), .text " func (c *",
        .val svc.Name, .text ") ", .val (E.exportable name)] _
      (by decide) (by decide) (by simp [Out.bytes, Emit.str, String.data_append])

set_option maxRecDepth 100000 in
/-- C9, as stated, fails: `pingSpliced` has no input and no output, and no
reference to either, yet the bytes of its `query` method (and of its `ec2`
method, the same text) pass `req` to `c.client.Do` while no `req` is declared:
the argument comes from the request URI, which is written into the call as it
is. -/
theorem C9_request_uri_passes_req :
    pingSpliced.Input.isSome = pingSpliced.InputRef.isSome
      ∧ pingSpliced.Output.isSome = pingSpliced.OutputRef.isSome
      ∧ ∃ out, queryMethod (sampleEnv false) pingService "Ping" pingSpliced = .ok out
          ∧ ec2Method (sampleEnv false) pingService "Ping" pingSpliced = .ok out
          ∧ occurrences "(req " out = 0
          ∧ rendersText "err = c.client.Do(\"Ping\", \"POST\", \"/\",  req ,  nil )\n" out
              = true := by
  refine ⟨rfl, rfl, _, rfl, rfl, by decide!, by decide!⟩

/-- C9, amended: for an operation that has each of its shapes present exactly
when the reference to it is (as the service model holds them), the `query`
method and the `ec2` method (the same text) are rendered.  The template text is
self-consistent: it declares `resp` of type `OutputRef.WrappedType` exactly when
it initialises `resp = OutputRef.WrappedLiteral` and passes `resp` rather than
`nil` to `c.client.Do`, and declares `req` of type `InputRef.WrappedType`
exactly when it passes `req` rather than `nil`; each of these happens exactly
when the reference is present.  The bytes hold the declaration and the
initialisation of `resp` and the declaration of `req` with these types and this
literal.  Provided that no value written from the model contains `(resp`, the
opening brace and line break followed by `  resp =`, `,  resp `, `(req`,
`,  req ` or `,  nil `, the bytes hold each of the declaration, the
initialisation and the passing on of `resp` once when `OutputRef` is present
and not at all otherwise, when `nil` is passed instead, and the same for `req`
and `InputRef`. -/
theorem C9_wrapped_types_consistent (E : Env) (svc : Service) (name : String)
    (op : Operation) (hI : op.Input.isSome = op.InputRef.isSome)
    (hO : op.Output.isSome = op.OutputRef.isSome) :
    ∃ out, queryMethod E svc name op = .ok out ∧ ec2Method E svc name op = .ok out
      ∧ selfConsistent out
      ∧ respTypes out = (op.OutputRef.map fun r => r.WrappedType).toList
      ∧ respInits out = (op.OutputRef.map fun r => r.WrappedLiteral).toList
      ∧ passesResp out = op.OutputRef.isSome
      ∧ reqTypes out = (op.InputRef.map fun r => r.WrappedType).toList
      ∧ passesReq out = op.InputRef.isSome
      ∧ (∀ r, op.OutputRef = some r →
          rendersText ("(resp " ++ r.WrappedType ++ ", err error)") out = true
            ∧ rendersText ("\x7b\n  resp = " ++ r.WrappedLiteral ++ "\n") out = true)
      ∧ (∀ r, op.InputRef = some r →
          rendersText ("(req " ++ r.WrappedType ++ ") (") out = true)
      ∧ (valsAvoid ["(resp", "\x7b\n  resp =", ",  resp ", "(req", ",  req ", ",  nil "] out
            = true →
          occurrences "(resp " out = (if op.OutputRef.isSome then 1 else 0)
            ∧ occurrences "\x7b\n  resp = " out = (if op.OutputRef.isSome then 1 else 0)
            ∧ occurrences ",  resp )" out = (if op.OutputRef.isSome then 1 else 0)
            ∧ occurrences ",  nil )" out = (if op.OutputRef.isSome then 0 else 1)
            ∧ occurrences "(req " out = (if op.InputRef.isSome then 1 else 0)
            ∧ occurrences "\",  req , " out = (if op.InputRef.isSome then 1 else 0)
            ∧ occurrences "\",  nil , " out = (if op.InputRef.isSome then 0 else 1)) := by
  obtain ⟨out, hout⟩ := queryMethod_renders E svc name op (fun h => by rw [← hO]; exact h)
  obtain ⟨h1, h2, h3, h4, h5⟩ := queryMethod_shows E svc name op out hout
  obtain ⟨t1, t2, t3, t4, t5, t6, t7⟩ := queryMethod_tally E svc name op out hout hI hO
  obtain ⟨d1, d2⟩ := queryMethod_declares E svc name op out hout hO
  refine ⟨out, hout, hout, ?_, h1, ?_, ?_, h4, ?_, d1, d2, fun hv => ?_⟩
  · unfold selfConsistent
    rw [h1, h2, h3, h4, h5]
    cases hIv : op.Input <;> cases hOv : op.Output <;> cases hIR : op.InputRef <;>
      cases hOR : op.OutputRef <;> simp_all
  · rw [h2]
    cases hOv : op.Output <;> cases hOR : op.OutputRef <;> simp_all
  · rw [h3, hO]
  · rw [h5, hI]
  · have hm : ∀ w, w ∈ ["(resp", "\x7b\n  resp =", ",  resp ", "(req", ",  req ", ",  nil "] →
        valsAvoid [w] out = true :=
      fun w hw => valsAvoid_mono (fun x hx => by rw [List.mem_singleton.mp hx]; exact hw) out hv
    exact ⟨tally_sound _ _ _ _ t1 (hm _ (by decide)), tally_sound _ _ _ _ t2 (hm _ (by decide)),
      tally_sound _ _ _ _ t3 (hm _ (by decide)), tally_sound _ _ _ _ t4 (hm _ (by decide)),
      tally_sound _ _ _ _ t5 (hm _ (by decide)), tally_sound _ _ _ _ t6 (hm _ (by decide)),
      tally_sound _ _ _ _ t7 (hm _ (by decide))⟩

set_option maxRecDepth 100000 in
/-- C9 witness: the operation `Describe`, with input and output and both
references: `resp` is declared as `*DescribeResult`, initialised with
`&DescribeResult{}` and passed on, and `req` is declared and passed on, each
once in the bytes. -/
theorem C9_wrapped_types_consistent_witness :
    describeOperation.Input.isSome = describeOperation.InputRef.isSome
      ∧ describeOperation.Output.isSome = describeOperation.OutputRef.isSome
      ∧ ∃ out, queryMethod (sampleEnv false) stackService "Describe" describeOperation
            = .ok out
          ∧ selfConsistent out
          ∧ respTypes out = ["*DescribeResult"]
          ∧ respInits out = ["&DescribeResult\x7b\x7d"]
          ∧ reqTypes out = ["*DescribeInput"]
          ∧ rendersText "(resp *DescribeResult, err error)" out = true
          ∧ valsAvoid ["(resp", "\x7b\n  resp =", ",  resp ", "(req", ",  req ", ",  nil "] out
              = true
          ∧ occurrences "(resp " out = 1
          ∧ occurrences ",  resp )" out = 1
          ∧ occurrences ",  nil )" out = 0 := by
  obtain ⟨out, h1, _, h3, h4, h5, _, h7, _, h9, _, h11⟩ :=
    C9_wrapped_types_consistent (sampleEnv false) stackService "Describe" describeOperation
      rfl rfl
  have ho : out = queryMethodText (sampleEnv false) stackService "Describe" describeOperation
      [.text "resp = ", .val "&DescribeResult\x7b\x7d"] := (Except.ok.inj h1).symm
  have hv : valsAvoid ["(resp", "\x7b\n  resp =", ",  resp ", "(req", ",  req ", ",  nil "] out
      = true := by
    rw [ho]
    decide!
  have hc := h11 hv
  exact ⟨rfl, rfl, out, h1, h3, h4, h5, h7, (h9 _ rfl).1, hv, hc.1, hc.2.2.1, hc.2.2.2.1⟩

/-! ### Counting over ranges -/

theorem sealed_cast {pat : String} {bad : List String} {out : Out} {n m : Nat}
    (h : Sealed pat bad out n) (e : n = m) : Sealed pat bad out m :=
  e ▸ h

theorem sealed_range_count {α : Type} {pat : String} {bad : List String}
    (hp : '\n' ∉ pat.data.tail) (body : String → α → Out) (c : String × α → Nat)
    (h : ∀ k v, Sealed pat bad (body k v) (c (k, v))) (l : List (String × α)) :
    Sealed pat bad (range body l) (l.map c).sum := by
  induction l with
  | nil => exact sealed_nil pat bad
  | cons kv rest ih =>
    obtain ⟨k, v⟩ := kv
    exact sealed_append hp (h k v) ih

theorem sealed_rangeE {α : Type} {pat : String} {bad : List String}
    (hp : '\n' ∉ pat.data.tail) (body : String → α → Except Error Out)
    (h : ∀ k v out, body k v = .ok out → Sealed pat bad out 0) :
    ∀ (l : List (String × α)) (ms : Out), rangeE body l = .ok ms → Sealed pat bad ms 0 := by
  intro l
  induction l with
  | nil =>
    intro ms hms
    cases hms
    exact sealed_nil pat bad
  | cons kv rest ih =>
    obtain ⟨k, v⟩ := kv
    intro ms hms
    unfold rangeE at hms
    split at hms
    · cases hms
    · next a ha =>
      split at hms
      · cases hms
      · next b hb =>
        cases hms
        exact sealed_append0 hp (h k v a ha) (ih b hb)

theorem sum_map_ite {α : Type} (l : List α) (p : α → Bool) :
    (l.map fun x => if p x then 1 else 0).sum = (l.filter p).length := by
  induction l with
  | nil => rfl
  | cons x rest ih =>
    cases hx : p x <;> simp [List.filter, hx, ih]
    omega

theorem sum_map_one {α : Type} (l : List α) : (l.map fun _ => 1).sum = l.length := by
  induction l with
  | nil => rfl
  | cons x rest ih => simp [ih]; omega

/-! ### The bytes of a constant block -/

theorem enumLines_bytes (l : List (String × String)) :
    (Out.bytes (range (fun name value => [Emit.text "\n", .val name, .text " = ", .val value])
      l)).data = (constLines l).data := by
  induction l with
  | nil => rfl
  | cons e rest ih =>
    obtain ⟨n, v⟩ := e
    simp only [range, bytes_data_append, ih, constLines, String.data_append]
    simp [Out.bytes, Emit.str]

theorem shapeBody_enum_bytes (E : Env) (svc : Service) (opening : String)
    (tag : Shape → Member → String) (closing : String → Out) (name : String) (s : Shape)
    (hT : s.ShapeType ≠ "structure") (hE : s.Enum = true) :
    (shapeBody E svc opening tag closing name s).bytes
      = "\n\n// Possible values for " ++ svc.Name ++ ".\nconst (\n" ++ constLines s.Enums
          ++ "\n)\n\n" := by
  apply String.ext
  rw [shapeBody_enum E svc opening tag closing name s hT hE, bytes_data_append,
    bytes_data_append, enumLines_bytes]
  simp [Out.bytes, Emit.str, String.data_append]

/-- A piece whose writes are known up to its values, checked on these writes. -/
theorem sealed_check {pat : String} {bad : List String} {out : Out} (n : Nat)
    (sk : List (Option String)) (hsk : skeleton out = sk)
    (h : (nlSkeleton sk && tally pat bad sk == some n) = true) : Sealed pat bad out n := by
  subst hsk
  rw [Bool.and_eq_true] at h
  exact sealed_leaf h.1 (by simpa using h.2)

set_option maxRecDepth 100000 in
theorem enumLine_sealed (k v : String) :
    Sealed "const (" ["const"] [Emit.text "\n", .val k, .text " = ", .val v] 0
      ∧ Sealed " = " ["="] [Emit.text "\n", .val k, .text " = ", .val v] 1
      ∧ Sealed " struct \x7b" ["struct"] [Emit.text "\n", .val k, .text " = ", .val v] 0 :=
  ⟨sealed_check 0 [some "\n", none, some " = ", none] rfl (by decide!),
   sealed_check 1 [some "\n", none, some " = ", none] rfl (by decide!),
   sealed_check 0 [some "\n", none, some " = ", none] rfl (by decide!)⟩

set_option maxRecDepth 100000 in
theorem shapeBody_enum_sealed (E : Env) (svc : Service) (opening : String)
    (tag : Shape → Member → String) (closing : String → Out) (name : String) (s : Shape)
    (hT : s.ShapeType ≠ "structure") (hE : s.Enum = true) :
    Sealed "const (" ["const"] (shapeBody E svc opening tag closing name s) 1
      ∧ Sealed " = " ["="] (shapeBody E svc opening tag closing name s) s.Enums.length
      ∧ Sealed " struct \x7b" ["struct"] (shapeBody E svc opening tag closing name s) 0 := by
  rw [shapeBody_enum E svc opening tag closing name s hT hE]
  have hsk : skeleton [Emit.text "\n", .text "\n// Possible values for ", .val svc.Name,
      .text ".\nconst (\n"]
      = [some "\n", some "\n// Possible values for ", none, some ".\nconst (\n"] := rfl
  have hend : skeleton [Emit.text "\n)\n", .text "\n"] = [some "\n)\n", some "\n"] := rfl
  refine ⟨?_, ?_, ?_⟩
  · refine sealed_cast (sealed_append (by decide)
      (sealed_check 1 _ hsk (by decide!))
      (sealed_append (by decide)
        (sealed_range_count (by decide) _ (fun _ => 0)
          (fun k v => (enumLine_sealed k v).1) s.Enums)
        (sealed_check 0 _ hend (by decide!)))) ?_
    simp
  · refine sealed_cast (sealed_append (by decide)
      (sealed_check 0 _ hsk (by decide!))
      (sealed_append (by decide)
        (sealed_range_count (by decide) _ (fun _ => 1)
          (fun k v => (enumLine_sealed k v).2.1) s.Enums)
        (sealed_check 0 _ hend (by decide!)))) ?_
    simp
  · refine sealed_cast (sealed_append (by decide)
      (sealed_check 0 _ hsk (by decide!))
      (sealed_append (by decide)
        (sealed_range_count (by decide) _ (fun _ => 0)
          (fun k v => (enumLine_sealed k v).2.2) s.Enums)
        (sealed_check 0 _ hend (by decide!)))) ?_
    simp

/-! ### The bytes of a struct declaration -/

theorem shapeBody_struct (E : Env) (svc : Service) (opening : String)
    (tag : Shape → Member → String) (closing : String → Out) (name : String) (s : Shape)
    (hT : s.ShapeType = "structure") (hX : s.Exception = false) :
    shapeBody E svc opening tag closing name s
      = [Emit.text "\n", .text "\n", .text "\n\n// ", .val (E.exportable name),
          .text " is undocumented.\ntype ", .val (E.exportable name), .text opening]
        ++ (memberFields E (tag s) s.Members
          ++ (closing (E.exportable name) ++ [.text "\n", .text "\n"])) := by
  simp [shapeBody, hT, hX]

theorem shapeBody_rest (E : Env) (svc : Service) (opening : String)
    (tag : Shape → Member → String) (closing : String → Out) (name : String) (s : Shape) :
    (s.ShapeType = "structure" → s.Exception = true →
        shapeBody E svc opening tag closing name s
          = [.text "\n", .text "\n", .text "\n", .text "\n"])
      ∧ (s.ShapeType ≠ "structure" → s.Enum = false →
        shapeBody E svc opening tag closing name s = [.text "\n", .text "\n"]) := by
  constructor
  · intro hT hX
    simp [shapeBody, hT, hX]
  · intro hT hE
    simp [shapeBody, hT, hE]

set_option maxRecDepth 100000 in
theorem memberLine_sealed (a b c : String) :
    Sealed " struct \x7b" ["struct"]
        [Emit.text "\n", .val a, .text " ", .val b, .text " ", .val c, .text "  "] 0
      ∧ Sealed "const (" ["const"]
        [Emit.text "\n", .val a, .text " ", .val b, .text " ", .val c, .text "  "] 0 :=
  ⟨sealed_check 0 [some "\n", none, some " ", none, some " ", none, some "  "] rfl (by decide!),
   sealed_check 0 [some "\n", none, some " ", none, some " ", none, some "  "] rfl (by decide!)⟩

theorem memberFields_sealed (E : Env) (tag : Member → String) (ms : List (String × Member)) :
    Sealed " struct \x7b" ["struct"] (memberFields E tag ms) 0
      ∧ Sealed "const (" ["const"] (memberFields E tag ms) 0 := by
  unfold memberFields
  exact ⟨sealed_range (by decide) _ (fun _ _ => (memberLine_sealed _ _ _).1) ms,
    sealed_range (by decide) _ (fun _ _ => (memberLine_sealed _ _ _).2) ms⟩

set_option maxRecDepth 100000 in
/-- How often the round of the shape loop for a shape opens a struct
declaration and a constant block, for the openings and closings of the five
templates. -/
theorem shapeBody_sealed (E : Env) (svc : Service) (opening : String)
    (tag : Shape → Member → String) (closing : String → Out) (name : String) (s : Shape)
    (hopen : opening = " struct \x7b\n" ∨ opening = " struct \x7b\n  XMLName xml.Name\n")
    (hclose : closing = plainClosing ∨ closing = xmlClosing) :
    Sealed " struct \x7b" ["struct"] (shapeBody E svc opening tag closing name s)
        (if declaresStruct s then 1 else 0)
      ∧ (s.ShapeType = "structure" →
          Sealed "const (" ["const"] (shapeBody E svc opening tag closing name s) 0) := by
  have hmf := memberFields_sealed E (tag s) s.Members
  have hcl : Sealed " struct \x7b" ["struct"]
        (closing (E.exportable name) ++ [.text "\n", .text "\n"]) 0
      ∧ Sealed "const (" ["const"]
        (closing (E.exportable name) ++ [.text "\n", .text "\n"]) 0 := by
    rcases hclose with rfl | rfl
    · exact ⟨sealed_check 0 [some "\n\x7d\n\n", some "\n", some "\n"] rfl (by decide!),
        sealed_check 0 [some "\n\x7d\n\n", some "\n", some "\n"] rfl (by decide!)⟩
    · exact ⟨sealed_check 0
          [some "\n\x7d\n\nfunc (v *", none,
            some ") MarshalXML(e *xml.Encoder, start xml.StartElement) error \x7b\n\treturn aws.MarshalXML(v, e, start)\n\x7d\n\n",
            some "\n", some "\n"] rfl (by decide!),
        sealed_check 0
          [some "\n\x7d\n\nfunc (v *", none,
            some ") MarshalXML(e *xml.Encoder, start xml.StartElement) error \x7b\n\treturn aws.MarshalXML(v, e, start)\n\x7d\n\n",
            some "\n", some "\n"] rfl (by decide!)⟩
  have hhead : Sealed " struct \x7b" ["struct"]
        [Emit.text "\n", .text "\n", .text "\n\n// ", .val (E.exportable name),
          .text " is undocumented.\ntype ", .val (E.exportable name), .text opening] 1
      ∧ Sealed "const (" ["const"]
        [Emit.text "\n", .text "\n", .text "\n\n// ", .val (E.exportable name),
          .text " is undocumented.\ntype ", .val (E.exportable name), .text opening] 0 := by
    rcases hopen with rfl | rfl
    · exact ⟨sealed_check 1
          [some "\n", some "\n", some "\n\n// ", none, some " is undocumented.\ntype ", none,
            some " struct \x7b\n"] rfl (by decide!),
        sealed_check 0
          [some "\n", some "\n", some "\n\n// ", none, some " is undocumented.\ntype ", none,
            some " struct \x7b\n"] rfl (by decide!)⟩
    · exact ⟨sealed_check 1
          [some "\n", some "\n", some "\n\n// ", none, some " is undocumented.\ntype ", none,
            some " struct \x7b\n  XMLName xml.Name\n"] rfl (by decide!),
        sealed_check 0
          [some "\n", some "\n", some "\n\n// ", none, some " is undocumented.\ntype ", none,
            some " struct \x7b\n  XMLName xml.Name\n"] rfl (by decide!)⟩
  by_cases hT : s.ShapeType = "structure"
  · cases hX : s.Exception
    · rw [shapeBody_struct E svc opening tag closing name s hT hX]
      generalize memberFields E (tag s) s.Members = MF at hmf ⊢
      generalize closing (E.exportable name) ++ [Emit.text "\n", .text "\n"] = CL at hcl ⊢
      constructor
      · refine sealed_cast (sealed_append (by decide) hhead.1
          (sealed_append (by decide) hmf.1 hcl.1)) ?_
        simp [declaresStruct, hT, hX]
      · intro _
        exact sealed_append0 (by decide) hhead.2 (sealed_append0 (by decide) hmf.2 hcl.2)
    · rw [(shapeBody_rest E svc opening tag closing name s).1 hT hX]
      constructor
      · refine sealed_cast (sealed_check 0 _ rfl (by decide!)) ?_
        simp [declaresStruct, hT, hX]
      · intro _
        exact sealed_check 0 _ rfl (by decide!)
  · refine ⟨?_, fun h => absurd h hT⟩
    have hd : declaresStruct s = false := by simp [declaresStruct, hT]
    rw [hd]
    cases hE : s.Enum
    · rw [(shapeBody_rest E svc opening tag closing name s).2 hT hE]
      exact sealed_check 0 _ rfl (by decide!)
    · exact (shapeBody_enum_sealed E svc opening tag closing name s hT hE).2.2

/-! ### Struct declarations in the bytes of a client -/

set_option maxRecDepth 100000 in
theorem frame_sealed (svc : Service) :
    Sealed " struct \x7b" ["struct"] (header svc) 0
      ∧ Sealed " struct \x7b" ["struct"] footer 0
      ∧ Sealed " struct \x7b" ["struct"] (jsonPreamble svc) 1
      ∧ Sealed " struct \x7b" ["struct"] (queryPreamble svc "QueryClient") 1
      ∧ Sealed " struct \x7b" ["struct"] (queryPreamble svc "EC2Client") 1
      ∧ Sealed " struct \x7b" ["struct"] (restXMLPreamble svc) 1
      ∧ Sealed " struct \x7b" ["struct"] (restJSONPreamble svc) 1 := by
  refine ⟨?_, ?_, ?_, ?_, ?_, ?_, ?_⟩ <;>
    refine sealed_leaf ?_ ?_ <;>
    simp only [header, footer, jsonPreamble, queryPreamble, restXMLPreamble, restJSONPreamble,
      skeleton, List.map_cons, List.map_nil] <;> decide!

set_option maxRecDepth 100000 in
theorem jsonMethod_sealed (E : Env) (svc : Service) (name : String) (op : Operation) :
    Sealed " struct \x7b" ["struct"] (jsonMethod E svc name op) 0 := by
  unfold jsonMethod
  cases op.Input <;> cases op.Output <;> refine sealed_leaf ?_ ?_ <;>
    simp only [skeleton, List.map_cons, List.map_nil, List.cons_append, List.nil_append,
      List.append_nil, List.append_assoc] <;> decide!

set_option maxRecDepth 100000 in
theorem queryMethod_sealed (E : Env) (svc : Service) (name : String) (op : Operation)
    (out : Out) (h : queryMethod E svc name op = .ok out) :
    Sealed " struct \x7b" ["struct"] out 0 := by
  obtain ⟨init, rfl, hinit⟩ := queryMethod_cases E svc name op out h
  unfold queryMethodText
  rcases hinit with ⟨_, rfl⟩ | ⟨o, r, _, _, rfl⟩ <;>
    cases op.Input <;> cases op.Output <;> cases op.InputRef <;> cases op.OutputRef <;>
    refine sealed_leaf ?_ ?_ <;>
    simp only [skeleton, List.map_cons, List.map_nil, List.cons_append, List.nil_append,
      List.append_nil, List.append_assoc] <;> decide!

set_option maxRecDepth 100000 in
theorem restJSONMethod_sealed (E : Env) (svc : Service) (name : String) (op : Operation) :
    Sealed " struct \x7b" ["struct"] (restJSONMethod E svc name op) 0 := by
  have hd : (" struct \x7b", "struct") ∈ declPairs := by decide
  rw [restJSONMethod_eq]
  exact restMethod_sealed E svc name op _ _ _ (declPairs_method hd) (by decide!)
    (restJSONBody_sealed E op (List.mem_append_right _ hd))
    (restJSONResponse_sealed E op (List.mem_append_right _ hd))

set_option maxRecDepth 100000 in
theorem restXMLMethod_sealed (E : Env) (svc : Service) (name : String) (op : Operation)
    (out : Out) (h : restXMLMethod E svc name op = .ok out) :
    Sealed " struct \x7b" ["struct"] out 0 := by
  have hd : (" struct \x7b", "struct") ∈ declPairs := by decide
  obtain ⟨body, hb, rfl⟩ := restXMLMethod_ok h
  rw [restXMLMethodText_eq]
  exact restMethod_sealed E svc name op _ _ _ (declPairs_method hd) (by decide!)
    (restXMLBody_sealed hb (List.mem_append_right _ hd))
    (restXMLResponse_sealed E op (List.mem_append_right _ hd))

set_option maxRecDepth 100000 in
theorem wrapperBody_sealed (E : Env) (tag : String → Member → String) (wname : String)
    (s : Shape) : Sealed " struct \x7b" ["struct"] (wrapperBody E tag wname s) 1 := by
  have hmf := (memberFields_sealed E (tag wname) s.Members).1
  unfold wrapperBody
  generalize memberFields E (tag wname) s.Members = MF at hmf ⊢
  refine sealed_cast (sealed_append (by decide) (sealed_append (by decide)
    (sealed_check 1
      [some "\n\n// ", none, some " is a wrapper for ", none, some ".\ntype ", none,
        some " struct \x7b\n"] rfl (by decide!)) hmf)
    (sealed_check 0 [some "\n\x7d\n\n"] rfl (by decide!))) rfl

theorem shapes_sealed (E : Env) (svc : Service) (opening : String)
    (tag : Shape → Member → String) (closing : String → Out)
    (hopen : opening = " struct \x7b\n" ∨ opening = " struct \x7b\n  XMLName xml.Name\n")
    (hclose : closing = plainClosing ∨ closing = xmlClosing) (l : List (String × Shape)) :
    Sealed " struct \x7b" ["struct"] (range (shapeBody E svc opening tag closing) l)
      (structNames E l).length := by
  refine sealed_cast (sealed_range_count (by decide) _
    (fun kv => if declaresStruct kv.2 then 1 else 0)
    (fun k v => (shapeBody_sealed E svc opening tag closing k v hopen hclose).1) l) ?_
  rw [sum_map_ite l (fun kv => declaresStruct kv.2)]
  simp [structNames]

theorem wrappers_sealed (E : Env) (tag : String → Member → String)
    (l : List (String × Shape)) :
    Sealed " struct \x7b" ["struct"] (range (wrapperBody E tag) l) (wrapperNames E l).length := by
  refine sealed_cast (sealed_range_count (by decide) _ (fun _ => 1)
    (fun k v => wrapperBody_sealed E tag k v) l) ?_
  rw [sum_map_one]
  simp [wrapperNames]

set_option maxRecDepth 100000 in
theorem clientText_sealed :
    Sealed " struct \x7b" ["struct"] [Emit.text "\n"] 0
      ∧ Sealed " struct \x7b" ["struct"] [Emit.text "\n\n"] 0
      ∧ Sealed " struct \x7b" ["struct"]
        [Emit.text "\nvar _ bytes.Reader\nvar _ url.URL\nvar _ fmt.Stringer\nvar _ strings.Reader\nvar _ strconv.NumError\nvar _ = ioutil.Discard\n"] 0
      ∧ Sealed " struct \x7b" ["struct"]
        [Emit.text "\nvar _ bytes.Reader\nvar _ url.URL\nvar _ fmt.Stringer\nvar _ strings.Reader\nvar _ strconv.NumError\nvar _ = ioutil.Discard\nvar _ json.RawMessage\n"] 0 :=
  ⟨sealed_check 0 _ rfl (by decide!), sealed_check 0 _ rfl (by decide!),
   sealed_check 0 _ rfl (by decide!), sealed_check 0 _ rfl (by decide!)⟩

theorem jsonClient_sealed (E : Env) (svc : Service) :
    Sealed " struct \x7b" ["struct"] (jsonClient E svc)
      (svc.Name :: structNames E svc.Shapes).length := by
  have hp : '\n' ∉ (" struct \x7b" : String).data.tail := by decide
  have hf := frame_sealed svc
  have ht := clientText_sealed
  have hm := sealed_range hp (jsonMethod E svc) (fun k v => jsonMethod_sealed E svc k v)
    svc.Operations
  have hs := shapes_sealed E svc _ (fun _ m => m.JSONTag) _ (Or.inl rfl) (Or.inl rfl) svc.Shapes
  unfold jsonClient
  refine sealed_cast (sealed_append hp (sealed_append hp (sealed_append hp (sealed_append hp
    (sealed_append hp (sealed_append hp (sealed_append hp (sealed_append hp ht.1 hf.1)
      hf.2.2.1) hm) ht.2.1) hs) ht.2.1) hf.2.1) ht.1) ?_
  simp only [List.length_cons]
  omega

theorem restJSONClient_sealed (E : Env) (svc : Service) :
    Sealed " struct \x7b" ["struct"] (restJSONClient E svc)
      (svc.Name :: structNames E svc.Shapes).length := by
  have hp : '\n' ∉ (" struct \x7b" : String).data.tail := by decide
  have hf := frame_sealed svc
  have ht := clientText_sealed
  have hm := sealed_range hp (restJSONMethod E svc)
    (fun k v => restJSONMethod_sealed E svc k v) svc.Operations
  have hs := shapes_sealed E svc _ (fun _ m => m.JSONTag) _ (Or.inl rfl) (Or.inl rfl) svc.Shapes
  unfold restJSONClient
  refine sealed_cast (sealed_append hp (sealed_append hp (sealed_append hp (sealed_append hp
    (sealed_append hp (sealed_append hp (sealed_append hp (sealed_append hp ht.1 hf.1)
      hf.2.2.2.2.2.2) hm) ht.2.1) hs) ht.2.1) hf.2.1) ht.2.2.2) ?_
  simp only [List.length_cons]
  omega

theorem restXMLClient_sealed (E : Env) (svc : Service) (out : Out)
    (h : restXMLClient E svc = .ok out) :
    Sealed " struct \x7b" ["struct"] out (svc.Name :: structNames E svc.Shapes).length := by
  have hp : '\n' ∉ (" struct \x7b" : String).data.tail := by decide
  have hf := frame_sealed svc
  have ht := clientText_sealed
  have hs := shapes_sealed E svc _ (fun s m => m.XMLTag s.ResultWrapper) _ (Or.inr rfl)
    (Or.inr rfl) svc.Shapes
  unfold restXMLClient at h
  split at h
  · cases h
  · next methods hms =>
    cases h
    have hm := sealed_rangeE hp (restXMLMethod E svc)
      (fun k v out h => restXMLMethod_sealed E svc k v out h) svc.Operations methods hms
    unfold restXMLClientText
    refine sealed_cast (sealed_append hp (sealed_append hp (sealed_append hp (sealed_append hp
      (sealed_append hp (sealed_append hp (sealed_append hp (sealed_append hp ht.1 hf.1)
        hf.2.2.2.2.2.1) hm) ht.2.1) hs) ht.2.1) hf.2.1) ht.2.2.1) ?_
    simp only [List.length_cons]
    omega

theorem queryClient_sealed (E : Env) (svc : Service) (out : Out)
    (h : queryClient E svc = .ok out) :
    Sealed " struct \x7b" ["struct"] out
      (svc.Name :: structNames E svc.Shapes ++ wrapperNames E svc.Wrappers).length := by
  have hp : '\n' ∉ (" struct \x7b" : String).data.tail := by decide
  have hf := frame_sealed svc
  have ht := clientText_sealed
  have hs := shapes_sealed E svc _ (fun s m => m.QueryTag s.ResultWrapper) _ (Or.inl rfl)
    (Or.inl rfl) svc.Shapes
  have hw := wrappers_sealed E (fun wname m => m.QueryTag wname) svc.Wrappers
  unfold queryClient at h
  split at h
  · cases h
  · next methods hms =>
    cases h
    have hm := sealed_rangeE hp (queryMethod E svc)
      (fun k v out h => queryMethod_sealed E svc k v out h) svc.Operations methods hms
    unfold queryClientText
    refine sealed_cast (sealed_append hp (sealed_append hp (sealed_append hp (sealed_append hp
      (sealed_append hp (sealed_append hp (sealed_append hp (sealed_append hp (sealed_append hp
        (sealed_append hp ht.1 hf.1) hf.2.2.2.1) hm) ht.2.1) hs) ht.2.1) hw) ht.2.1) hf.2.1)
      ht.1) ?_
    simp only [List.length_cons, List.length_append]
    omega

theorem ec2Client_sealed (E : Env) (svc : Service) (out : Out)
    (h : ec2Client E svc = .ok out) :
    Sealed " struct \x7b" ["struct"] out
      (svc.Name :: structNames E svc.Shapes ++ wrapperNames E svc.Wrappers).length := by
  have hp : '\n' ∉ (" struct \x7b" : String).data.tail := by decide
  have hf := frame_sealed svc
  have ht := clientText_sealed
  have hs := shapes_sealed E svc _ (fun _ m => m.EC2Tag) _ (Or.inl rfl) (Or.inl rfl) svc.Shapes
  have hw := wrappers_sealed E (fun _ m => m.EC2Tag) svc.Wrappers
  unfold ec2Client at h
  split at h
  · cases h
  · next methods hms =>
    cases h
    have hm := sealed_rangeE hp (ec2Method E svc)
      (fun k v out h => queryMethod_sealed E svc k v out h) svc.Operations methods hms
    unfold ec2ClientText
    refine sealed_cast (sealed_append hp (sealed_append hp (sealed_append hp (sealed_append hp
      (sealed_append hp (sealed_append hp (sealed_append hp (sealed_append hp (sealed_append hp
        (sealed_append hp ht.1 hf.1) hf.2.2.2.2.1) hm) ht.2.1) hs) ht.2.1) hw) ht.2.1) hf.2.1)
      ht.1) ?_
    simp only [List.length_cons, List.length_append]
    omega

/-- What a scan for the declared names and the count of the openings give for
the bytes. -/
theorem declaresInBytes_of {names : List String} {out : Out}
    (hnames : structDecls out = names) (hs : Sealed " struct \x7b" ["struct"] out names.length) :
    declaresInBytes names out := by
  refine ⟨fun n hn => ?_, hs.2⟩
  rw [← hnames] at hn
  exact rendersText_of_valBetween "type " " struct \x7b" out n hn

set_option maxRecDepth 100000 in
/-- C7, as stated, fails: in `json`, for a service named like one of its
structure shapes, the rendered text declares the struct type `Gateway` twice,
once as the client and once for the shape. -/
theorem C7_client_repeats_declaration :
    declaresStruct { Name := "Gateway", ShapeType := "structure" } = true
      ∧ structDecls (jsonClient (sampleEnv false) gatewayService) = ["Gateway", "Gateway"]
      ∧ (structDecls (jsonClient (sampleEnv false) gatewayService)).count "Gateway" = 2
      ∧ occurrences "type Gateway struct \x7b" (jsonClient (sampleEnv false) gatewayService)
        = 2 := by
  refine ⟨by decide, by decide, by decide, by decide!⟩

/-- C7, amended: the struct types a rendered client declares are, in order, the
client struct named `Service.Name`, then one struct named `exportable(shapeName)`
for every shape that is a structure and not an exception (and none for any other
shape), then, in `query` and `ec2`, one struct named `exportable(wrapperName)`
for every entry of `Wrappers`.  The declaration `type <name> struct` of each of
them is in the rendered bytes, and, provided that no value written from the
model contains `struct`, the bytes open exactly as many struct declarations as
there are names in this list.  `json` and `rest-json` always render; the other
three render whenever every operation has its reference present with its
shape. -/
theorem C7_struct_declarations (E : Env) (svc : Service) :
    (structDecls (jsonClient E svc) = svc.Name :: structNames E svc.Shapes
        ∧ declaresInBytes (svc.Name :: structNames E svc.Shapes) (jsonClient E svc))
      ∧ (structDecls (restJSONClient E svc) = svc.Name :: structNames E svc.Shapes
        ∧ declaresInBytes (svc.Name :: structNames E svc.Shapes) (restJSONClient E svc))
      ∧ (∀ out, restXMLClient E svc = .ok out →
          structDecls out = svc.Name :: structNames E svc.Shapes
            ∧ declaresInBytes (svc.Name :: structNames E svc.Shapes) out)
      ∧ (∀ out, queryClient E svc = .ok out →
          structDecls out
              = svc.Name :: structNames E svc.Shapes ++ wrapperNames E svc.Wrappers
            ∧ declaresInBytes
                (svc.Name :: structNames E svc.Shapes ++ wrapperNames E svc.Wrappers) out)
      ∧ (∀ out, ec2Client E svc = .ok out →
          structDecls out
              = svc.Name :: structNames E svc.Shapes ++ wrapperNames E svc.Wrappers
            ∧ declaresInBytes
                (svc.Name :: structNames E svc.Shapes ++ wrapperNames E svc.Wrappers) out)
      ∧ ((∀ kv ∈ svc.Operations, kv.2.Input.isSome = true → kv.2.InputRef.isSome = true) →
          ∃ out, restXMLClient E svc = .ok out)
      ∧ ((∀ kv ∈ svc.Operations, kv.2.Output.isSome = true → kv.2.OutputRef.isSome = true) →
          (∃ out, queryClient E svc = .ok out) ∧ ∃ out, ec2Client E svc = .ok out) :=
  ⟨⟨(jsonClient_piece E svc).1,
      declaresInBytes_of (jsonClient_piece E svc).1 (jsonClient_sealed E svc)⟩,
   ⟨(restJSONClient_piece E svc).1,
      declaresInBytes_of (restJSONClient_piece E svc).1 (restJSONClient_sealed E svc)⟩,
   fun out h => ⟨(restXMLClient_piece E svc out h).1,
      declaresInBytes_of (restXMLClient_piece E svc out h).1 (restXMLClient_sealed E svc out h)⟩,
   fun out h => ⟨(queryClient_piece E svc out h).1,
      declaresInBytes_of (queryClient_piece E svc out h).1 (queryClient_sealed E svc out h)⟩,
   fun out h => ⟨(ec2Client_piece E svc out h).1,
      declaresInBytes_of (ec2Client_piece E svc out h).1 (ec2Client_sealed E svc out h)⟩,
   restXMLClient_renders E svc, queryClient_renders E svc⟩

set_option maxRecDepth 100000 in
/-- C7 witness: the query service with the operation `Describe`, its two shapes
and the wrapper `DescribeResult`; its bytes open four struct declarations. -/
theorem C7_struct_declarations_witness :
    (∀ kv ∈ stackService.Operations, kv.2.Output.isSome = true → kv.2.OutputRef.isSome = true)
      ∧ ∃ out, queryClient (sampleEnv false) stackService = .ok out
        ∧ structDecls out = ["Stacks", "DescribeInput", "DescribeOutput", "DescribeResult"]
        ∧ rendersText "type DescribeResult struct \x7b" out = true
        ∧ valsAvoid ["struct"] out = true
        ∧ occurrences " struct \x7b" out = 4 := by
  refine ⟨by decide, ?_⟩
  obtain ⟨out, hout⟩ := ((C7_struct_declarations (sampleEnv false) stackService).2.2.2.2.2.2
    (by decide)).1
  have h := (C7_struct_declarations (sampleEnv false) stackService).2.2.2.1 out hout
  have hv : valsAvoid ["struct"] out = true := by
    have ho : Except.ok out = queryClient (sampleEnv false) stackService := hout.symm
    have hq : queryClient (sampleEnv false) stackService
        = .ok (queryClientText (sampleEnv false) stackService
            (queryMethodText (sampleEnv false) stackService "Describe" describeOperation
              [.text "resp = ", .val "&DescribeResult\x7b\x7d"] ++ [])) := rfl
    rw [hq] at ho
    cases ho
    decide!
  exact ⟨out, hout, h.1, h.2.1 "DescribeResult" (by decide), hv, h.2.2 hv⟩

set_option maxRecDepth 100000 in
/-- C8, as stated, fails: a shape with the `Enum` flag set whose `ShapeType` is
`structure` gets no constant block; none of the five templates writes
`const (` for it, and the rendered bytes hold no `const (`. -/
theorem C8_enum_structure_has_no_constants :
    emitsText "const (" (jsonClient (sampleEnv false) enumStructService) = false
      ∧ emitsText "const (" (restJSONClient (sampleEnv false) enumStructService) = false
      ∧ (∃ out, restXMLClient (sampleEnv false) enumStructService = .ok out
          ∧ emitsText "const (" out = false)
      ∧ (∃ out, queryClient (sampleEnv false) enumStructService = .ok out
          ∧ emitsText "const (" out = false)
      ∧ (∃ out, ec2Client (sampleEnv false) enumStructService = .ok out
          ∧ emitsText "const (" out = false)
      ∧ rendersText "const (" (jsonClient (sampleEnv false) enumStructService) = false
      ∧ rendersText "const (" (restJSONClient (sampleEnv false) enumStructService) = false
      ∧ (∃ out, restXMLClient (sampleEnv false) enumStructService = .ok out
          ∧ rendersText "const (" out = false)
      ∧ (∃ out, queryClient (sampleEnv false) enumStructService = .ok out
          ∧ rendersText "const (" out = false)
      ∧ (∃ out, ec2Client (sampleEnv false) enumStructService = .ok out
          ∧ rendersText "const (" out = false) :=
  ⟨by decide, by decide, ⟨_, rfl, by decide⟩, ⟨_, rfl, by decide⟩, ⟨_, rfl, by decide⟩,
   by decide!, by decide!, ⟨_, rfl, by decide!⟩, ⟨_, rfl, by decide!⟩, ⟨_, rfl, by decide!⟩⟩

/-- C8, amended: for a shape that has the `Enum` flag set and is not a
structure, the round of the shape loop for it (the same in the five templates,
whatever the opening, tag and closing of struct declarations) writes one
constant block: one `const (`, one closing line, and exactly one constant
`name = value` per entry of `Enums`, in the order of `Enums`, with no other
value than the service name of the heading.  Its bytes are the heading, the
lines `name = value` of the entries in order and the closing line, and nothing
else; provided that no value contains `const` or `=`, they hold `const (` once
and ` = ` once per entry.  For a shape that is a structure, whatever its `Enum`
flag, the round writes no `const (` in any of the five templates, and its bytes
hold none provided that no value contains `const`.  These writes are part of
the text each of the five templates renders for a model that holds the shape;
`json` and `rest-json` always render, the other three whenever every operation
has its reference present with its shape. -/
theorem C8_constant_blocks (E : Env) (svc : Service) (opening : String)
    (tag : Shape → Member → String) (closing : String → Out) (name : String) (s : Shape)
    (hmem : (name, s) ∈ svc.Shapes) :
    (s.ShapeType ≠ "structure" → s.Enum = true →
        isConstBlock svc.Name s.Enums (shapeBody E svc opening tag closing name s)
          ∧ (shapeBody E svc opening tag closing name s).bytes
            = "\n\n// Possible values for " ++ svc.Name ++ ".\nconst (\n"
                ++ constLines s.Enums ++ "\n)\n\n"
          ∧ (valsAvoid ["const", "="] (shapeBody E svc opening tag closing name s) = true →
              occurrences "const (" (shapeBody E svc opening tag closing name s) = 1
                ∧ occurrences " = " (shapeBody E svc opening tag closing name s)
                  = s.Enums.length))
      ∧ (s.ShapeType = "structure" →
          emitsText "const (" (shapeBody E svc " struct \x7b\n" tag plainClosing name s) = false
            ∧ emitsText "const ("
                (shapeBody E svc " struct \x7b\n  XMLName xml.Name\n" tag xmlClosing name s)
              = false
            ∧ (valsAvoid ["const"] (shapeBody E svc " struct \x7b\n" tag plainClosing name s)
                  = true →
                rendersText "const (" (shapeBody E svc " struct \x7b\n" tag plainClosing name s)
                  = false)
            ∧ (valsAvoid ["const"]
                  (shapeBody E svc " struct \x7b\n  XMLName xml.Name\n" tag xmlClosing name s)
                  = true →
                rendersText "const ("
                  (shapeBody E svc " struct \x7b\n  XMLName xml.Name\n" tag xmlClosing name s)
                  = false))
      ∧ shapeBody E svc " struct \x7b\n" (fun _ m => m.JSONTag) plainClosing name s
          <:+: jsonClient E svc
      ∧ shapeBody E svc " struct \x7b\n" (fun _ m => m.JSONTag) plainClosing name s
          <:+: restJSONClient E svc
      ∧ (∀ out, restXMLClient E svc = .ok out →
          shapeBody E svc " struct \x7b\n  XMLName xml.Name\n"
            (fun s m => m.XMLTag s.ResultWrapper) xmlClosing name s <:+: out)
      ∧ (∀ out, queryClient E svc = .ok out →
          shapeBody E svc " struct \x7b\n" (fun s m => m.QueryTag s.ResultWrapper)
            plainClosing name s <:+: out)
      ∧ (∀ out, ec2Client E svc = .ok out →
          shapeBody E svc " struct \x7b\n" (fun _ m => m.EC2Tag) plainClosing name s
            <:+: out)
      ∧ ((∀ kv ∈ svc.Operations, kv.2.Input.isSome = true → kv.2.InputRef.isSome = true) →
          ∃ out, restXMLClient E svc = .ok out)
      ∧ ((∀ kv ∈ svc.Operations, kv.2.Output.isSome = true → kv.2.OutputRef.isSome = true) →
          (∃ out, queryClient E svc = .ok out) ∧ ∃ out, ec2Client E svc = .ok out) := by
  refine ⟨?_, ?_, ?_, ?_, ?_, ?_, ?_, restXMLClient_renders E svc, queryClient_renders E svc⟩
  · intro hT hE
    have hs := shapeBody_enum_sealed E svc opening tag closing name s hT hE
    refine ⟨?_, shapeBody_enum_bytes E svc opening tag closing name s hT hE, fun hv =>
      ⟨hs.1.2 (valsAvoid_mono (by decide) _ hv), hs.2.1.2 (valsAvoid_mono (by decide) _ hv)⟩⟩
    rw [shapeBody_enum E svc opening tag closing name s hT hE]
    refine ⟨?_, ?_, ?_, ?_, ?_⟩
    · rw [countText_append, countText_append, enum_texts _ (by decide) (by decide)]
      simp +decide [countText, texts]
    · rw [countText_append, countText_append, enum_texts _ (by decide) (by decide)]
      simp +decide [countText, texts]
    · have h := enum_names s.Enums .armed (fun _ => by simp)
      simpa +decide [valBetween, scan_cons, scanHit, scanNext] using h
    · have h := enum_values s.Enums .idle
      simpa +decide [valBetween, scan_cons, scanHit, scanNext] using h
    · simp [vals_append, vals, enum_vals]
  · intro hT
    refine ⟨?_, ?_, fun hv => ?_, fun hv => ?_⟩
    · unfold shapeBody plainClosing
      cases s.Exception <;>
        simp +decide [hT, emitsText_append, memberFields_quiet_const, emitsText_text,
          emitsText_val, emitsText_nil]
    · unfold shapeBody xmlClosing
      cases s.Exception <;>
        simp +decide [hT, emitsText_append, memberFields_quiet_const, emitsText_text,
          emitsText_val, emitsText_nil]
    · exact sealed_quiet ((shapeBody_sealed E svc _ tag _ name s (Or.inl rfl) (Or.inl rfl)).2 hT)
        (List.mem_singleton_self _) (by decide) hv
    · exact sealed_quiet ((shapeBody_sealed E svc _ tag _ name s (Or.inr rfl) (Or.inr rfl)).2 hT)
        (List.mem_singleton_self _) (by decide) hv
  · exact infix_then3 (infix_range _ _ _ _ hmem)
  · exact infix_then3 (infix_range _ _ _ _ hmem)
  · intro out h
    unfold restXMLClient at h
    split at h
    · cases h
    · cases h
      exact infix_then3 (infix_range _ _ _ _ hmem)
  · intro out h
    unfold queryClient at h
    split at h
    · cases h
    · cases h
      exact infix_then5 (infix_range _ _ _ _ hmem)
  · intro out h
    unfold ec2Client at h
    split at h
    · cases h
    · cases h
      exact infix_then5 (infix_range _ _ _ _ hmem)

set_option maxRecDepth 100000 in
/-- C8 witness: the string shape `Kind` with the entries `A` and `B` gets the
block with the two constants, `A` before `B`, and its bytes hold `const (` once
and ` = ` twice; the structure `Kind` with the same entries gets no
`const (`. -/
theorem C8_constant_blocks_witness :
    (("Kind", ({ Name := "Kind", ShapeType := "string", Enum := true,
                 Enums := [("A", "\"a\""), ("B", "\"b\"")] } : Shape)) ∈ enumService.Shapes
      ∧ isConstBlock "Svc" [("A", "\"a\""), ("B", "\"b\"")]
          (shapeBody (sampleEnv false) enumService " struct \x7b\n" (fun _ m => m.JSONTag)
            plainClosing "Kind"
            { Name := "Kind", ShapeType := "string", Enum := true,
              Enums := [("A", "\"a\""), ("B", "\"b\"")] })
      ∧ (shapeBody (sampleEnv false) enumService " struct \x7b\n" (fun _ m => m.JSONTag)
            plainClosing "Kind"
            { Name := "Kind", ShapeType := "string", Enum := true,
              Enums := [("A", "\"a\""), ("B", "\"b\"")] }).bytes
          = "\n\n// Possible values for Svc.\nconst (\n\nA = \"a\"\nB = \"b\"\n)\n\n"
      ∧ occurrences " = "
          (shapeBody (sampleEnv false) enumService " struct \x7b\n" (fun _ m => m.JSONTag)
            plainClosing "Kind"
            { Name := "Kind", ShapeType := "string", Enum := true,
              Enums := [("A", "\"a\""), ("B", "\"b\"")] }) = 2)
    ∧ (("Kind", ({ Name := "Kind", ShapeType := "structure", Enum := true,
                   Enums := [("A", "\"a\""), ("B", "\"b\"")] } : Shape))
          ∈ enumStructService.Shapes
      ∧ rendersText "const ("
          (shapeBody (sampleEnv false) enumStructService " struct \x7b\n"
            (fun _ m => m.JSONTag) plainClosing "Kind"
            { Name := "Kind", ShapeType := "structure", Enum := true,
              Enums := [("A", "\"a\""), ("B", "\"b\"")] }) = false) := by
  have h := (C8_constant_blocks (sampleEnv false) enumService " struct \x7b\n"
    (fun _ m => m.JSONTag) plainClosing "Kind" _ (List.mem_cons_self _ _)).1 (by decide) rfl
  have g := (C8_constant_blocks (sampleEnv false) enumStructService " struct \x7b\n"
    (fun _ m => m.JSONTag) plainClosing "Kind" _ (List.mem_cons_self _ _)).2.1 rfl
  exact ⟨⟨List.mem_cons_self _ _, h.1, h.2.1, (h.2.2 (by decide!)).2⟩,
    List.mem_cons_self _ _, g.2.2.1 (by decide!)⟩

end Model
